import Mathlib

/-!
# Calculadora de Subredes: embedding of `calculadora.cpp`

A shallow embedding of the subnet calculator.

* `uint32_t` values are natural numbers below `2 ^ 32`; every operation that can
  leave that range is reduced modulo `2 ^ 32` explicitly.
* `int` values are integers; `int` arithmetic that can leave the range of `int` is
  wrapped (two's complement) explicitly.
* `std::string` is `String`.
* `calcularSubredes` writes to an `ostream`; the embedding returns the list of
  things written, one `Salida` per output statement of the source (pure layout,
  such as blank lines and rules, is left out).
* What the C++ standard leaves open and the program can reach is a parameter,
  collected in `Plataforma`: the value of a left shift whose count is outside
  `[0, 31]`, the `int` a NaN converts to, the `uint32_t` that `pow(2, 32)` converts
  to, and the order `std::sort` gives to elements that compare equivalent.
* `std::sort` is also embedded as one library implements it: `std_sort` follows the
  `std::sort` of GCC's libstdc++ (`bits/stl_algo.h` and `bits/stl_heap.h`), and
  `plataformaGCC` is the platform that runs it.
-/

namespace Calculadora

/-! ## Machine arithmetic -/

/-- Largest value of an `int`. -/
def INT_MAX : Int := 2147483647

/-- Smallest value of an `int`. -/
def INT_MIN : Int := -2147483648

/-- What the standard leaves open and the program depends on. -/
structure Plataforma where
  /-- Value of `~0u << n` for a count `n` outside `[0, 31]`. -/
  shlFuera : Int → Nat
  /-- Value of `static_cast<int>` on a NaN. -/
  intNaN : Int
  /-- Value of `static_cast<uint32_t>(pow(2, e))` for `e ≥ 32`, which is out of the
  range of `uint32_t`. -/
  uint32Fuera : Nat
  /-- The order produced by `std::sort` on the `pair<int, int>` vector. -/
  stdSort : List (Int × Int) → List (Int × Int)

/-- Left shift `x << n` on `uint32_t`: the low 32 bits of `x * 2 ^ n` for
`0 ≤ n < 32`, and the platform's value otherwise. -/
def shl32 (pl : Plataforma) (x : Nat) (n : Int) : Nat :=
  if 0 ≤ n ∧ n < 32 then (x * 2 ^ n.toNat) % 4294967296 else pl.shlFuera n % 4294967296

/-- Complement `~x` on `uint32_t`. -/
def not32 (x : Nat) : Nat := 4294967295 - x % 4294967296

/-- Sum `a + b` on `uint32_t`. -/
def add32 (a b : Nat) : Nat := (a + b) % 4294967296

/-- Difference `a - b` on `uint32_t`. -/
def sub32 (a b : Nat) : Nat := (a % 4294967296 + 4294967296 - b % 4294967296) % 4294967296

/-- Conversion of a `uint32_t` to `int` (two's complement). -/
def toInt32 (n : Nat) : Int :=
  if n % 4294967296 < 2147483648 then (n % 4294967296 : Nat)
  else (n % 4294967296 : Nat) - 4294967296

/-- An exact integer result brought back into the range of `int` (two's complement). -/
def wrapInt (x : Int) : Int := (x + 2147483648) % 4294967296 - 2147483648

/-- The cast `static_cast<uint32_t>(pow(2, e))` for an `int` exponent `e`: `pow` is
exact on powers of two; a negative exponent gives a fraction, which truncates to `0`;
from `2 ^ 32` on the value does not fit and the platform decides. -/
def pow2u32 (pl : Plataforma) (e : Int) : Nat :=
  if e < 0 then 0
  else if e < 32 then 2 ^ e.toNat
  else pl.uint32Fuera % 4294967296

/-- Search for the least `k` with `n ≤ 2 ^ k`, starting at `k`. -/
def ceilLog2Aux (n : Nat) : Nat → Nat → Nat
  | 0, k => k
  | fuel + 1, k => if n ≤ 2 ^ k then k else ceilLog2Aux n fuel (k + 1)

/-- The value of `static_cast<int>(ceil(log2(n)))` for a positive `int` `n`: the least
`k` with `n ≤ 2 ^ k`. The source computes it in double precision; the embedding takes
`log2` and `ceil` to be the real functions, which is what a `log2` that is exact on
powers of two and accurate to a few units in the last place yields on `int`
arguments. -/
def ceilLog2 (n : Nat) : Nat := ceilLog2Aux n n 0

/-! ## Strings -/

/-- One `getline` after another on the rest of the stream: `tok` is the token read so
far. The stream is not empty when a token is started. -/
def splitLoop (delim : Char) : List Char → List Char → List String
  | [], tok => [String.mk tok]
  | c :: cs, tok =>
    if c = delim then
      String.mk tok :: (if cs = [] then [] else splitLoop delim cs [])
    else splitLoop delim cs (tok ++ [c])

/-- The function `split(s, delim)`: the tokens `getline` extracts until it fails. An
empty stream yields no token, and a delimiter that ends the text opens no further
token. -/
def split (s : String) (delim : Char) : List String :=
  if s.data = [] then [] else splitLoop delim s.data []

/-- The test `isspace` in the "C" locale. -/
def isspace (c : Char) : Bool :=
  c = Char.ofNat 32 || (9 ≤ c.toNat && c.toNat ≤ 13)

/-- The test `isdigit`. -/
def isdigit (c : Char) : Bool := 48 ≤ c.toNat && c.toNat ≤ 57

/-- The digit loop of `stoi`: stops at the first character that is not a digit. -/
def stoiDigits : List Char → Nat → Nat
  | [], acc => acc
  | c :: cs, acc => if isdigit c then stoiDigits cs (acc * 10 + (c.toNat - 48)) else acc

/-- The function `std::stoi(s)` in base 10: skips leading white space, reads an
optional sign and then the longest run of digits; what follows the digits is ignored.
`none` stands for both exceptions: `invalid_argument` (no digit) and `out_of_range`
(not an `int`). -/
def stoi (s : String) : Option Int :=
  let t := s.data.dropWhile isspace
  let neg := t.head? = some (Char.ofNat 45)
  let u := if t.head? = some (Char.ofNat 45) ∨ t.head? = some (Char.ofNat 43) then t.tail else t
  match u with
  | [] => none
  | c :: _ =>
    if isdigit c then
      let v : Int := if neg then -(stoiDigits u 0 : Int) else (stoiDigits u 0 : Int)
      if INT_MIN ≤ v ∧ v ≤ INT_MAX then some v else none
    else none

/-- The function `std::to_string` on an unsigned value. -/
def to_string (n : Nat) : String := Nat.repr n

/-- The `for` loop of `ipToInt` over the octet texts, `i` being the index of the next
one. Any failure returns `0` at once. -/
def ipToIntLoop : List String → Nat → Nat → Nat
  | [], _, result => result
  | o :: os, i, result =>
    match stoi o with
    | none => 0
    | some octet_val =>
      if octet_val < 0 ∨ octet_val > 255 then 0
      else ipToIntLoop os (i + 1) (result ||| (octet_val.toNat <<< (24 - 8 * i)))

/-- The function `ipToInt`: the 32-bit value of a dotted-decimal text, `0` on a format
error. -/
def ipToInt (ip : String) : Nat :=
  let octetos := split ip (Char.ofNat 46)
  if octetos.length ≠ 4 then 0 else ipToIntLoop octetos 0 0

/-- The function `intToIp`: the four octets in decimal, joined by dots. -/
def intToIp (ip : Nat) : String :=
  to_string ((ip >>> 24) &&& 255) ++ "." ++
  to_string ((ip >>> 16) &&& 255) ++ "." ++
  to_string ((ip >>> 8) &&& 255) ++ "." ++
  to_string (ip &&& 255)

/-- The loop of `uint32_tToBinaryString`; the first argument is `i + 1`. -/
def uint32_tToBinaryStringLoop (n : Nat) : Nat → String → String
  | 0, binaryString => binaryString
  | i + 1, binaryString =>
    let b := binaryString.push (if (n >>> i) &&& 1 ≠ 0 then Char.ofNat 49 else Char.ofNat 48)
    uint32_tToBinaryStringLoop n i (if i % 8 = 0 ∧ i ≠ 0 then b.push (Char.ofNat 46) else b)

/-- The function `uint32_tToBinaryString`: 32 bits, most significant first, a dot
every 8 bits. -/
def uint32_tToBinaryString (n : Nat) : String :=
  uint32_tToBinaryStringLoop n 32 ""

/-- The bit scan of `maskToCidr`; the first argument is `i + 1`. -/
def maskToCidrLoop (maskInt : Nat) : Nat → Int → Bool → Int
  | 0, cidr, _ => cidr
  | i + 1, cidr, sawZero =>
    if (maskInt >>> i) &&& 1 ≠ 0 then
      if sawZero then -1 else maskToCidrLoop maskInt i (cidr + 1) sawZero
    else maskToCidrLoop maskInt i cidr true

/-- The function `maskToCidr`: the prefix length of a dotted-decimal mask, `-1` when
the text is not an address or the bits are not contiguous. -/
def maskToCidr (maskDecimal : String) : Int :=
  let maskInt := ipToInt maskDecimal
  if maskInt = 0 ∧ maskDecimal ≠ "0.0.0.0" then -1
  else maskToCidrLoop maskInt 32 0 false

/-- The function `cidrToMask`: the dotted-decimal mask of a prefix length. -/
def cidrToMask (pl : Plataforma) (cidr : Int) : String :=
  let mask := if cidr = 0 then 0 else shl32 pl 4294967295 (32 - cidr)
  intToIp mask

/-- The function `hostsToCidr`: the longest prefix whose block holds `num_hosts` hosts
besides the network and broadcast addresses; `-1` for a negative count. For the two
largest counts the sum `num_hosts + 2` wraps to a negative number, `log2` of it is a
NaN, and the platform decides what `int` that becomes. -/
def hostsToCidr (pl : Plataforma) (num_hosts : Int) : Int :=
  if num_hosts < 0 then -1
  else if num_hosts = 0 then 32
  else
    let required_addresses : Int := wrapInt (num_hosts + 2)
    let bits_for_addresses : Int :=
      if 0 < required_addresses then (ceilLog2 required_addresses.toNat : Nat) else pl.intNaN
    let cidr : Int := wrapInt (32 - bits_for_addresses)
    if cidr < 0 then 0
    else if cidr > 32 then 32
    else cidr

/-! ## The allocator -/

/-- The record of one subnet (`struct Subred`). -/
structure Subred where
  direccionRed : String
  mascaraDecimal : String
  mascaraBinaria : String
  cidr : Int
  hostRangeStart : String
  hostRangeEnd : String
  broadcast : String
  hostsUtilizables : Int
  requestedHosts : Int
  deriving DecidableEq

/-- What `calcularSubredes` writes, one constructor per output statement. -/
inductive Salida where
  /-- The two error lines for a base address with host bits set: the address and
  prefix given, and the network address that would be right. -/
  | errorRedInvalida (ipBaseStr : String) (cidrBase : Int) (redCorrecta : String)
  /-- The summary of the base network: address, prefix, broadcast, address count
  (console only). -/
  | redOriginal (red : String) (cidrBase : Int) (broadcast : String) (ipsTotales : Nat)
  /-- The warning for a host count that `hostsToCidr` rejects. -/
  | advertenciaHosts (hosts : Int)
  /-- The capacity error: address space asked for, and that of the base network. -/
  | errorCapacidad (solicitadas : Nat) (totales : Nat)
  /-- The table header (`printSubnetHeader`). -/
  | encabezado
  /-- The row of a request whose prefix is outside `[0, 32]` ("INVALIDO"). -/
  | filaInvalida (subnet : Subred) (counter : Int)
  /-- The note after an "INVALIDO" row (console only). -/
  | notaInvalida (hosts : Int) (cidr : Int)
  /-- The row of a request that does not fit ("SIN ESPACIO"). -/
  | filaSinEspacio (subnet : Subred) (counter : Int)
  /-- The note after a "SIN ESPACIO" row, with the addresses left (console only). -/
  | notaNoCabe (hosts : Int) (cidr : Int) (restantes : Nat)
  /-- The row of an allocated subnet. -/
  | fila (subnet : Subred) (counter : Int)
  /-- The trailer when addresses are left: first, last, and how many (console only). -/
  | remanente (desde : String) (hasta : String) (total : Nat)
  /-- The trailer when the cursor is past the base broadcast (console only). -/
  | redAgotada
  deriving DecidableEq

/-- The sizing loop of `calcularSubredes`: `subnetsToAllocateInfo`,
`totalRequestedIpSpace` and the warnings written, after the requests given. -/
def dimensionar (pl : Plataforma) : List Int → List (Int × Int) → Nat → List Salida →
    List (Int × Int) × Nat × List Salida
  | [], subnetsToAllocateInfo, totalRequestedIpSpace, os =>
    (subnetsToAllocateInfo, totalRequestedIpSpace, os)
  | hosts :: rest, subnetsToAllocateInfo, totalRequestedIpSpace, os =>
    let cidr := hostsToCidr pl hosts
    if cidr ≠ -1 then
      let subnetSize := pow2u32 pl (32 - cidr)
      dimensionar pl rest (subnetsToAllocateInfo ++ [(cidr, hosts)])
        (add32 totalRequestedIpSpace subnetSize) os
    else
      dimensionar pl rest subnetsToAllocateInfo totalRequestedIpSpace
        (os ++ [Salida.advertenciaHosts hosts])

/-- The variables the packing loop updates. -/
structure Estado where
  currentAllocationIp : Nat
  subnetCounter : Int
  deriving DecidableEq

/-- One iteration of the packing loop: the state after it and what it writes. -/
def asignar (pl : Plataforma) (originalBroadcastAddress : Nat) (is_csv_output : Bool)
    (st : Estado) (subnetInfo : Int × Int) : Estado × List Salida :=
  let requestedCidr := subnetInfo.1
  let originalHostsRequested := subnetInfo.2
  if requestedCidr > 32 ∨ requestedCidr < 0 then
    let currentSubnet : Subred :=
      { direccionRed := "INVALIDO", cidr := requestedCidr, mascaraDecimal := "INVALIDO",
        mascaraBinaria := "INVALIDO", hostRangeStart := "N/A", hostRangeEnd := "N/A",
        broadcast := "N/A", hostsUtilizables := 0, requestedHosts := originalHostsRequested }
    ({ st with subnetCounter := st.subnetCounter + 1 },
      Salida.filaInvalida currentSubnet (st.subnetCounter + 1) ::
        (if is_csv_output then []
         else [Salida.notaInvalida originalHostsRequested requestedCidr]))
  else
    let requestedSubnetSize := pow2u32 pl (32 - requestedCidr)
    let potentialSubnetBroadcast := sub32 (add32 st.currentAllocationIp requestedSubnetSize) 1
    if potentialSubnetBroadcast > originalBroadcastAddress ∨
        st.currentAllocationIp > originalBroadcastAddress then
      let currentSubnet : Subred :=
        { direccionRed := "SIN ESPACIO", cidr := requestedCidr, mascaraDecimal := "N/A",
          mascaraBinaria := "N/A", hostRangeStart := "N/A", hostRangeEnd := "N/A",
          broadcast := "N/A", hostsUtilizables := 0, requestedHosts := originalHostsRequested }
      ({ st with subnetCounter := st.subnetCounter + 1 },
        Salida.filaSinEspacio currentSubnet (st.subnetCounter + 1) ::
          (if is_csv_output then []
           else [Salida.notaNoCabe originalHostsRequested requestedCidr
                  (add32 (sub32 originalBroadcastAddress st.currentAllocationIp) 1)]))
    else
      let hostsPorSubredCalculado : Int :=
        toInt32 (if requestedSubnetSize > 2 then sub32 requestedSubnetSize 2 else 0)
      let mascaraDecimal := cidrToMask pl requestedCidr
      let currentSubnet : Subred :=
        { direccionRed := intToIp st.currentAllocationIp,
          cidr := requestedCidr,
          mascaraDecimal := mascaraDecimal,
          mascaraBinaria := uint32_tToBinaryString (ipToInt mascaraDecimal),
          hostsUtilizables := hostsPorSubredCalculado,
          requestedHosts := originalHostsRequested,
          hostRangeStart :=
            if hostsPorSubredCalculado > 0 then intToIp (add32 st.currentAllocationIp 1)
            else "N/A",
          hostRangeEnd :=
            if hostsPorSubredCalculado > 0 then intToIp (sub32 potentialSubnetBroadcast 1)
            else "N/A",
          broadcast := intToIp potentialSubnetBroadcast }
      ({ currentAllocationIp := add32 st.currentAllocationIp requestedSubnetSize,
         subnetCounter := st.subnetCounter + 1 },
        [Salida.fila currentSubnet (st.subnetCounter + 1)])

/-- The packing loop over the sorted requests: final state and everything written. -/
def empaquetar (pl : Plataforma) (originalBroadcastAddress : Nat) (is_csv_output : Bool) :
    List (Int × Int) → Estado → Estado × List Salida
  | [], st => (st, [])
  | subnetInfo :: rest, st =>
    let r := asignar pl originalBroadcastAddress is_csv_output st subnetInfo
    let r2 := empaquetar pl originalBroadcastAddress is_csv_output rest r.1
    (r2.1, r.2 ++ r2.2)

/-- The mask `calcularSubredes` computes for the base prefix (`mascaraBaseNumerica`).
Unlike `cidrToMask` there is no separate case for prefix `0`, where the shift count
is `32`. -/
def mascaraBaseNumerica (pl : Plataforma) (cidrBase : Int) : Nat :=
  shl32 pl 4294967295 (32 - cidrBase)

/-- The base address with the host bits cleared (`originalNetworkAddress`). -/
def originalNetworkAddress (pl : Plataforma) (ipBaseStr : String) (cidrBase : Int) : Nat :=
  ipToInt ipBaseStr &&& mascaraBaseNumerica pl cidrBase

/-- The base network with the host bits set (`originalBroadcastAddress`). -/
def originalBroadcastAddress (pl : Plataforma) (ipBaseStr : String) (cidrBase : Int) : Nat :=
  originalNetworkAddress pl ipBaseStr cidrBase ||| not32 (mascaraBaseNumerica pl cidrBase)

/-- Broadcast minus network plus one, as a `uint32_t` (`totalOriginalIps`). -/
def totalOriginalIps (pl : Plataforma) (ipBaseStr : String) (cidrBase : Int) : Nat :=
  add32 (sub32 (originalBroadcastAddress pl ipBaseStr cidrBase)
    (originalNetworkAddress pl ipBaseStr cidrBase)) 1

/-- The summary line of the base network, written on the console only. -/
def resumen (pl : Plataforma) (ipBaseStr : String) (cidrBase : Int) (is_csv_output : Bool) :
    List Salida :=
  if is_csv_output then []
  else [Salida.redOriginal (intToIp (originalNetworkAddress pl ipBaseStr cidrBase)) cidrBase
          (intToIp (originalBroadcastAddress pl ipBaseStr cidrBase))
          (totalOriginalIps pl ipBaseStr cidrBase)]

/-- The trailer, written on the console only: the addresses left from the cursor to
the base broadcast, or the notice that none is left. -/
def trailer (originalBroadcastAddress : Nat) (is_csv_output : Bool)
    (currentAllocationIp : Nat) : List Salida :=
  if is_csv_output then []
  else if currentAllocationIp ≤ originalBroadcastAddress then
    [Salida.remanente (intToIp currentAllocationIp) (intToIp originalBroadcastAddress)
      (add32 (sub32 originalBroadcastAddress currentAllocationIp) 1)]
  else [Salida.redAgotada]

/-- The function `calcularSubredes`: everything written to `os`, in order. -/
def calcularSubredes (pl : Plataforma) (ipBaseStr : String) (cidrBase : Int)
    (requestedHostCounts : List Int) (is_csv_output : Bool) : List Salida :=
  if originalNetworkAddress pl ipBaseStr cidrBase ≠ ipToInt ipBaseStr then
    [Salida.errorRedInvalida ipBaseStr cidrBase
      (intToIp (originalNetworkAddress pl ipBaseStr cidrBase))]
  else
    let d := dimensionar pl requestedHostCounts [] 0 []
    let totalRequestedIpSpace := d.2.1
    if totalRequestedIpSpace > totalOriginalIps pl ipBaseStr cidrBase then
      resumen pl ipBaseStr cidrBase is_csv_output ++ d.2.2 ++
        [Salida.errorCapacidad totalRequestedIpSpace (totalOriginalIps pl ipBaseStr cidrBase)]
    else
      let subnetsToAllocateInfo := pl.stdSort d.1
      let r := empaquetar pl (originalBroadcastAddress pl ipBaseStr cidrBase) is_csv_output
        subnetsToAllocateInfo
        { currentAllocationIp := originalNetworkAddress pl ipBaseStr cidrBase,
          subnetCounter := 0 }
      resumen pl ipBaseStr cidrBase is_csv_output ++ d.2.2 ++ [Salida.encabezado] ++ r.2 ++
        trailer (originalBroadcastAddress pl ipBaseStr cidrBase) is_csv_output
          r.1.currentAllocationIp

/-! ## Platforms -/

/-- What `std::sort` guarantees with the comparator `a.first < b.first`: the result
is a rearrangement of the input in which no later element has a smaller prefix. -/
def SortCorrecto (pl : Plataforma) : Prop :=
  ∀ l : List (Int × Int),
    (pl.stdSort l).Perm l ∧ (pl.stdSort l).Pairwise (fun a b => a.1 ≤ b.1)

/-- Insertion by prefix, used by `ordenarPorCidr`: the element goes before the first
one whose prefix is not smaller. -/
def insertarPorCidr (x : Int × Int) : List (Int × Int) → List (Int × Int)
  | [] => [x]
  | y :: ys => if x.1 ≤ y.1 then x :: y :: ys else y :: insertarPorCidr x ys

/-- A sort by prefix that keeps the input order of requests with the same prefix (an
insertion sort, which is what the usual `std::sort` runs on short vectors). -/
def ordenarPorCidr : List (Int × Int) → List (Int × Int)
  | [] => []
  | x :: xs => insertarPorCidr x (ordenarPorCidr xs)

/-- An x86-64 platform: a shift uses the count modulo 32, a NaN converts to `INT_MIN`,
the conversion of `2 ^ 32` to `uint32_t` keeps the low 32 bits, and `std::sort` is an
insertion sort. -/
def plataformaX86 : Plataforma where
  shlFuera := fun n => (4294967295 * 2 ^ (n % 32).toNat) % 4294967296
  intNaN := -2147483648
  uint32Fuera := 0
  stdSort := ordenarPorCidr

/-- A 32-bit ARM platform: a shift by a count from 32 to 255 gives `0`, a NaN converts
to `0`, the conversion of `2 ^ 32` to `uint32_t` saturates, and `std::sort` is an
insertion sort. -/
def plataformaARM : Plataforma where
  shlFuera := fun _ => 0
  intNaN := 0
  uint32Fuera := 4294967295
  stdSort := ordenarPorCidr

/-! ## Reading the output -/

/-- The records of the subnets allocated, in the order written. -/
def subredes : List Salida → List Subred
  | [] => []
  | Salida.fila s _ :: rest => s :: subredes rest
  | _ :: rest => subredes rest

/-- The host counts of the requests reported as failed one by one, in the order
written: rejected by `hostsToCidr`, "INVALIDO" rows and "SIN ESPACIO" rows. -/
def fallos : List Salida → List Int
  | [] => []
  | Salida.advertenciaHosts h :: rest => h :: fallos rest
  | Salida.filaInvalida s _ :: rest => s.requestedHosts :: fallos rest
  | Salida.filaSinEspacio s _ :: rest => s.requestedHosts :: fallos rest
  | _ :: rest => fallos rest

/-- Whether the run stopped at one of the two `return` statements that follow an
error message. -/
def abortada : List Salida → Bool
  | [] => false
  | Salida.errorRedInvalida _ _ _ :: _ => true
  | Salida.errorCapacidad _ _ :: _ => true
  | _ :: rest => abortada rest

/-- The address range `(network, broadcast)` of a record, as numbers. -/
def rango (s : Subred) : Nat × Nat := (ipToInt s.direccionRed, ipToInt s.broadcast)

/-- The requests `hostsToCidr` accepts, each with its prefix, in input order. -/
def dimensionadas (pl : Plataforma) (requestedHostCounts : List Int) : List (Int × Int) :=
  (requestedHostCounts.filter (fun h => hostsToCidr pl h ≠ -1)).map
    (fun h => (hostsToCidr pl h, h))

/-- The requests `hostsToCidr` rejects, in input order. -/
def rechazadas (pl : Plataforma) (requestedHostCounts : List Int) : List Int :=
  requestedHostCounts.filter (fun h => hostsToCidr pl h = -1)

/-- The record the third branch of the packing loop writes for the request
`subnetInfo` at the cursor of `st`. -/
def registro (pl : Plataforma) (st : Estado) (subnetInfo : Int × Int) : Subred :=
  { direccionRed := intToIp st.currentAllocationIp,
    cidr := subnetInfo.1,
    mascaraDecimal := cidrToMask pl subnetInfo.1,
    mascaraBinaria := uint32_tToBinaryString (ipToInt (cidrToMask pl subnetInfo.1)),
    hostsUtilizables :=
      toInt32 (if pow2u32 pl (32 - subnetInfo.1) > 2
        then sub32 (pow2u32 pl (32 - subnetInfo.1)) 2 else 0),
    requestedHosts := subnetInfo.2,
    hostRangeStart :=
      if toInt32 (if pow2u32 pl (32 - subnetInfo.1) > 2
        then sub32 (pow2u32 pl (32 - subnetInfo.1)) 2 else 0) > 0
      then intToIp (add32 st.currentAllocationIp 1) else "N/A",
    hostRangeEnd :=
      if toInt32 (if pow2u32 pl (32 - subnetInfo.1) > 2
        then sub32 (pow2u32 pl (32 - subnetInfo.1)) 2 else 0) > 0
      then intToIp
        (sub32 (sub32 (add32 st.currentAllocationIp (pow2u32 pl (32 - subnetInfo.1))) 1) 1)
      else "N/A",
    broadcast :=
      intToIp (sub32 (add32 st.currentAllocationIp (pow2u32 pl (32 - subnetInfo.1))) 1) }

/-- The condition of the "SIN ESPACIO" branch. -/
def sinEspacio (pl : Plataforma) (b : Nat) (st : Estado) (subnetInfo : Int × Int) : Bool :=
  decide (sub32 (add32 st.currentAllocationIp (pow2u32 pl (32 - subnetInfo.1))) 1 > b ∨
    st.currentAllocationIp > b)

/-- The number of addresses of a block with the given prefix. -/
def bloque (cidr : Int) : Nat := 2 ^ (32 - cidr).toNat

/-- The ranges `(first, last)` of the blocks of the given requests laid one right
after the other from the address `cur` on. -/
def rangosDesde : Nat → List (Int × Int) → List (Nat × Nat)
  | _, [] => []
  | cur, x :: xs => (cur, cur + bloque x.1 - 1) :: rangosDesde (cur + bloque x.1) xs

/-! ## Reading texts and rows -/

/-- The value of a run of decimal digits, most significant first. -/
def valorDecimal (cs : List Char) : Nat :=
  cs.foldl (fun acc c => acc * 10 + (c.toNat - 48)) 0

/-- A decimal octet as a text: one or more digits (leading zeros allowed) whose value
is at most 255. -/
def esOcteto (s : String) : Prop :=
  s.data ≠ [] ∧ (∀ c ∈ s.data, isdigit c = true) ∧ valorDecimal s.data ≤ 255

/-- The character of bit `i` of `n`. -/
def bitChar (n i : Nat) : Char := if n.testBit i then Char.ofNat 49 else Char.ofNat 48

/-- The characters of the eight bits of `n` from bit `hi` down to bit `hi - 7`. -/
def grupoBits (n hi : Nat) : List Char :=
  [bitChar n hi, bitChar n (hi - 1), bitChar n (hi - 2), bitChar n (hi - 3),
   bitChar n (hi - 4), bitChar n (hi - 5), bitChar n (hi - 6), bitChar n (hi - 7)]

/-- The rows the packing loop writes, of the three kinds, in the order written. -/
def filas : List Salida → List Subred
  | [] => []
  | Salida.fila s _ :: rest => s :: filas rest
  | Salida.filaSinEspacio s _ :: rest => s :: filas rest
  | Salida.filaInvalida s _ :: rest => s :: filas rest
  | _ :: rest => filas rest

/-- The host counts of all the outcomes written for single requests, in the order
written: warnings for rejected counts and rows of the three kinds. -/
def resultados : List Salida → List Int
  | [] => []
  | Salida.advertenciaHosts h :: rest => h :: resultados rest
  | Salida.fila s _ :: rest => s.requestedHosts :: resultados rest
  | Salida.filaSinEspacio s _ :: rest => s.requestedHosts :: resultados rest
  | Salida.filaInvalida s _ :: rest => s.requestedHosts :: resultados rest
  | _ :: rest => resultados rest

/-- What `ipToInt` makes of one token: the value `stoi` reads, if there is one and it
lies in `[0, 255]`. -/
def leerOcteto (s : String) : Option Nat :=
  match stoi s with
  | none => none
  | some v => if v < 0 ∨ v > 255 then none else some v.toNat

/-- The value of `currentAllocationIp` when the packing loop of `calcularSubredes` is
over, in a run that reaches the loop. -/
def cursorFinal (pl : Plataforma) (ipBaseStr : String) (cidrBase : Int)
    (requestedHostCounts : List Int) : Nat :=
  (empaquetar pl (originalBroadcastAddress pl ipBaseStr cidrBase) false
    (pl.stdSort (dimensionar pl requestedHostCounts [] 0 []).1)
    { currentAllocationIp := originalNetworkAddress pl ipBaseStr cidrBase,
      subnetCounter := 0 }).1.currentAllocationIp

/-- The prefix and the host count a row carries. -/
def solicitud (s : Subred) : Int × Int := (s.cidr, s.requestedHosts)

/-! ## `std::sort` as GCC's libstdc++ implements it

The functions of `bits/stl_algo.h` and `bits/stl_heap.h` that `std::sort` runs, on a
vector of `pair<int, int>` held as a list, with positions as indices from the start of
the vector. A position read outside the vector gives `(0, 0)` and a write outside it
does nothing; the library reads and writes inside the vector only. -/

/-- The comparator `calcularSubredes` passes to `std::sort`: `a.first < b.first`. -/
def compCidr (a b : Int × Int) : Bool := decide (a.1 < b.1)

/-- The element at position `i` of the vector (`*(begin + i)`). -/
def elem (v : List (Int × Int)) (i : Nat) : Int × Int := v.getD i (0, 0)

/-- The function `std::iter_swap` on two positions. -/
def iter_swap (v : List (Int × Int)) (i j : Nat) : List (Int × Int) :=
  (v.set i (elem v j)).set j (elem v i)

/-- The function `std::__lg`: the position of the highest set bit, by halving. -/
def lgLoop : Nat → Nat → Nat
  | 0, _ => 0
  | k + 1, n => if 2 ≤ n then lgLoop k (n / 2) + 1 else 0

/-- The value `std::__lg(n)`, the integer part of the binary logarithm of `n`. -/
def lg (n : Nat) : Nat := lgLoop n n

/-- The function `std::__move_median_to_first`: swaps the median of the elements at
`a`, `b` and `c` to the position `result`. -/
def move_median_to_first (v : List (Int × Int)) (result a b c : Nat) : List (Int × Int) :=
  if compCidr (elem v a) (elem v b) then
    if compCidr (elem v b) (elem v c) then iter_swap v result b
    else if compCidr (elem v a) (elem v c) then iter_swap v result c
    else iter_swap v result a
  else if compCidr (elem v a) (elem v c) then iter_swap v result a
  else if compCidr (elem v b) (elem v c) then iter_swap v result c
  else iter_swap v result b

/-- The scan `while (__comp(__first, __pivot)) ++__first;` of `__unguarded_partition`:
the position it stops at. The second argument counts the positions from `first` to the
end of the vector. -/
def avanzar (v : List (Int × Int)) (pivot : Nat) : Nat → Nat → Nat
  | first, 0 => first
  | first, k + 1 =>
    if compCidr (elem v first) (elem v pivot) then avanzar v pivot (first + 1) k else first

/-- The scan `while (__comp(__pivot, __last)) --__last;` of `__unguarded_partition`:
the position it stops at. -/
def retroceder (v : List (Int × Int)) (pivot : Nat) : Nat → Nat
  | 0 => 0
  | last + 1 =>
    if compCidr (elem v pivot) (elem v (last + 1)) then retroceder v pivot last else last + 1

/-- The loop `while (true)` of `__unguarded_partition`: the vector and the position
returned. Every round but the last moves `first` up and `last` down, so the rounds are
fewer than the elements of the vector, which the first argument counts. -/
def unguarded_partition_loop (pivot : Nat) :
    Nat → List (Int × Int) → Nat → Nat → List (Int × Int) × Nat
  | 0, v, first, _ => (v, first)
  | k + 1, v, first, last =>
    let first1 := avanzar v pivot first (v.length - first)
    let last1 := retroceder v pivot (last - 1)
    if ¬ first1 < last1 then (v, first1)
    else unguarded_partition_loop pivot k (iter_swap v first1 last1) (first1 + 1) last1

/-- The function `std::__unguarded_partition`. -/
def unguarded_partition (v : List (Int × Int)) (first last pivot : Nat) :
    List (Int × Int) × Nat :=
  unguarded_partition_loop pivot v.length v first last

/-- The function `std::__unguarded_partition_pivot`. -/
def unguarded_partition_pivot (v : List (Int × Int)) (first last : Nat) :
    List (Int × Int) × Nat :=
  let mid := first + (last - first) / 2
  unguarded_partition (move_median_to_first v first (first + 1) mid (last - 1))
    (first + 1) last first

/-- The loop of `std::__push_heap`. The hole moves to its parent in every round, so the
rounds are no more than `holeIndex`, which the first argument counts. -/
def push_heap_loop (first topIndex : Nat) (value : Int × Int) :
    Nat → List (Int × Int) → Nat → List (Int × Int)
  | 0, v, holeIndex => v.set (first + holeIndex) value
  | k + 1, v, holeIndex =>
    let parent := (holeIndex - 1) / 2
    if holeIndex > topIndex ∧ compCidr (elem v (first + parent)) value = true then
      push_heap_loop first topIndex value k
        (v.set (first + holeIndex) (elem v (first + parent))) parent
    else v.set (first + holeIndex) value

/-- The function `std::__push_heap`. -/
def push_heap (v : List (Int × Int)) (first holeIndex topIndex : Nat) (value : Int × Int) :
    List (Int × Int) :=
  push_heap_loop first topIndex value holeIndex v holeIndex

/-- The loop `while (__secondChild < (__len - 1) / 2)` of `std::__adjust_heap`: the
vector, `__holeIndex` and `__secondChild` after it. `__secondChild` grows in every
round and stays below `len`, which the first argument counts. -/
def adjust_heap_loop (first len : Nat) :
    Nat → List (Int × Int) → Nat → Nat → List (Int × Int) × Nat × Nat
  | 0, v, holeIndex, secondChild => (v, holeIndex, secondChild)
  | k + 1, v, holeIndex, secondChild =>
    if secondChild < (len - 1) / 2 then
      let secondChild1 := 2 * (secondChild + 1)
      let secondChild2 :=
        if compCidr (elem v (first + secondChild1)) (elem v (first + (secondChild1 - 1)))
        then secondChild1 - 1 else secondChild1
      adjust_heap_loop first len k (v.set (first + holeIndex) (elem v (first + secondChild2)))
        secondChild2 secondChild2
    else (v, holeIndex, secondChild)

/-- The function `std::__adjust_heap`. -/
def adjust_heap (v : List (Int × Int)) (first holeIndex len : Nat) (value : Int × Int) :
    List (Int × Int) :=
  let r := adjust_heap_loop first len len v holeIndex holeIndex
  if len % 2 = 0 ∧ r.2.2 = (len - 2) / 2 then
    push_heap (r.1.set (first + r.2.1) (elem r.1 (first + (2 * (r.2.2 + 1) - 1)))) first
      (2 * (r.2.2 + 1) - 1) holeIndex value
  else push_heap r.1 first r.2.1 holeIndex value

/-- The function `std::__pop_heap`. -/
def pop_heap (v : List (Int × Int)) (first last result : Nat) : List (Int × Int) :=
  adjust_heap (v.set result (elem v first)) first 0 (last - first) (elem v result)

/-- The loop of `std::__make_heap`, from `__parent` down to 0. -/
def make_heap_loop (first len : Nat) : List (Int × Int) → Nat → List (Int × Int)
  | v, 0 => adjust_heap v first 0 len (elem v first)
  | v, parent + 1 =>
    make_heap_loop first len
      (adjust_heap v first (parent + 1) len (elem v (first + (parent + 1)))) parent

/-- The function `std::__make_heap`. -/
def make_heap (v : List (Int × Int)) (first last : Nat) : List (Int × Int) :=
  if last - first < 2 then v
  else make_heap_loop first (last - first) v ((last - first - 2) / 2)

/-- The loop of `std::__heap_select` over the positions from `i` on; the first
argument counts them. -/
def heap_select_loop (first middle : Nat) : Nat → List (Int × Int) → Nat → List (Int × Int)
  | 0, v, _ => v
  | k + 1, v, i =>
    heap_select_loop first middle k
      (if compCidr (elem v i) (elem v first) then pop_heap v first middle i else v) (i + 1)

/-- The function `std::__heap_select`. -/
def heap_select (v : List (Int × Int)) (first middle last : Nat) : List (Int × Int) :=
  heap_select_loop first middle (last - middle) (make_heap v first middle) middle

/-- The loop of `std::__sort_heap`; the first argument counts the positions from
`first` to `last`. -/
def sort_heap_loop (first : Nat) : Nat → List (Int × Int) → Nat → List (Int × Int)
  | 0, v, _ => v
  | k + 1, v, last =>
    if last - first > 1 then
      sort_heap_loop first k (pop_heap v first (last - 1) (last - 1)) (last - 1)
    else v

/-- The function `std::__sort_heap`. -/
def sort_heap (v : List (Int × Int)) (first last : Nat) : List (Int × Int) :=
  sort_heap_loop first (last - first) v last

/-- The function `std::__partial_sort`. -/
def partial_sort (v : List (Int × Int)) (first middle last : Nat) : List (Int × Int) :=
  sort_heap (heap_select v first middle last) first middle

/-- The function `std::__introsort_loop`, by recursion on `__depth_limit`, which every
round of its loop decrements: ranges of more than 16 elements are partitioned, the
upper part by the recursive call and the lower part by the next round. -/
def introsort_loop : Nat → List (Int × Int) → Nat → Nat → List (Int × Int)
  | 0, v, first, last => if last - first > 16 then partial_sort v first last last else v
  | depth_limit + 1, v, first, last =>
    if last - first > 16 then
      let r := unguarded_partition_pivot v first last
      introsort_loop depth_limit (introsort_loop depth_limit r.1 r.2 last) first r.2
    else v

/-- The loop of `std::__unguarded_linear_insert`: `val` goes down from the position
`last` past every element that compares greater. -/
def unguarded_linear_insert_loop (val : Int × Int) :
    List (Int × Int) → Nat → List (Int × Int)
  | v, 0 => v.set 0 val
  | v, last + 1 =>
    if compCidr val (elem v last) then
      unguarded_linear_insert_loop val (v.set (last + 1) (elem v last)) last
    else v.set (last + 1) val

/-- The function `std::__unguarded_linear_insert`. -/
def unguarded_linear_insert (v : List (Int × Int)) (last : Nat) : List (Int × Int) :=
  unguarded_linear_insert_loop (elem v last) v last

/-- One round of the loop of `std::__insertion_sort` on a range that starts at the
start of the vector: an element that compares less than the first one is moved to the
front, the elements before it going one position up (`std::move_backward`); any other
goes down by `__unguarded_linear_insert`. -/
def insertion_sort_step (v : List (Int × Int)) (i : Nat) : List (Int × Int) :=
  if compCidr (elem v i) (elem v 0) then elem v i :: (v.take i ++ v.drop (i + 1))
  else unguarded_linear_insert v i

/-- The loop of `std::__insertion_sort` from the position `i` on; the first argument
counts the positions left. -/
def insertion_sort_loop : Nat → List (Int × Int) → Nat → List (Int × Int)
  | 0, v, _ => v
  | k + 1, v, i => insertion_sort_loop k (insertion_sort_step v i) (i + 1)

/-- The function `std::__insertion_sort` on the range from the start of the vector to
`last`. -/
def insertion_sort (v : List (Int × Int)) (last : Nat) : List (Int × Int) :=
  if last = 0 then v else insertion_sort_loop (last - 1) v 1

/-- The loop of `std::__unguarded_insertion_sort` from the position `i` on; the first
argument counts the positions left. -/
def unguarded_insertion_sort_loop : Nat → List (Int × Int) → Nat → List (Int × Int)
  | 0, v, _ => v
  | k + 1, v, i => unguarded_insertion_sort_loop k (unguarded_linear_insert v i) (i + 1)

/-- The function `std::__unguarded_insertion_sort`. -/
def unguarded_insertion_sort (v : List (Int × Int)) (first last : Nat) : List (Int × Int) :=
  unguarded_insertion_sort_loop (last - first) v first

/-- The function `std::__final_insertion_sort` on the whole vector. -/
def final_insertion_sort (v : List (Int × Int)) : List (Int × Int) :=
  if v.length > 16 then unguarded_insertion_sort (insertion_sort v 16) 16 v.length
  else insertion_sort v v.length

/-- The function `std::sort` of libstdc++ with the comparator of `calcularSubredes`
(`std::__sort` on the whole vector). -/
def std_sort (v : List (Int × Int)) : List (Int × Int) :=
  if v.length = 0 then v
  else final_insertion_sort (introsort_loop (lg v.length * 2) v 0 v.length)

/-- An x86-64 platform with GCC: as `plataformaX86`, with the `std::sort` of
libstdc++. -/
def plataformaGCC : Plataforma where
  shlFuera := fun n => (4294967295 * 2 ^ (n % 32).toNat) % 4294967296
  intNaN := -2147483648
  uint32Fuera := 0
  stdSort := std_sort

/-- The element `val` put into a run held last element first: it goes past every
element that compares greater than it, as `__unguarded_linear_insert` carries it down
from the end of the run. -/
def insertarDesdeFinal (val : Int × Int) : List (Int × Int) → List (Int × Int)
  | [] => [val]
  | x :: r => if compCidr val x then x :: insertarDesdeFinal val r else val :: x :: r

/-- Insertion sort from the left: every element in turn is carried down from the end
of the run sorted so far. -/
def ordenarInsercion (v : List (Int × Int)) : List (Int × Int) :=
  (v.foldl (fun r x => insertarDesdeFinal x r) []).reverse

/-! ## Arithmetic lemmas -/

theorem ceilLog2Aux_spec (n : Nat) : ∀ fuel k : Nat, n ≤ 2 ^ (k + fuel) →
    (∀ j, j < k → 2 ^ j < n) →
    n ≤ 2 ^ ceilLog2Aux n fuel k ∧ ∀ j, j < ceilLog2Aux n fuel k → 2 ^ j < n := by
  intro fuel
  induction fuel with
  | zero =>
    intro k hk hlt
    exact ⟨by simpa [ceilLog2Aux] using hk, by simpa [ceilLog2Aux] using hlt⟩
  | succ f ih =>
    intro k hk hlt
    unfold ceilLog2Aux
    by_cases h : n ≤ 2 ^ k
    · rw [if_pos h]
      exact ⟨h, hlt⟩
    · rw [if_neg h]
      apply ih (k + 1)
      · have : k + 1 + f = k + (f + 1) := by omega
        rw [this]; exact hk
      · intro j hj
        rcases Nat.lt_succ_iff_lt_or_eq.mp hj with h1 | h1
        · exact hlt j h1
        · subst h1; omega

theorem le_two_pow_ceilLog2 (n : Nat) : n ≤ 2 ^ ceilLog2 n :=
  (ceilLog2Aux_spec n n 0 (by simpa using (Nat.lt_two_pow n).le)
    (fun j hj => absurd hj (Nat.not_lt_zero j))).1

theorem two_pow_lt_of_lt_ceilLog2 (n j : Nat) (h : j < ceilLog2 n) : 2 ^ j < n :=
  (ceilLog2Aux_spec n n 0 (by simpa using (Nat.lt_two_pow n).le)
    (fun j hj => absurd hj (Nat.not_lt_zero j))).2 j h

theorem ceilLog2_le_of_le_two_pow (n k : Nat) (h : n ≤ 2 ^ k) : ceilLog2 n ≤ k := by
  by_contra hc
  have := two_pow_lt_of_lt_ceilLog2 n k (by omega)
  omega

theorem ceilLog2_eq_clog (n : Nat) : ceilLog2 n = Nat.clog 2 n := by
  apply le_antisymm
  · exact ceilLog2_le_of_le_two_pow n _ (Nat.le_pow_clog (by decide) n)
  · exact (Nat.le_pow_iff_clog_le (by decide)).mp (le_two_pow_ceilLog2 n)

/-- The integer search agrees with the real-valued `ceil(log2(n))`. -/
theorem ceilLog2_eq_ceil_logb (n : Nat) : (ceilLog2 n : Int) = ⌈Real.logb 2 (n : ℝ)⌉ := by
  have h := @Real.ceil_logb_natCast 2 (n : ℝ) (Nat.cast_nonneg n)
  rw [Int.clog_natCast] at h
  rw [ceilLog2_eq_clog]
  exact_mod_cast h.symm

theorem wrapInt_of_range (x : Int) (h1 : -2147483648 ≤ x) (h2 : x ≤ 2147483647) :
    wrapInt x = x := by
  unfold wrapInt
  omega

/-! ## The sizing rule -/

/-- For a count of at least one host whose sum with 2 is an `int`, the prefix is 32
minus the number of bits, which lies between 2 and 31. -/
theorem hostsToCidr_eq (pl : Plataforma) (h : Int) (h1 : 1 ≤ h) (h2 : h + 2 ≤ INT_MAX) :
    hostsToCidr pl h = 32 - (ceilLog2 (h + 2).toNat : Nat) ∧
      2 ≤ ceilLog2 (h + 2).toNat ∧ ceilLog2 (h + 2).toNat ≤ 31 := by
  unfold INT_MAX at h2
  have hn : (3 : Nat) ≤ (h + 2).toNat := by omega
  have hle : ceilLog2 (h + 2).toNat ≤ 31 := by
    apply ceilLog2_le_of_le_two_pow
    omega
  have hge : 2 ≤ ceilLog2 (h + 2).toNat := by
    by_contra hc
    have hb := le_two_pow_ceilLog2 (h + 2).toNat
    have : ceilLog2 (h + 2).toNat = 0 ∨ ceilLog2 (h + 2).toNat = 1 := by omega
    rcases this with e | e <;> rw [e] at hb <;> omega
  refine ⟨?_, hge, hle⟩
  unfold hostsToCidr
  have a1 : ¬ h < 0 := by omega
  have a2 : ¬ h = 0 := by omega
  have w1 : wrapInt (h + 2) = h + 2 := wrapInt_of_range _ (by omega) (by omega)
  have a0 : (0 : Int) < h + 2 := by omega
  simp only [a1, a2, if_false, w1, a0, if_true]
  have w2 : wrapInt (32 - ((ceilLog2 (h + 2).toNat : Nat) : Int)) =
      32 - ((ceilLog2 (h + 2).toNat : Nat) : Int) := wrapInt_of_range _ (by omega) (by omega)
  have a3 : ¬ (32 - ((ceilLog2 (h + 2).toNat : Nat) : Int) < 0) := by omega
  have a4 : ¬ (32 - ((ceilLog2 (h + 2).toNat : Nat) : Int) > 32) := by omega
  simp only [w2, a3, a4, if_false]

theorem hostsToCidr_neg (pl : Plataforma) (h : Int) (hneg : h < 0) : hostsToCidr pl h = -1 := by
  simp [hostsToCidr, hneg]

theorem hostsToCidr_zero (pl : Plataforma) : hostsToCidr pl 0 = 32 := by
  simp [hostsToCidr]

theorem hostsToCidr_indep (pl pl2 : Plataforma) (h : Int) (h2 : h + 2 ≤ INT_MAX) :
    hostsToCidr pl h = hostsToCidr pl2 h := by
  rcases lt_trichotomy h 0 with hneg | hz | hpos
  · rw [hostsToCidr_neg pl h hneg, hostsToCidr_neg pl2 h hneg]
  · rw [hz, hostsToCidr_zero, hostsToCidr_zero]
  · rw [(hostsToCidr_eq pl h (by omega) h2).1, (hostsToCidr_eq pl2 h (by omega) h2).1]

theorem hostsToCidr_range (pl : Plataforma) (h : Int) (h0 : 0 ≤ h) (h2 : h + 2 ≤ INT_MAX) :
    1 ≤ hostsToCidr pl h ∧ hostsToCidr pl h ≤ 32 := by
  rcases eq_or_lt_of_le h0 with hz | hpos
  · rw [← hz, hostsToCidr_zero]
    omega
  · obtain ⟨he, hge, hle⟩ := hostsToCidr_eq pl h (by omega) h2
    rw [he]
    omega

theorem nonneg_of_hostsToCidr_ne (pl : Plataforma) (h : Int) (hne : hostsToCidr pl h ≠ -1) :
    0 ≤ h := by
  by_contra hneg
  exact hne (hostsToCidr_neg pl h (lt_of_not_ge hneg))

theorem pow2u32_of_lt (pl : Plataforma) (e : Int) (h0 : 0 ≤ e) (h1 : e < 32) :
    pow2u32 pl e = 2 ^ e.toNat := by
  unfold pow2u32
  rw [if_neg (by omega), if_pos h1]

theorem pow2u32_indep (pl pl2 : Plataforma) (e : Int) (h1 : e < 32) :
    pow2u32 pl e = pow2u32 pl2 e := by
  unfold pow2u32
  by_cases h : e < 0
  · rw [if_pos h, if_pos h]
  · rw [if_neg h, if_neg h, if_pos h1, if_pos h1]

/-- The block of a request of at least one host, as the allocator computes it: a
power of two from `4` to `2 ^ 31` that holds the hosts and the two reserved
addresses. -/
theorem pow2u32_hostsToCidr (pl : Plataforma) (h : Int) (h1 : 1 ≤ h) (h2 : h + 2 ≤ INT_MAX) :
    pow2u32 pl (32 - hostsToCidr pl h) = 2 ^ ceilLog2 (h + 2).toNat ∧
      h + 2 ≤ (pow2u32 pl (32 - hostsToCidr pl h) : Nat) ∧
      pow2u32 pl (32 - hostsToCidr pl h) ≤ 2147483648 := by
  obtain ⟨he, hge, hle⟩ := hostsToCidr_eq pl h h1 h2
  have hpow : 2 ^ ceilLog2 (h + 2).toNat ≤ 2 ^ 31 := Nat.pow_le_pow_right (by decide) hle
  have hb := le_two_pow_ceilLog2 (h + 2).toNat
  have e1 : pow2u32 pl (32 - hostsToCidr pl h) = 2 ^ ceilLog2 (h + 2).toNat := by
    rw [he, pow2u32_of_lt pl _ (by omega) (by omega)]
    have e : (32 - (32 - ((ceilLog2 (h + 2).toNat : Nat) : Int))).toNat =
        ceilLog2 (h + 2).toNat := by omega
    rw [e]
  refine ⟨e1, ?_, ?_⟩
  · rw [e1]
    omega
  · rw [e1]
    omega

/-- The usable-host count the allocator gives a sized request covers the request. -/
theorem hosts_le_utilizables (pl : Plataforma) (h : Int) (h0 : 0 ≤ h) (h2 : h + 2 ≤ INT_MAX) :
    h ≤ toInt32 (if pow2u32 pl (32 - hostsToCidr pl h) > 2
      then sub32 (pow2u32 pl (32 - hostsToCidr pl h)) 2 else 0) := by
  rcases eq_or_lt_of_le h0 with h1 | h1
  · subst h1
    rw [hostsToCidr_zero, pow2u32_of_lt pl _ (by decide) (by decide)]
    decide
  · obtain ⟨_, hlo, hhi⟩ := pow2u32_hostsToCidr pl h (by omega) h2
    generalize pow2u32 pl (32 - hostsToCidr pl h) = p at hlo hhi
    have hp : p > 2 := by omega
    simp only [hp, if_true]
    unfold toInt32 sub32
    split_ifs <;> omega

/-! ## Independence of the platform -/

theorem shl32_indep (pl pl2 : Plataforma) (x : Nat) (n : Int) (h0 : 0 ≤ n) (h1 : n < 32) :
    shl32 pl x n = shl32 pl2 x n := by
  simp [shl32, h0, h1]

theorem cidrToMask_indep (pl pl2 : Plataforma) (cidr : Int) (h0 : 0 ≤ cidr) (h1 : cidr ≤ 32) :
    cidrToMask pl cidr = cidrToMask pl2 cidr := by
  unfold cidrToMask
  by_cases hc : cidr = 0
  · simp [hc]
  · simp only [hc, if_false]
    rw [shl32_indep pl pl2 _ _ (by omega) (by omega)]

theorem asignar_indep (pl pl2 : Plataforma) (b : Nat) (csv : Bool) (st : Estado)
    (x : Int × Int) (hx : x.1 ≠ 0) : asignar pl b csv st x = asignar pl2 b csv st x := by
  unfold asignar
  by_cases h : x.1 > 32 ∨ x.1 < 0
  · simp only [h, if_true]
  · have e : pow2u32 pl (32 - x.1) = pow2u32 pl2 (32 - x.1) :=
      pow2u32_indep pl pl2 _ (by omega)
    simp only [h, if_false, e]
    rw [cidrToMask_indep pl pl2 x.1 (by omega) (by omega)]

theorem empaquetar_indep (pl pl2 : Plataforma) (b : Nat) (csv : Bool) (l : List (Int × Int))
    (hl : ∀ x ∈ l, x.1 ≠ 0) :
    ∀ st : Estado, empaquetar pl b csv l st = empaquetar pl2 b csv l st := by
  induction l with
  | nil => intro st; rfl
  | cons x xs ih =>
    intro st
    simp only [empaquetar, asignar_indep pl pl2 b csv _ x (hl x (List.mem_cons_self _ _)),
      ih (fun y hy => hl y (List.mem_cons_of_mem _ hy))]

theorem dimensionar_indep (pl pl2 : Plataforma) (reqs : List Int)
    (hreq : ∀ h ∈ reqs, h + 2 ≤ INT_MAX) :
    ∀ (info : List (Int × Int)) (t : Nat) (os : List Salida),
      dimensionar pl reqs info t os = dimensionar pl2 reqs info t os := by
  induction reqs with
  | nil => intro info t os; rfl
  | cons h rest ih =>
    intro info t os
    have hh := hreq h (List.mem_cons_self _ _)
    have ih2 := ih (fun y hy => hreq y (List.mem_cons_of_mem _ hy))
    unfold dimensionar
    rw [hostsToCidr_indep pl pl2 h hh]
    by_cases hc : hostsToCidr pl2 h = -1
    · simp only [hc, ne_eq, not_true_eq_false, if_false, ih2]
    · have hr := hostsToCidr_range pl2 h (nonneg_of_hostsToCidr_ne pl2 h hc) hh
      simp only [hc, ne_eq, not_false_eq_true, if_true, ih2,
        pow2u32_indep pl pl2 (32 - hostsToCidr pl2 h) (by omega)]

theorem mascaraBaseNumerica_indep (pl pl2 : Plataforma) (cidrBase : Int) (h1 : 1 ≤ cidrBase)
    (h2 : cidrBase ≤ 32) : mascaraBaseNumerica pl cidrBase = mascaraBaseNumerica pl2 cidrBase :=
  shl32_indep pl pl2 _ _ (by omega) (by omega)

theorem base_congr (pl pl2 : Plataforma) (ip : String) (cb : Int)
    (hm : mascaraBaseNumerica pl cb = mascaraBaseNumerica pl2 cb) :
    originalNetworkAddress pl ip cb = originalNetworkAddress pl2 ip cb ∧
    originalBroadcastAddress pl ip cb = originalBroadcastAddress pl2 ip cb ∧
    totalOriginalIps pl ip cb = totalOriginalIps pl2 ip cb := by
  simp only [totalOriginalIps, originalBroadcastAddress, originalNetworkAddress, hm, and_self]

theorem base_indep (pl pl2 : Plataforma) (ip : String) (cb : Int) (h1 : 1 ≤ cb)
    (h2 : cb ≤ 32) :
    originalNetworkAddress pl ip cb = originalNetworkAddress pl2 ip cb ∧
    originalBroadcastAddress pl ip cb = originalBroadcastAddress pl2 ip cb ∧
    totalOriginalIps pl ip cb = totalOriginalIps pl2 ip cb :=
  base_congr pl pl2 ip cb (mascaraBaseNumerica_indep pl pl2 cb h1 h2)

theorem resumen_congr (pl pl2 : Plataforma) (ip : String) (cb : Int) (csv : Bool)
    (hm : mascaraBaseNumerica pl cb = mascaraBaseNumerica pl2 cb) :
    resumen pl ip cb csv = resumen pl2 ip cb csv := by
  obtain ⟨e1, e2, e3⟩ := base_congr pl pl2 ip cb hm
  simp only [resumen, e1, e2, e3]

/-! ## `std::sort` on lists with one sorted arrangement -/

theorem stdSort_eq_self (pl : Plataforma) (hpl : SortCorrecto pl) (l : List (Int × Int))
    (hs : l.Pairwise (fun a b => a.1 ≤ b.1))
    (hinj : ∀ a ∈ l, ∀ b ∈ l, a.1 = b.1 → a = b) : pl.stdSort l = l := by
  obtain ⟨hperm, hsorted⟩ := hpl l
  have hanti : IsAntisymm (Int × Int) (fun a b => a.1 < b.1 ∨ a = b) :=
    ⟨fun a b h1 h2 => by
      rcases h1 with h1 | h1
      · rcases h2 with h2 | h2
        · omega
        · exact h2.symm
      · exact h1⟩
  have key : ∀ m : List (Int × Int), (∀ a ∈ m, a ∈ l) → m.Pairwise (fun a b => a.1 ≤ b.1) →
      m.Pairwise (fun a b => a.1 < b.1 ∨ a = b) := by
    intro m hm hp
    refine hp.imp_of_mem ?_
    intro a b ha hb hab
    rcases lt_or_eq_of_le hab with h | h
    · exact Or.inl h
    · exact Or.inr (hinj a (hm a ha) b (hm b hb) h)
  exact @List.eq_of_perm_of_sorted _ _ hanti _ _ hperm
    (key _ (fun a ha => hperm.mem_iff.mp ha) hsorted) (key l (fun a ha => ha) hs)

/-! ## The reference sort -/

theorem insertarPorCidr_perm (x : Int × Int) (l : List (Int × Int)) :
    (insertarPorCidr x l).Perm (x :: l) := by
  induction l with
  | nil => exact List.Perm.refl _
  | cons y ys ih =>
    unfold insertarPorCidr
    split_ifs
    · exact List.Perm.refl _
    · exact (List.Perm.cons y ih).trans (List.Perm.swap x y ys)

theorem insertarPorCidr_sorted (x : Int × Int) (l : List (Int × Int))
    (hl : l.Pairwise (fun a b => a.1 ≤ b.1)) :
    (insertarPorCidr x l).Pairwise (fun a b => a.1 ≤ b.1) := by
  induction l with
  | nil => simp [insertarPorCidr]
  | cons y ys ih =>
    unfold insertarPorCidr
    rw [List.pairwise_cons] at hl
    split_ifs with hxy
    · rw [List.pairwise_cons]
      refine ⟨?_, List.pairwise_cons.mpr hl⟩
      intro z hz
      rcases List.mem_cons.mp hz with hz | hz
      · rw [hz]; exact hxy
      · have := hl.1 z hz
        omega
    · rw [List.pairwise_cons]
      refine ⟨?_, ih hl.2⟩
      intro z hz
      rcases List.mem_cons.mp ((insertarPorCidr_perm x ys).mem_iff.mp hz) with hz | hz
      · rw [hz]; omega
      · exact hl.1 z hz

theorem ordenarPorCidr_perm (l : List (Int × Int)) : (ordenarPorCidr l).Perm l := by
  induction l with
  | nil => exact List.Perm.refl _
  | cons x xs ih =>
    unfold ordenarPorCidr
    exact (insertarPorCidr_perm x _).trans (List.Perm.cons x ih)

theorem ordenarPorCidr_sorted (l : List (Int × Int)) :
    (ordenarPorCidr l).Pairwise (fun a b => a.1 ≤ b.1) := by
  induction l with
  | nil => simp [ordenarPorCidr]
  | cons x xs ih =>
    unfold ordenarPorCidr
    exact insertarPorCidr_sorted x _ ih

theorem sortCorrecto_plataformaX86 : SortCorrecto plataformaX86 :=
  fun l => ⟨ordenarPorCidr_perm l, ordenarPorCidr_sorted l⟩

theorem sortCorrecto_plataformaARM : SortCorrecto plataformaARM :=
  fun l => ⟨ordenarPorCidr_perm l, ordenarPorCidr_sorted l⟩

/-! ## The three readings of an output, over concatenation -/

theorem subredes_append (a b : List Salida) : subredes (a ++ b) = subredes a ++ subredes b := by
  induction a with
  | nil => rfl
  | cons x xs ih => cases x <;> simp [subredes, ih]

theorem fallos_append (a b : List Salida) : fallos (a ++ b) = fallos a ++ fallos b := by
  induction a with
  | nil => rfl
  | cons x xs ih => cases x <;> simp [fallos, ih]

theorem abortada_append (a b : List Salida) :
    abortada (a ++ b) = (abortada a || abortada b) := by
  induction a with
  | nil => rfl
  | cons x xs ih => cases x <;> simp [abortada, ih]

theorem subredes_advertencias (l : List Int) : subredes (l.map Salida.advertenciaHosts) = [] := by
  induction l with
  | nil => rfl
  | cons x xs ih => simpa [subredes] using ih

theorem abortada_advertencias (l : List Int) :
    abortada (l.map Salida.advertenciaHosts) = false := by
  induction l with
  | nil => rfl
  | cons x xs ih => simpa [abortada] using ih

theorem fallos_advertencias (l : List Int) : fallos (l.map Salida.advertenciaHosts) = l := by
  induction l with
  | nil => rfl
  | cons x xs ih => simp [fallos, ih]

/-! ## The sizing loop -/

theorem dimensionar_info (pl : Plataforma) (reqs : List Int) :
    ∀ (info : List (Int × Int)) (t : Nat) (os : List Salida),
      (dimensionar pl reqs info t os).1 = info ++ dimensionadas pl reqs := by
  induction reqs with
  | nil => intro info t os; simp [dimensionar, dimensionadas]
  | cons h rest ih =>
    intro info t os
    unfold dimensionar
    by_cases hc : hostsToCidr pl h = -1
    · simp [hc, ih, dimensionadas]
    · simp [hc, ih, dimensionadas]

theorem dimensionar_os (pl : Plataforma) (reqs : List Int) :
    ∀ (info : List (Int × Int)) (t : Nat) (os : List Salida),
      (dimensionar pl reqs info t os).2.2 =
        os ++ (rechazadas pl reqs).map Salida.advertenciaHosts := by
  induction reqs with
  | nil => intro info t os; simp [dimensionar, rechazadas]
  | cons h rest ih =>
    intro info t os
    unfold dimensionar
    by_cases hc : hostsToCidr pl h = -1
    · simp [hc, ih, rechazadas]
    · simp [hc, ih, rechazadas]

/-- The total the capacity check uses is the sum of the block sizes modulo `2 ^ 32`. -/
theorem dimensionar_total (pl : Plataforma) (reqs : List Int) :
    ∀ (info : List (Int × Int)) (t : Nat) (os : List Salida), t < 4294967296 →
      (dimensionar pl reqs info t os).2.1 =
        (t + ((dimensionadas pl reqs).map (fun x => pow2u32 pl (32 - x.1))).sum)
          % 4294967296 := by
  induction reqs with
  | nil =>
    intro info t os ht
    simp [dimensionar, dimensionadas, Nat.mod_eq_of_lt ht]
  | cons h rest ih =>
    intro info t os ht
    unfold dimensionar
    by_cases hc : hostsToCidr pl h = -1
    · simp only [hc, ne_eq, not_true_eq_false, if_false]
      rw [ih _ _ _ ht]
      simp [dimensionadas, hc]
    · simp only [hc, ne_eq, not_false_eq_true, if_true]
      have hlt : add32 t (pow2u32 pl (32 - hostsToCidr pl h)) < 4294967296 :=
        Nat.mod_lt _ (by decide)
      rw [ih _ _ _ hlt]
      simp only [dimensionadas, add32]
      simp only [List.filter_cons, hc, ne_eq, not_false_eq_true, decide_True, if_true,
        List.map_cons, List.sum_cons]
      rw [Nat.add_mod, Nat.mod_mod, ← Nat.add_mod, Nat.add_assoc]

/-! ## The packing loop -/

theorem abortada_asignar (pl : Plataforma) (b : Nat) (csv : Bool) (st : Estado)
    (x : Int × Int) : abortada (asignar pl b csv st x).2 = false := by
  unfold asignar
  by_cases h1 : x.1 > 32 ∨ x.1 < 0
  · simp only [h1, if_true]
    cases csv <;> simp [abortada]
  · simp only [h1, if_false]
    by_cases h2 : sub32 (add32 st.currentAllocationIp (pow2u32 pl (32 - x.1))) 1 > b ∨
        st.currentAllocationIp > b
    · simp only [h2, if_true]
      cases csv <;> simp [abortada]
    · simp only [h2, if_false]
      rfl

theorem abortada_empaquetar (pl : Plataforma) (b : Nat) (csv : Bool) (l : List (Int × Int)) :
    ∀ st : Estado, abortada (empaquetar pl b csv l st).2 = false := by
  induction l with
  | nil => intro st; rfl
  | cons x xs ih =>
    intro st
    simp only [empaquetar, abortada_append, abortada_asignar, ih, Bool.or_false]

/-- The records of one iteration: none in the two warning branches, one otherwise. -/
theorem subredes_asignar (pl : Plataforma) (b : Nat) (csv : Bool) (st : Estado)
    (x : Int × Int) :
    subredes (asignar pl b csv st x).2 =
      if (x.1 > 32 ∨ x.1 < 0) ∨ sinEspacio pl b st x = true then []
      else [registro pl st x] := by
  unfold asignar sinEspacio
  by_cases h1 : x.1 > 32 ∨ x.1 < 0
  · simp only [h1, if_true, true_or]
    cases csv <;> rfl
  · simp only [h1, if_false, false_or, decide_eq_true_eq]
    by_cases h2 : sub32 (add32 st.currentAllocationIp (pow2u32 pl (32 - x.1))) 1 > b ∨
        st.currentAllocationIp > b
    · simp only [h2, if_true]
      cases csv <;> rfl
    · simp only [h2, if_false]
      rfl

/-- A record comes from one iteration of the packing loop. -/
theorem mem_subredes_empaquetar (pl : Plataforma) (b : Nat) (csv : Bool)
    (l : List (Int × Int)) : ∀ (st : Estado) (s : Subred),
    s ∈ subredes (empaquetar pl b csv l st).2 →
    ∃ x ∈ l, ∃ st2 : Estado, s ∈ subredes (asignar pl b csv st2 x).2 := by
  induction l with
  | nil => intro st s hs; simp [empaquetar, subredes] at hs
  | cons x xs ih =>
    intro st s hs
    simp only [empaquetar, subredes_append, List.mem_append] at hs
    rcases hs with hs | hs
    · exact ⟨x, List.mem_cons_self _ _, st, hs⟩
    · obtain ⟨y, hy, st2, h2⟩ := ih _ s hs
      exact ⟨y, List.mem_cons_of_mem _ hy, st2, h2⟩

/-! ## The three ways through `calcularSubredes` -/

theorem subredes_resumen (pl : Plataforma) (ip : String) (cb : Int) (csv : Bool) :
    subredes (resumen pl ip cb csv) = [] := by
  cases csv <;> simp [resumen, subredes]

theorem subredes_trailer (b : Nat) (csv : Bool) (c : Nat) : subredes (trailer b csv c) = [] := by
  unfold trailer
  split_ifs <;> simp [subredes]

theorem abortada_resumen (pl : Plataforma) (ip : String) (cb : Int) (csv : Bool) :
    abortada (resumen pl ip cb csv) = false := by
  cases csv <;> simp [resumen, abortada]

theorem abortada_trailer (b : Nat) (csv : Bool) (c : Nat) : abortada (trailer b csv c) = false := by
  unfold trailer
  split_ifs <;> simp [abortada]

theorem calcularSubredes_invalida (pl : Plataforma) (ip : String) (cb : Int) (reqs : List Int)
    (csv : Bool) (h : originalNetworkAddress pl ip cb ≠ ipToInt ip) :
    calcularSubredes pl ip cb reqs csv =
      [Salida.errorRedInvalida ip cb (intToIp (originalNetworkAddress pl ip cb))] := by
  unfold calcularSubredes
  rw [if_pos h]

theorem calcularSubredes_capacidad (pl : Plataforma) (ip : String) (cb : Int) (reqs : List Int)
    (csv : Bool) (h : originalNetworkAddress pl ip cb = ipToInt ip)
    (hc : (dimensionar pl reqs [] 0 []).2.1 > totalOriginalIps pl ip cb) :
    calcularSubredes pl ip cb reqs csv =
      resumen pl ip cb csv ++ (rechazadas pl reqs).map Salida.advertenciaHosts ++
        [Salida.errorCapacidad (dimensionar pl reqs [] 0 []).2.1
          (totalOriginalIps pl ip cb)] := by
  unfold calcularSubredes
  rw [if_neg (not_not.mpr h)]
  simp only [hc, if_true, dimensionar_os, List.nil_append]

theorem calcularSubredes_asignada (pl : Plataforma) (ip : String) (cb : Int) (reqs : List Int)
    (csv : Bool) (h : originalNetworkAddress pl ip cb = ipToInt ip)
    (hc : ¬ (dimensionar pl reqs [] 0 []).2.1 > totalOriginalIps pl ip cb) :
    calcularSubredes pl ip cb reqs csv =
      resumen pl ip cb csv ++ (rechazadas pl reqs).map Salida.advertenciaHosts ++
        [Salida.encabezado] ++
        (empaquetar pl (originalBroadcastAddress pl ip cb) csv
          (pl.stdSort (dimensionadas pl reqs))
          { currentAllocationIp := originalNetworkAddress pl ip cb, subnetCounter := 0 }).2 ++
        trailer (originalBroadcastAddress pl ip cb) csv
          (empaquetar pl (originalBroadcastAddress pl ip cb) csv
            (pl.stdSort (dimensionadas pl reqs))
            { currentAllocationIp := originalNetworkAddress pl ip cb,
              subnetCounter := 0 }).1.currentAllocationIp := by
  unfold calcularSubredes
  rw [if_neg (not_not.mpr h)]
  simp only [hc, if_false, dimensionar_os, dimensionar_info, List.nil_append]

/-- A run is stopped exactly when the base address has host bits set or the capacity
check fails. -/
theorem abortada_calcularSubredes (pl : Plataforma) (ip : String) (cb : Int) (reqs : List Int)
    (csv : Bool) :
    abortada (calcularSubredes pl ip cb reqs csv) = true ↔
      (originalNetworkAddress pl ip cb ≠ ipToInt ip ∨
        (dimensionar pl reqs [] 0 []).2.1 > totalOriginalIps pl ip cb) := by
  by_cases h : originalNetworkAddress pl ip cb = ipToInt ip
  · by_cases hc : (dimensionar pl reqs [] 0 []).2.1 > totalOriginalIps pl ip cb
    · rw [calcularSubredes_capacidad pl ip cb reqs csv h hc]
      simp [abortada_append, abortada, hc]
    · rw [calcularSubredes_asignada pl ip cb reqs csv h hc]
      simp [abortada_append, abortada, abortada_resumen, abortada_advertencias,
        abortada_empaquetar, abortada_trailer, h, hc]
  · rw [calcularSubredes_invalida pl ip cb reqs csv h]
    simp [abortada, h]

/-- The records of a run are those of the packing loop. -/
theorem subredes_calcularSubredes_subset (pl : Plataforma) (ip : String) (cb : Int)
    (reqs : List Int) (csv : Bool) (s : Subred)
    (hs : s ∈ subredes (calcularSubredes pl ip cb reqs csv)) :
    s ∈ subredes (empaquetar pl (originalBroadcastAddress pl ip cb) csv
          (pl.stdSort (dimensionadas pl reqs))
          { currentAllocationIp := originalNetworkAddress pl ip cb, subnetCounter := 0 }).2 := by
  by_cases h : originalNetworkAddress pl ip cb = ipToInt ip
  · by_cases hc : (dimensionar pl reqs [] 0 []).2.1 > totalOriginalIps pl ip cb
    · rw [calcularSubredes_capacidad pl ip cb reqs csv h hc] at hs
      simp [subredes_append, subredes, subredes_resumen, subredes_advertencias] at hs
    · rw [calcularSubredes_asignada pl ip cb reqs csv h hc] at hs
      simpa [subredes_append, subredes, subredes_resumen, subredes_advertencias,
        subredes_trailer] using hs
  · rw [calcularSubredes_invalida pl ip cb reqs csv h] at hs
    simp [subredes] at hs

/-! ## Runs that do not depend on the platform -/

/-- A run the checks stop is the same on two platforms that agree on the base mask,
when no request overflows `hostsToCidr`: `std::sort` is not reached. -/
theorem calcularSubredes_congr_abortada (pl pl2 : Plataforma) (ip : String)
    (cb : Int) (reqs : List Int) (csv : Bool)
    (hm : mascaraBaseNumerica pl cb = mascaraBaseNumerica pl2 cb)
    (hreq : ∀ h ∈ reqs, h + 2 ≤ INT_MAX)
    (ha : abortada (calcularSubredes pl2 ip cb reqs csv) = true) :
    calcularSubredes pl ip cb reqs csv = calcularSubredes pl2 ip cb reqs csv := by
  obtain ⟨e1, e2, e3⟩ := base_congr pl pl2 ip cb hm
  have e4 := resumen_congr pl pl2 ip cb csv hm
  have hd := dimensionar_indep pl pl2 reqs hreq [] 0 []
  have hr : rechazadas pl reqs = rechazadas pl2 reqs := by
    have h1 := dimensionar_os pl reqs [] 0 []
    have h2 := dimensionar_os pl2 reqs [] 0 []
    rw [hd, h2] at h1
    simpa using (List.map_injective_iff.mpr
      (fun a b hab => by injection hab)) h1.symm
  by_cases hv : originalNetworkAddress pl2 ip cb = ipToInt ip
  · rcases (abortada_calcularSubredes pl2 ip cb reqs csv).mp ha with h | h
    · exact absurd hv h
    · rw [calcularSubredes_capacidad pl2 ip cb reqs csv hv h,
        calcularSubredes_capacidad pl ip cb reqs csv (e1.trans hv)
          (by rw [e3, hd]; exact h), e3, e4, hd, hr]
  · rw [calcularSubredes_invalida pl2 ip cb reqs csv hv,
      calcularSubredes_invalida pl ip cb reqs csv (by rw [e1]; exact hv), e1]

/-- A run is the same on two platforms when the base prefix is from 1 to 32, no
request overflows `hostsToCidr`, and the sized requests are already in the only order
`std::sort` can give them. -/
theorem calcularSubredes_eq_of_sorted (pl pl2 : Plataforma) (hpl : SortCorrecto pl)
    (hpl2 : SortCorrecto pl2) (ip : String) (cb : Int) (reqs : List Int) (csv : Bool)
    (h1 : 1 ≤ cb) (h2 : cb ≤ 32) (hreq : ∀ h ∈ reqs, h + 2 ≤ INT_MAX)
    (hs : (dimensionadas pl2 reqs).Pairwise (fun a b => a.1 ≤ b.1))
    (hinj : ∀ a ∈ dimensionadas pl2 reqs, ∀ b ∈ dimensionadas pl2 reqs, a.1 = b.1 → a = b) :
    calcularSubredes pl ip cb reqs csv = calcularSubredes pl2 ip cb reqs csv := by
  have hm := mascaraBaseNumerica_indep pl pl2 cb h1 h2
  by_cases ha : abortada (calcularSubredes pl2 ip cb reqs csv) = true
  · exact calcularSubredes_congr_abortada pl pl2 ip cb reqs csv hm hreq ha
  · obtain ⟨e1, e2, e3⟩ := base_congr pl pl2 ip cb hm
    have e4 := resumen_congr pl pl2 ip cb csv hm
    have hd := dimensionar_indep pl pl2 reqs hreq [] 0 []
    have hdi : dimensionadas pl reqs = dimensionadas pl2 reqs := by
      have a1 := dimensionar_info pl reqs [] 0 []
      have a2 := dimensionar_info pl2 reqs [] 0 []
      rw [hd, a2] at a1
      simpa using a1.symm
    have hr : rechazadas pl reqs = rechazadas pl2 reqs := by
      have a1 := dimensionar_os pl reqs [] 0 []
      have a2 := dimensionar_os pl2 reqs [] 0 []
      rw [hd, a2] at a1
      simpa using (List.map_injective_iff.mpr
        (fun a b hab => by injection hab)) a1.symm
    rw [abortada_calcularSubredes] at ha
    push_neg at ha
    have hne : ∀ x ∈ dimensionadas pl2 reqs, x.1 ≠ 0 := by
      intro x hx
      simp only [dimensionadas, List.mem_map, List.mem_filter] at hx
      obtain ⟨h, ⟨hmem, hne⟩, rfl⟩ := hx
      have hne2 : hostsToCidr pl2 h ≠ -1 := by simpa using hne
      have := hostsToCidr_range pl2 h (nonneg_of_hostsToCidr_ne pl2 h hne2) (hreq h hmem)
      show hostsToCidr pl2 h ≠ 0
      omega
    rw [calcularSubredes_asignada pl2 ip cb reqs csv ha.1 (by omega),
      calcularSubredes_asignada pl ip cb reqs csv (e1.trans ha.1) (by rw [e3, hd]; omega),
      e1, e2, e4, hr, hdi, stdSort_eq_self pl hpl _ hs hinj, stdSort_eq_self pl2 hpl2 _ hs hinj,
      empaquetar_indep pl pl2 _ _ _ hne]

/-! ## General facts about a run -/

/-- The prefix of a sized request whose sum with 2 is an `int` lies between 1 and 32. -/
theorem cidr_range_of_mem_dimensionadas (pl : Plataforma) (reqs : List Int)
    (hreq : ∀ h ∈ reqs, h + 2 ≤ INT_MAX) (x : Int × Int) (hx : x ∈ dimensionadas pl reqs) :
    1 ≤ x.1 ∧ x.1 ≤ 32 ∧ x.1 = hostsToCidr pl x.2 ∧ x.2 ∈ reqs ∧ 0 ≤ x.2 := by
  simp only [dimensionadas, List.mem_map, List.mem_filter] at hx
  obtain ⟨h, ⟨hmem, hne⟩, rfl⟩ := hx
  have hne2 : hostsToCidr pl h ≠ -1 := by simpa using hne
  have h0 := nonneg_of_hostsToCidr_ne pl h hne2
  have hr := hostsToCidr_range pl h h0 (hreq h hmem)
  exact ⟨hr.1, hr.2, rfl, hmem, h0⟩

/-- Every subnet record offers at least the hosts asked for, when no request is so
large that `num_hosts + 2` leaves the range of `int`. -/
theorem hostsUtilizables_ge_requestedHosts (pl : Plataforma) (hpl : SortCorrecto pl)
    (ipBaseStr : String) (cidrBase : Int) (requestedHostCounts : List Int)
    (is_csv_output : Bool) (hreq : ∀ h ∈ requestedHostCounts, h + 2 ≤ INT_MAX) :
    ∀ s ∈ subredes (calcularSubredes pl ipBaseStr cidrBase requestedHostCounts is_csv_output),
      s.requestedHosts ≤ s.hostsUtilizables := by
  intro s hs
  have hs2 := subredes_calcularSubredes_subset pl ipBaseStr cidrBase requestedHostCounts
    is_csv_output s hs
  obtain ⟨x, hx, st2, hs3⟩ := mem_subredes_empaquetar _ _ _ _ _ s hs2
  have hx2 : x ∈ dimensionadas pl requestedHostCounts := (hpl _).1.mem_iff.mp hx
  obtain ⟨_, _, he, hmem, h0⟩ :=
    cidr_range_of_mem_dimensionadas pl requestedHostCounts hreq x hx2
  rw [subredes_asignar] at hs3
  split_ifs at hs3 with hbr
  · simp at hs3
  · simp only [List.mem_singleton] at hs3
    subst hs3
    show x.2 ≤ toInt32 (if pow2u32 pl (32 - x.1) > 2 then sub32 (pow2u32 pl (32 - x.1)) 2
      else 0)
    rw [he]
    exact hosts_le_utilizables pl x.2 h0 (hreq x.2 hmem)

/-- The sum the capacity check compares is the true sum of the block sizes as long as
that sum is below `2 ^ 32` and no request overflows `hostsToCidr`. -/
theorem dimensionar_total_of_lt (pl : Plataforma) (reqs : List Int)
    (hreq : ∀ h ∈ reqs, h + 2 ≤ INT_MAX)
    (hsum : ((dimensionadas pl reqs).map (fun x => bloque x.1)).sum < 4294967296) :
    (dimensionar pl reqs [] 0 []).2.1 =
      ((dimensionadas pl reqs).map (fun x => bloque x.1)).sum := by
  rw [dimensionar_total pl reqs [] 0 [] (by decide), Nat.zero_add]
  have hmap : (dimensionadas pl reqs).map (fun x => pow2u32 pl (32 - x.1)) =
      (dimensionadas pl reqs).map (fun x => bloque x.1) := by
    apply List.map_congr_left
    intro x hx
    obtain ⟨h1, h2, _⟩ := cidr_range_of_mem_dimensionadas pl reqs hreq x hx
    exact pow2u32_of_lt pl _ (by omega) (by omega)
  rw [hmap]
  exact Nat.mod_eq_of_lt hsum

/-- The capacity check stops the run when the sum of the block sizes exceeds the
address count of the base network, as long as that sum is below `2 ^ 32`: the output
ends with the capacity error and has no subnet record. -/
theorem calcularSubredes_capacity_abort (pl : Plataforma) (ip : String) (cb : Int)
    (reqs : List Int) (csv : Bool)
    (hv : originalNetworkAddress pl ip cb = ipToInt ip)
    (hreq : ∀ h ∈ reqs, h + 2 ≤ INT_MAX)
    (hsum : ((dimensionadas pl reqs).map (fun x => bloque x.1)).sum < 4294967296)
    (hexc : totalOriginalIps pl ip cb <
      ((dimensionadas pl reqs).map (fun x => bloque x.1)).sum) :
    calcularSubredes pl ip cb reqs csv =
      resumen pl ip cb csv ++ (rechazadas pl reqs).map Salida.advertenciaHosts ++
        [Salida.errorCapacidad
          ((dimensionadas pl reqs).map (fun x => bloque x.1)).sum
          (totalOriginalIps pl ip cb)] ∧
    subredes (calcularSubredes pl ip cb reqs csv) = [] := by
  have ht := dimensionar_total_of_lt pl reqs hreq hsum
  have hc : (dimensionar pl reqs [] 0 []).2.1 > totalOriginalIps pl ip cb := by
    rw [ht]; exact hexc
  rw [calcularSubredes_capacidad pl ip cb reqs csv hv hc, ht]
  refine ⟨rfl, ?_⟩
  simp [subredes_append, subredes, subredes_resumen, subredes_advertencias]

/-- The mask `calcularSubredes` computes is that of `cidrToMask` for a prefix from 1
to 32. -/
theorem ipToInt_cidrToMask (pl : Plataforma) (p : Int) (h1 : 1 ≤ p) (h32 : p ≤ 32) :
    ipToInt (cidrToMask pl p) = mascaraBaseNumerica pl p := by
  rw [cidrToMask_indep pl plataformaX86 p (by omega) h32,
    mascaraBaseNumerica_indep pl plataformaX86 p h1 h32]
  interval_cases p <;> decide

/-- The check of the base address, for a prefix from 1 to 32: when the address differs
from its bitwise AND with the mask of the prefix, the run writes the error with that
AND as the right network address and nothing else; when they are equal the check
passes and the output starts otherwise. -/
theorem calcularSubredes_base_check (pl : Plataforma) (ip : String) (p : Int) (h1 : 1 ≤ p)
    (h32 : p ≤ 32) (reqs : List Int) (csv : Bool) :
    (ipToInt ip &&& ipToInt (cidrToMask pl p) ≠ ipToInt ip →
      calcularSubredes pl ip p reqs csv =
        [Salida.errorRedInvalida ip p
          (intToIp (ipToInt ip &&& ipToInt (cidrToMask pl p)))]) ∧
    (ipToInt ip &&& ipToInt (cidrToMask pl p) = ipToInt ip →
      ∀ a b c, calcularSubredes pl ip p reqs csv ≠ [Salida.errorRedInvalida a b c]) := by
  rw [ipToInt_cidrToMask pl p h1 h32]
  constructor
  · intro h
    exact calcularSubredes_invalida pl ip p reqs csv h
  · intro h a b c heq
    have hv : originalNetworkAddress pl ip p = ipToInt ip := h
    by_cases hc : (dimensionar pl reqs [] 0 []).2.1 > totalOriginalIps pl ip p
    · rw [calcularSubredes_capacidad pl ip p reqs csv hv hc] at heq
      have := congrArg List.getLast? heq
      simp at this
    · rw [calcularSubredes_asignada pl ip p reqs csv hv hc] at heq
      have h2 := congrArg (fun l => decide (Salida.encabezado ∈ l)) heq
      simp at h2

/-! ## Dotted-decimal text and back -/

theorem splitLoop_of_not_mem (delim : Char) (t : List Char) :
    ∀ acc : List Char, delim ∉ t → splitLoop delim t acc = [String.mk (acc ++ t)] := by
  induction t with
  | nil => intro acc _; simp [splitLoop]
  | cons c cs ih =>
    intro acc h
    have hc : c ≠ delim := fun e => h (by rw [e]; exact List.mem_cons_self _ _)
    have hcs : delim ∉ cs := fun e => h (List.mem_cons_of_mem _ e)
    simp only [splitLoop, hc, if_false]
    rw [ih _ hcs]
    simp

theorem splitLoop_append (delim : Char) (t rest : List Char) :
    ∀ acc : List Char, delim ∉ t →
      splitLoop delim (t ++ delim :: rest) acc =
        String.mk (acc ++ t) :: (if rest = [] then [] else splitLoop delim rest []) := by
  induction t with
  | nil => intro acc _; simp [splitLoop]
  | cons c cs ih =>
    intro acc h
    have hc : c ≠ delim := fun e => h (by rw [e]; exact List.mem_cons_self _ _)
    have hcs : delim ∉ cs := fun e => h (List.mem_cons_of_mem _ e)
    rw [List.cons_append, splitLoop, if_neg hc, ih _ hcs]
    simp

set_option maxRecDepth 100000 in
/-- The decimal text of an octet has no dot, is not empty, and `stoi` reads it back. -/
theorem to_string_octet : ∀ k : Nat, k < 256 →
    Char.ofNat 46 ∉ (to_string k).data ∧ (to_string k).data ≠ [] ∧
      stoi (to_string k) = some (k : Int) := by
  decide

theorem or_eq_add (i x y : Nat) (h : y < 2 ^ i) (hx : 2 ^ i ∣ x) : x ||| y = x + y := by
  obtain ⟨q, rfl⟩ := hx
  exact (Nat.mul_add_lt_is_or h q).symm

theorem split_four (a b c d : String) (ha : Char.ofNat 46 ∉ a.data)
    (hb : Char.ofNat 46 ∉ b.data) (hc : Char.ofNat 46 ∉ c.data) (hd : Char.ofNat 46 ∉ d.data)
    (hd0 : d.data ≠ []) :
    split (a ++ "." ++ b ++ "." ++ c ++ "." ++ d) (Char.ofNat 46) = [a, b, c, d] := by
  have e : (a ++ "." ++ b ++ "." ++ c ++ "." ++ d).data =
      a.data ++ Char.ofNat 46 :: (b.data ++ Char.ofNat 46 ::
        (c.data ++ Char.ofNat 46 :: d.data)) := by
    simp only [String.data_append, List.append_assoc]
    rfl
  unfold split
  rw [e]
  have hne : a.data ++ Char.ofNat 46 :: (b.data ++ Char.ofNat 46 ::
      (c.data ++ Char.ofNat 46 :: d.data)) ≠ [] := by simp
  rw [if_neg hne, splitLoop_append _ _ _ _ ha]
  have hne2 : b.data ++ Char.ofNat 46 :: (c.data ++ Char.ofNat 46 :: d.data) ≠ [] := by simp
  rw [if_neg hne2, splitLoop_append _ _ _ _ hb]
  have hne3 : c.data ++ Char.ofNat 46 :: d.data ≠ [] := by simp
  rw [if_neg hne3, splitLoop_append _ _ _ _ hc, if_neg hd0, splitLoop_of_not_mem _ _ _ hd]
  simp

theorem ipToInt_octets (a b c d : Nat) (ha : a < 256) (hb : b < 256) (hc : c < 256)
    (hd : d < 256) :
    ipToInt (to_string a ++ "." ++ to_string b ++ "." ++ to_string c ++ "." ++ to_string d) =
      a * 16777216 + b * 65536 + c * 256 + d := by
  obtain ⟨a1, _, a3⟩ := to_string_octet a ha
  obtain ⟨b1, _, b3⟩ := to_string_octet b hb
  obtain ⟨c1, _, c3⟩ := to_string_octet c hc
  obtain ⟨d1, d2, d3⟩ := to_string_octet d hd
  unfold ipToInt
  rw [split_four _ _ _ _ a1 b1 c1 d1 d2]
  simp only [List.length_cons, List.length_nil, ne_eq, not_true_eq_false, if_false,
    ipToIntLoop, a3, b3, c3, d3]
  have h1 : ¬ ((a : Int) < 0 ∨ (a : Int) > 255) := by omega
  have h2 : ¬ ((b : Int) < 0 ∨ (b : Int) > 255) := by omega
  have h3 : ¬ ((c : Int) < 0 ∨ (c : Int) > 255) := by omega
  have h4 : ¬ ((d : Int) < 0 ∨ (d : Int) > 255) := by omega
  simp only [h1, h2, h3, h4, if_false, Int.toNat_ofNat]
  simp only [Nat.shiftLeft_eq]
  norm_num
  rw [or_eq_add 24 (a * 16777216) (b * 65536) (by omega) ⟨a, by omega⟩,
    or_eq_add 16 (a * 16777216 + b * 65536) (c * 256) (by omega) ⟨a * 256 + b, by omega⟩,
    or_eq_add 8 (a * 16777216 + b * 65536 + c * 256) d (by omega)
      ⟨a * 65536 + b * 256 + c, by omega⟩]

/-- The text `intToIp` writes reads back, through `ipToInt`, as the same 32-bit value. -/
theorem ipToInt_intToIp (n : Nat) (hn : n < 4294967296) : ipToInt (intToIp n) = n := by
  unfold intToIp
  have e255 : (255 : Nat) = 2 ^ 8 - 1 := by norm_num
  rw [e255]
  simp only [Nat.and_pow_two_sub_one_eq_mod, Nat.shiftRight_eq_div_pow]
  rw [ipToInt_octets _ _ _ _ (Nat.mod_lt _ (by norm_num)) (Nat.mod_lt _ (by norm_num))
    (Nat.mod_lt _ (by norm_num)) (Nat.mod_lt _ (by norm_num))]
  omega

/-! ## The packing loop when nothing wraps -/

theorem bloque_pos (cidr : Int) : 0 < bloque cidr := by
  unfold bloque
  exact Nat.two_pow_pos _

theorem pow2u32_eq_bloque (pl : Plataforma) (cidr : Int) (h1 : 1 ≤ cidr) (h2 : cidr ≤ 32) :
    pow2u32 pl (32 - cidr) = bloque cidr ∧ bloque cidr ≤ 2147483648 := by
  refine ⟨pow2u32_of_lt pl _ (by omega) (by omega), ?_⟩
  unfold bloque
  have : (32 - cidr).toNat ≤ 31 := by omega
  calc 2 ^ (32 - cidr).toNat ≤ 2 ^ 31 := Nat.pow_le_pow_right (by decide) this
    _ = 2147483648 := by norm_num

/-- One iteration for a request whose block fits before the end of the base network:
the record is written at the cursor, its range is the block, and the cursor moves past
it. -/
theorem asignar_coloca (pl : Plataforma) (b : Nat) (csv : Bool) (st : Estado)
    (x : Int × Int) (h1 : 1 ≤ x.1) (h2 : x.1 ≤ 32) (hb : b < 4294967296)
    (hfit : st.currentAllocationIp + bloque x.1 ≤ b + 1) :
    asignar pl b csv st x =
      ({ currentAllocationIp := (st.currentAllocationIp + bloque x.1) % 4294967296,
         subnetCounter := st.subnetCounter + 1 },
        [Salida.fila (registro pl st x) (st.subnetCounter + 1)]) ∧
    rango (registro pl st x) =
      (st.currentAllocationIp, st.currentAllocationIp + bloque x.1 - 1) := by
  obtain ⟨hp, hle⟩ := pow2u32_eq_bloque pl x.1 h1 h2
  have hpos := bloque_pos x.1
  have hbr : sub32 (add32 st.currentAllocationIp (bloque x.1)) 1 =
      st.currentAllocationIp + bloque x.1 - 1 := by
    unfold sub32 add32
    omega
  constructor
  · unfold asignar
    have c1 : ¬ (x.1 > 32 ∨ x.1 < 0) := by omega
    have c2 : ¬ (sub32 (add32 st.currentAllocationIp (pow2u32 pl (32 - x.1))) 1 > b ∨
        st.currentAllocationIp > b) := by
      rw [hp, hbr]
      omega
    simp only [c1, if_false, c2]
    refine Prod.ext ?_ rfl
    show Estado.mk (add32 st.currentAllocationIp (pow2u32 pl (32 - x.1))) _ = Estado.mk _ _
    rw [hp]
    rfl
  · unfold rango registro
    simp only [hp, hbr]
    rw [ipToInt_intToIp _ (by omega), ipToInt_intToIp _ (by omega)]

theorem subredes_fila (s : Subred) (c : Int) (rest : List Salida) :
    subredes (Salida.fila s c :: rest) = s :: subredes rest := rfl

theorem fallos_fila (s : Subred) (c : Int) (rest : List Salida) :
    fallos (Salida.fila s c :: rest) = fallos rest := rfl

/-- The packing loop for requests whose blocks all fit before the end of the base
network: every request gets a record, the ranges follow one another from the cursor,
no failure is written, and the cursor ends right after the last block (modulo
`2 ^ 32`). -/
theorem empaquetar_coloca (pl : Plataforma) (b : Nat) (csv : Bool) (hb : b < 4294967296)
    (l : List (Int × Int)) : ∀ st : Estado, (∀ x ∈ l, 1 ≤ x.1 ∧ x.1 ≤ 32) →
    st.currentAllocationIp < 4294967296 →
    st.currentAllocationIp + (l.map (fun x => bloque x.1)).sum ≤ b + 1 →
    (subredes (empaquetar pl b csv l st).2).map rango = rangosDesde st.currentAllocationIp l ∧
    fallos (empaquetar pl b csv l st).2 = [] ∧
    (empaquetar pl b csv l st).1.currentAllocationIp =
      (st.currentAllocationIp + (l.map (fun x => bloque x.1)).sum) % 4294967296 := by
  induction l with
  | nil =>
    intro st _ hst _
    simp [empaquetar, subredes, fallos, rangosDesde, Nat.mod_eq_of_lt hst]
  | cons x xs ih =>
    intro st hl hst hfit
    have hx := hl x (List.mem_cons_self _ _)
    simp only [List.map_cons, List.sum_cons] at hfit
    obtain ⟨ha, hr⟩ := asignar_coloca pl b csv st x hx.1 hx.2 hb (by omega)
    have hpos := bloque_pos x.1
    simp only [empaquetar, ha, List.singleton_append, subredes_fila, fallos_fila,
      List.map_cons, hr, rangosDesde, List.sum_cons]
    cases xs with
    | nil =>
      simp [empaquetar, subredes, fallos, rangosDesde]
    | cons y ys =>
      have hy := bloque_pos y.1
      simp only [List.map_cons, List.sum_cons] at hfit
      have hlt : st.currentAllocationIp + bloque x.1 < 4294967296 := by omega
      have hih := ih ⟨(st.currentAllocationIp + bloque x.1) % 4294967296,
          st.subnetCounter + 1⟩
        (fun z hz => hl z (List.mem_cons_of_mem _ hz)) (Nat.mod_lt _ (by decide))
        (by
          simp only [List.map_cons, List.sum_cons]
          rw [Nat.mod_eq_of_lt hlt]
          omega)
      simp only [Nat.mod_eq_of_lt hlt] at hih
      obtain ⟨i1, i2, i3⟩ := hih
      simp only [Nat.mod_eq_of_lt hlt]
      refine ⟨by rw [i1], i2, ?_⟩
      rw [i3]
      simp only [List.map_cons, List.sum_cons, Nat.add_assoc]

/-- Blocks laid one after another: each starts right after the one before, and all
lie between the first address and the last one used. -/
theorem rangosDesde_spec (l : List (Int × Int)) : ∀ cur : Nat,
    (rangosDesde cur l).Pairwise (fun r s => r.2 < s.1) ∧
    (rangosDesde cur l).Chain' (fun r s => s.1 = r.2 + 1) ∧
    (∀ r ∈ rangosDesde cur l,
      cur ≤ r.1 ∧ r.1 ≤ r.2 ∧ r.2 + 1 ≤ cur + (l.map (fun x => bloque x.1)).sum) ∧
    (rangosDesde cur l).head?.map Prod.fst = (l.head?).map (fun _ => cur) := by
  induction l with
  | nil => intro cur; simp [rangosDesde]
  | cons x xs ih =>
    intro cur
    have hpos := bloque_pos x.1
    obtain ⟨p1, p2, p3, p4⟩ := ih (cur + bloque x.1)
    simp only [rangosDesde, List.map_cons, List.sum_cons]
    refine ⟨?_, ?_, ?_, by simp⟩
    · rw [List.pairwise_cons]
      refine ⟨?_, p1⟩
      intro r hr
      have := p3 r hr
      show cur + bloque x.1 - 1 < r.1
      omega
    · rw [List.chain'_cons']
      refine ⟨?_, p2⟩
      intro r hr
      cases xs with
      | nil => simp [rangosDesde] at hr
      | cons y ys =>
        simp only [rangosDesde, List.head?_cons, Option.mem_def, Option.some.injEq] at hr
        rw [← hr]
        show cur + bloque x.1 = cur + bloque x.1 - 1 + 1
        omega
    · intro r hr
      rcases List.mem_cons.mp hr with e | e
      · rw [e]
        simp only
        omega
      · have := p3 r e
        omega

/-! ## A run in which nothing wraps -/

theorem fallos_resumen (pl : Plataforma) (ip : String) (cb : Int) (csv : Bool) :
    fallos (resumen pl ip cb csv) = [] := by
  cases csv <;> simp [resumen, fallos]

theorem fallos_trailer (b : Nat) (csv : Bool) (c : Nat) : fallos (trailer b csv c) = [] := by
  unfold trailer
  split_ifs <;> simp [fallos]

theorem mascaraBaseNumerica_lt (pl : Plataforma) (cb : Int) :
    mascaraBaseNumerica pl cb < 4294967296 := by
  unfold mascaraBaseNumerica shl32
  split_ifs <;> exact Nat.mod_lt _ (by decide)

/-- The base network as the run derives it: the network address is not above the
broadcast address, both are 32-bit values, and the address count is their distance
plus one, modulo `2 ^ 32`. -/
theorem base_order (pl : Plataforma) (ip : String) (cb : Int) :
    originalNetworkAddress pl ip cb ≤ originalBroadcastAddress pl ip cb ∧
    originalBroadcastAddress pl ip cb < 4294967296 ∧
    totalOriginalIps pl ip cb =
      (originalBroadcastAddress pl ip cb - originalNetworkAddress pl ip cb + 1)
        % 4294967296 := by
  have hm := mascaraBaseNumerica_lt pl cb
  have hn : originalNetworkAddress pl ip cb < 4294967296 :=
    lt_of_le_of_lt Nat.and_le_right hm
  have hle : originalNetworkAddress pl ip cb ≤ originalBroadcastAddress pl ip cb := by
    unfold originalBroadcastAddress
    apply Nat.le_of_testBit
    intro i hi
    rw [Nat.testBit_or, hi]
    rfl
  have hb : originalBroadcastAddress pl ip cb < 4294967296 := by
    unfold originalBroadcastAddress
    have h32 : (4294967296 : Nat) = 2 ^ 32 := by norm_num
    rw [h32]
    apply Nat.or_lt_two_pow
    · rw [← h32]; exact hn
    · rw [← h32]; unfold not32; omega
  refine ⟨hle, hb, ?_⟩
  unfold totalOriginalIps add32 sub32
  omega

/-- When the block sizes of the sized requests add up to no more than the address
count of the base network, and no request overflows `hostsToCidr`, the run is not
stopped, every sized request gets a record, and the ranges of the records follow one
another from the base network address: each starts above the end of the one before,
and all lie inside the base network. -/
theorem calcularSubredes_sin_desborde (pl : Plataforma) (hpl : SortCorrecto pl)
    (ip : String) (cb : Int) (reqs : List Int) (csv : Bool)
    (hv : originalNetworkAddress pl ip cb = ipToInt ip)
    (hreq : ∀ h ∈ reqs, h + 2 ≤ INT_MAX)
    (hsum : ((dimensionadas pl reqs).map (fun x => bloque x.1)).sum ≤
      totalOriginalIps pl ip cb) :
    abortada (calcularSubredes pl ip cb reqs csv) = false ∧
    fallos (calcularSubredes pl ip cb reqs csv) = rechazadas pl reqs ∧
    (subredes (calcularSubredes pl ip cb reqs csv)).map rango =
      rangosDesde (originalNetworkAddress pl ip cb) (pl.stdSort (dimensionadas pl reqs)) ∧
    ((subredes (calcularSubredes pl ip cb reqs csv)).map rango).Pairwise
      (fun r s => r.2 < s.1) ∧
    (∀ r ∈ (subredes (calcularSubredes pl ip cb reqs csv)).map rango,
      originalNetworkAddress pl ip cb ≤ r.1 ∧ r.1 ≤ r.2 ∧
        r.2 ≤ originalBroadcastAddress pl ip cb) := by
  obtain ⟨hle, hb, htot⟩ := base_order pl ip cb
  have htlt : totalOriginalIps pl ip cb < 4294967296 := by
    rw [htot]; exact Nat.mod_lt _ (by decide)
  have ht := dimensionar_total_of_lt pl reqs hreq (lt_of_le_of_lt hsum htlt)
  have hc : ¬ (dimensionar pl reqs [] 0 []).2.1 > totalOriginalIps pl ip cb := by
    rw [ht]; omega
  have hperm := (hpl (dimensionadas pl reqs)).1
  have hsumeq : ((pl.stdSort (dimensionadas pl reqs)).map (fun x => bloque x.1)).sum =
      ((dimensionadas pl reqs).map (fun x => bloque x.1)).sum :=
    (hperm.map _).sum_eq
  have hrange : ∀ x ∈ pl.stdSort (dimensionadas pl reqs), 1 ≤ x.1 ∧ x.1 ≤ 32 := by
    intro x hx
    obtain ⟨a, b, _⟩ :=
      cidr_range_of_mem_dimensionadas pl reqs hreq x (hperm.mem_iff.mp hx)
    exact ⟨a, b⟩
  have hfit : originalNetworkAddress pl ip cb +
      ((pl.stdSort (dimensionadas pl reqs)).map (fun x => bloque x.1)).sum ≤
      originalBroadcastAddress pl ip cb + 1 := by
    rw [hsumeq]
    omega
  obtain ⟨e1, e2, _⟩ := empaquetar_coloca pl (originalBroadcastAddress pl ip cb) csv hb
    (pl.stdSort (dimensionadas pl reqs))
    { currentAllocationIp := originalNetworkAddress pl ip cb, subnetCounter := 0 }
    hrange (lt_of_le_of_lt hle hb) hfit
  have ha : abortada (calcularSubredes pl ip cb reqs csv) = false := by
    have := abortada_calcularSubredes pl ip cb reqs csv
    cases hab : abortada (calcularSubredes pl ip cb reqs csv) with
    | false => rfl
    | true =>
      rcases this.mp hab with h | h
      · exact absurd hv h
      · exact absurd h hc
  have hsub : (subredes (calcularSubredes pl ip cb reqs csv)).map rango =
      rangosDesde (originalNetworkAddress pl ip cb) (pl.stdSort (dimensionadas pl reqs)) := by
    rw [calcularSubredes_asignada pl ip cb reqs csv hv hc]
    simp only [subredes_append, subredes_resumen, subredes_advertencias, subredes_trailer,
      subredes, List.nil_append, List.append_nil]
    exact e1
  obtain ⟨s1, _, s3, _⟩ := rangosDesde_spec (pl.stdSort (dimensionadas pl reqs))
    (originalNetworkAddress pl ip cb)
  refine ⟨ha, ?_, hsub, ?_, ?_⟩
  · rw [calcularSubredes_asignada pl ip cb reqs csv hv hc]
    simp only [fallos_append, fallos_resumen, fallos_advertencias, fallos_trailer, fallos,
      List.nil_append, List.append_nil, e2]
  · rw [hsub]; exact s1
  · rw [hsub]
    intro r hr
    have := s3 r hr
    omega

/-! ## The sizing rule: claims -/

/-- C8. For every host count `h ≥ 1` with `h + 2` representable as an `int`,
`hostsToCidr h` is `32 - ceil(log2(h + 2))` clamped to `[0, 32]` (the logarithm being
the real one), and the block of that prefix is the least sufficient one: with
`p = hostsToCidr h`, which lies between 1 and 30, `2 ^ (32 - p) ≥ h + 2` and
`2 ^ (32 - p - 1) < h + 2`. -/
theorem hostsToCidr_minimal_block (pl : Plataforma) (h : Int) (h1 : 1 ≤ h)
    (h2 : h + 2 ≤ INT_MAX) :
    hostsToCidr pl h = max 0 (min 32 (32 - ⌈Real.logb 2 ((h : ℝ) + 2)⌉)) ∧
    1 ≤ hostsToCidr pl h ∧ hostsToCidr pl h ≤ 30 ∧
    h + 2 ≤ 2 ^ (32 - hostsToCidr pl h).toNat ∧
    2 ^ (32 - hostsToCidr pl h - 1).toNat < h + 2 := by
  obtain ⟨he, hge, hle⟩ := hostsToCidr_eq pl h h1 h2
  have hcast : ((h : ℝ) + 2) = (((h + 2).toNat : Nat) : ℝ) := by
    have : (((h + 2).toNat : Nat) : Int) = h + 2 := Int.toNat_of_nonneg (by omega)
    have h3 : ((((h + 2).toNat : Nat) : Int) : ℝ) = ((h + 2 : Int) : ℝ) := by rw [this]
    push_cast at h3
    rw [← h3]
  have hb := le_two_pow_ceilLog2 (h + 2).toNat
  have hs := two_pow_lt_of_lt_ceilLog2 (h + 2).toNat (ceilLog2 (h + 2).toNat - 1) (by omega)
  have e2 : (((h + 2).toNat : Nat) : Int) = h + 2 := Int.toNat_of_nonneg (by omega)
  refine ⟨?_, by omega, by omega, ?_, ?_⟩
  · rw [hcast, ← ceilLog2_eq_ceil_logb, he]
    omega
  · rw [he]
    have e : (32 - (32 - ((ceilLog2 (h + 2).toNat : Nat) : Int))).toNat =
        ceilLog2 (h + 2).toNat := by omega
    rw [e]
    have : (((h + 2).toNat : Nat) : Int) ≤ ((2 ^ ceilLog2 (h + 2).toNat : Nat) : Int) := by
      exact_mod_cast hb
    rw [e2] at this
    exact_mod_cast this
  · rw [he]
    have e : (32 - (32 - ((ceilLog2 (h + 2).toNat : Nat) : Int)) - 1).toNat
        = ceilLog2 (h + 2).toNat - 1 := by omega
    rw [e]
    have : ((2 ^ (ceilLog2 (h + 2).toNat - 1) : Nat) : Int) < (((h + 2).toNat : Nat) : Int) := by
      exact_mod_cast hs
    rw [e2] at this
    exact_mod_cast this

theorem hostsToCidr_minimal_block_witness :
    (1 : Int) ≤ 254 ∧ (254 : Int) + 2 ≤ INT_MAX ∧
    hostsToCidr plataformaX86 254 =
      max 0 (min 32 (32 - ⌈Real.logb 2 (((254 : Int) : ℝ) + 2)⌉)) ∧
    1 ≤ hostsToCidr plataformaX86 254 ∧ hostsToCidr plataformaX86 254 ≤ 30 ∧
    (254 : Int) + 2 ≤ 2 ^ (32 - hostsToCidr plataformaX86 254).toNat ∧
    2 ^ (32 - hostsToCidr plataformaX86 254 - 1).toNat < (254 : Int) + 2 :=
  ⟨by decide, by decide, hostsToCidr_minimal_block plataformaX86 254 (by decide) (by decide)⟩

/-- C9. On every platform `hostsToCidr 0 = 32`, `hostsToCidr 254 = 24`,
`hostsToCidr 255 = 23`, `hostsToCidr 256 = 23`, `hostsToCidr 2 = 30`, and
`hostsToCidr` returns the error value `-1` for every negative count. -/
theorem hostsToCidr_values (pl : Plataforma) :
    hostsToCidr pl 0 = 32 ∧ hostsToCidr pl 254 = 24 ∧ hostsToCidr pl 255 = 23 ∧
    hostsToCidr pl 256 = 23 ∧ hostsToCidr pl 2 = 30 ∧
    ∀ h : Int, h < 0 → hostsToCidr pl h = -1 := by
  refine ⟨hostsToCidr_zero pl, ?_, ?_, ?_, ?_, fun h hneg => hostsToCidr_neg pl h hneg⟩
  · rw [hostsToCidr_indep pl plataformaX86 254 (by decide)]; decide
  · rw [hostsToCidr_indep pl plataformaX86 255 (by decide)]; decide
  · rw [hostsToCidr_indep pl plataformaX86 256 (by decide)]; decide
  · rw [hostsToCidr_indep pl plataformaX86 2 (by decide)]; decide

theorem hostsToCidr_values_witness : hostsToCidr plataformaARM (-7) = -1 :=
  (hostsToCidr_values plataformaARM).2.2.2.2.2 (-7) (by decide)

/-! ## Masks and prefixes: claims -/

/-- C10. For every prefix `p` in `[0, 32]`, on every platform,
`maskToCidr (cidrToMask p) = p`. -/
theorem maskToCidr_cidrToMask (pl : Plataforma) (p : Int) (h0 : 0 ≤ p) (h32 : p ≤ 32) :
    maskToCidr (cidrToMask pl p) = p := by
  rw [cidrToMask_indep pl plataformaX86 p h0 h32]
  interval_cases p <;> decide

theorem maskToCidr_cidrToMask_witness :
    (0 : Int) ≤ 24 ∧ (24 : Int) ≤ 32 ∧ maskToCidr (cidrToMask plataformaARM 24) = 24 :=
  ⟨by decide, by decide, maskToCidr_cidrToMask plataformaARM 24 (by decide) (by decide)⟩

/-! ## The allocator: claims on concrete runs -/

/-- C4. For base 192.168.1.0/24 and requests [50, 20, 10], on every platform whose
`std::sort` sorts, `calcularSubredes` writes exactly three subnet records, in this
order: 192.168.1.0/26 with 62 usable hosts, 192.168.1.64/27 with 30 and
192.168.1.96/28 with 14. As numbers the ranges are base + 0 .. 63, base + 64 .. 95 and
base + 96 .. 111, so each block starts right after the one before and none overlaps;
no request is reported as failed and the run is not stopped. -/
theorem calcularSubredes_ejemplo_24 (pl : Plataforma) (hpl : SortCorrecto pl) (csv : Bool) :
    subredes (calcularSubredes pl "192.168.1.0" 24 [50, 20, 10] csv) =
      [{ direccionRed := "192.168.1.0", mascaraDecimal := "255.255.255.192",
         mascaraBinaria := "11111111.11111111.11111111.11000000", cidr := 26,
         hostRangeStart := "192.168.1.1", hostRangeEnd := "192.168.1.62",
         broadcast := "192.168.1.63", hostsUtilizables := 62, requestedHosts := 50 },
       { direccionRed := "192.168.1.64", mascaraDecimal := "255.255.255.224",
         mascaraBinaria := "11111111.11111111.11111111.11100000", cidr := 27,
         hostRangeStart := "192.168.1.65", hostRangeEnd := "192.168.1.94",
         broadcast := "192.168.1.95", hostsUtilizables := 30, requestedHosts := 20 },
       { direccionRed := "192.168.1.96", mascaraDecimal := "255.255.255.240",
         mascaraBinaria := "11111111.11111111.11111111.11110000", cidr := 28,
         hostRangeStart := "192.168.1.97", hostRangeEnd := "192.168.1.110",
         broadcast := "192.168.1.111", hostsUtilizables := 14, requestedHosts := 10 }] ∧
    (subredes (calcularSubredes pl "192.168.1.0" 24 [50, 20, 10] csv)).map rango =
      [(3232235776, 3232235776 + 63), (3232235776 + 64, 3232235776 + 95),
       (3232235776 + 96, 3232235776 + 111)] ∧
    fallos (calcularSubredes pl "192.168.1.0" 24 [50, 20, 10] csv) = [] ∧
    abortada (calcularSubredes pl "192.168.1.0" 24 [50, 20, 10] csv) = false := by
  rw [calcularSubredes_eq_of_sorted pl plataformaX86 hpl sortCorrecto_plataformaX86
    "192.168.1.0" 24 [50, 20, 10] csv (by decide) (by decide) (by decide) (by decide)
    (by decide)]
  cases csv <;> decide

theorem calcularSubredes_ejemplo_24_witness :
    SortCorrecto plataformaX86 ∧
    subredes (calcularSubredes plataformaX86 "192.168.1.0" 24 [50, 20, 10] false) =
      [{ direccionRed := "192.168.1.0", mascaraDecimal := "255.255.255.192",
         mascaraBinaria := "11111111.11111111.11111111.11000000", cidr := 26,
         hostRangeStart := "192.168.1.1", hostRangeEnd := "192.168.1.62",
         broadcast := "192.168.1.63", hostsUtilizables := 62, requestedHosts := 50 },
       { direccionRed := "192.168.1.64", mascaraDecimal := "255.255.255.224",
         mascaraBinaria := "11111111.11111111.11111111.11100000", cidr := 27,
         hostRangeStart := "192.168.1.65", hostRangeEnd := "192.168.1.94",
         broadcast := "192.168.1.95", hostsUtilizables := 30, requestedHosts := 20 },
       { direccionRed := "192.168.1.96", mascaraDecimal := "255.255.255.240",
         mascaraBinaria := "11111111.11111111.11111111.11110000", cidr := 28,
         hostRangeStart := "192.168.1.97", hostRangeEnd := "192.168.1.110",
         broadcast := "192.168.1.111", hostsUtilizables := 14, requestedHosts := 10 }] ∧
    (subredes (calcularSubredes plataformaX86 "192.168.1.0" 24 [50, 20, 10] false)).map rango =
      [(3232235776, 3232235776 + 63), (3232235776 + 64, 3232235776 + 95),
       (3232235776 + 96, 3232235776 + 111)] ∧
    fallos (calcularSubredes plataformaX86 "192.168.1.0" 24 [50, 20, 10] false) = [] ∧
    abortada (calcularSubredes plataformaX86 "192.168.1.0" 24 [50, 20, 10] false) = false :=
  ⟨sortCorrecto_plataformaX86,
    calcularSubredes_ejemplo_24 plataformaX86 sortCorrecto_plataformaX86 false⟩

/-- C5, refuted as stated: for base 10.0.0.0/24 and the request 300 the run is
stopped, and the output has no failure of a single request and no subnet record. -/
theorem calcularSubredes_300_no_failure_record :
    abortada (calcularSubredes plataformaX86 "10.0.0.0" 24 [300] false) = true ∧
    fallos (calcularSubredes plataformaX86 "10.0.0.0" 24 [300] false) = [] ∧
    subredes (calcularSubredes plataformaX86 "10.0.0.0" 24 [300] false) = [] := by
  decide

/-- C5, amended. For base 10.0.0.0/24 and the request 300, on every platform, the
capacity check stops the run: the request sizes to a /23 block of 512 addresses, more
than the 256 of the base network, and the output is the capacity error with both
totals (after the summary of the base network on the console) and nothing else. -/
theorem calcularSubredes_300_capacity (pl : Plataforma) (csv : Bool) :
    hostsToCidr pl 300 = 23 ∧
    calcularSubredes pl "10.0.0.0" 24 [300] csv =
      (if csv then [] else [Salida.redOriginal "10.0.0.0" 24 "10.0.0.255" 256]) ++
        [Salida.errorCapacidad 512 256] := by
  refine ⟨by rw [hostsToCidr_indep pl plataformaX86 300 (by decide)]; decide, ?_⟩
  rw [calcularSubredes_congr_abortada pl plataformaX86 "10.0.0.0" 24 [300] csv
    (mascaraBaseNumerica_indep pl plataformaX86 24 (by decide) (by decide)) (by decide)
    (by cases csv <;> decide)]
  cases csv <;> decide

/-! ## The allocator: where 32-bit arithmetic gives way -/

/-- C1, at the failing input: base 128.0.0.0/1 with three requests of 1073741824
hosts. The three blocks of `2 ^ 31` addresses add up to `3 * 2 ^ 31`, which the 32-bit
total takes for `2 ^ 31`, the size of the base network, so the run is not stopped. The
cursor wraps after the first record: the second record starts at 0.0.0.0, which is not
above the first record's broadcast 255.255.255.255, and the third record has the very
range of the first. -/
theorem calcularSubredes_cursor_wraps (pl : Plataforma) (hpl : SortCorrecto pl) (csv : Bool) :
    abortada (calcularSubredes pl "128.0.0.0" 1 [1073741824, 1073741824, 1073741824] csv)
      = false ∧
    (subredes (calcularSubredes pl "128.0.0.0" 1 [1073741824, 1073741824, 1073741824]
      csv)).map rango =
      [(2147483648, 4294967295), (0, 2147483647), (2147483648, 4294967295)] := by
  rw [calcularSubredes_eq_of_sorted pl plataformaX86 hpl sortCorrecto_plataformaX86
    "128.0.0.0" 1 [1073741824, 1073741824, 1073741824] csv (by decide) (by decide)
    (by decide) (by decide) (by decide)]
  cases csv <;> decide

theorem calcularSubredes_cursor_wraps_witness :
    SortCorrecto plataformaX86 ∧
    abortada (calcularSubredes plataformaX86 "128.0.0.0" 1
      [1073741824, 1073741824, 1073741824] false) = false ∧
    (subredes (calcularSubredes plataformaX86 "128.0.0.0" 1
      [1073741824, 1073741824, 1073741824] false)).map rango =
      [(2147483648, 4294967295), (0, 2147483647), (2147483648, 4294967295)] :=
  ⟨sortCorrecto_plataformaX86,
    calcularSubredes_cursor_wraps plataformaX86 sortCorrecto_plataformaX86 false⟩

/-- C2, at the failing input: base 192.168.1.0/30 (4 addresses) with two requests of
1073741824 hosts. The block sizes add up to `2 ^ 32 > 4`, but the 32-bit total is `0`:
the run is not stopped and two records are written. -/
theorem calcularSubredes_capacity_wraps (pl : Plataforma) (hpl : SortCorrecto pl)
    (csv : Bool) :
    totalOriginalIps pl "192.168.1.0" 30 = 4 ∧
    ((dimensionadas pl [1073741824, 1073741824]).map (fun x => 2 ^ (32 - x.1).toNat)).sum
      = 4294967296 ∧
    (dimensionar pl [1073741824, 1073741824] [] 0 []).2.1 = 0 ∧
    abortada (calcularSubredes pl "192.168.1.0" 30 [1073741824, 1073741824] csv) = false ∧
    (subredes (calcularSubredes pl "192.168.1.0" 30 [1073741824, 1073741824] csv)).length
      = 2 := by
  have hd := dimensionar_indep pl plataformaX86 [1073741824, 1073741824] (by decide) [] 0 []
  have hdi : dimensionadas pl [1073741824, 1073741824] =
      dimensionadas plataformaX86 [1073741824, 1073741824] := by
    have a1 := dimensionar_info pl [1073741824, 1073741824] [] 0 []
    rw [hd, dimensionar_info] at a1
    simpa using a1.symm
  rw [calcularSubredes_eq_of_sorted pl plataformaX86 hpl sortCorrecto_plataformaX86
    "192.168.1.0" 30 [1073741824, 1073741824] csv (by decide) (by decide) (by decide)
    (by decide) (by decide),
    (base_indep pl plataformaX86 "192.168.1.0" 30 (by decide) (by decide)).2.2, hd, hdi]
  cases csv <;> decide

theorem calcularSubredes_capacity_wraps_witness :
    SortCorrecto plataformaARM ∧
    totalOriginalIps plataformaARM "192.168.1.0" 30 = 4 ∧
    ((dimensionadas plataformaARM [1073741824, 1073741824]).map
      (fun x => 2 ^ (32 - x.1).toNat)).sum = 4294967296 ∧
    (dimensionar plataformaARM [1073741824, 1073741824] [] 0 []).2.1 = 0 ∧
    abortada (calcularSubredes plataformaARM "192.168.1.0" 30 [1073741824, 1073741824]
      false) = false ∧
    (subredes (calcularSubredes plataformaARM "192.168.1.0" 30 [1073741824, 1073741824]
      false)).length = 2 :=
  ⟨sortCorrecto_plataformaARM,
    calcularSubredes_capacity_wraps plataformaARM sortCorrecto_plataformaARM false⟩

/-- C3, at the failing input: address 1.2.3.4 with prefix 0 on a platform whose shift
uses the count modulo 32. `cidrToMask 0` is 0.0.0.0, so the address has host bits set
under the mask of the prefix; the mask `calcularSubredes` computes is all ones, the
check passes and no error about the base address is written: 1.2.3.4 is taken as a
network of one address, in which a request of 0 hosts gets a record and a request of
10 hosts trips the capacity check. -/
theorem calcularSubredes_prefix_zero_x86 :
    cidrToMask plataformaX86 0 = "0.0.0.0" ∧
    ipToInt "1.2.3.4" &&& ipToInt (cidrToMask plataformaX86 0) ≠ ipToInt "1.2.3.4" ∧
    mascaraBaseNumerica plataformaX86 0 = 4294967295 ∧
    calcularSubredes plataformaX86 "1.2.3.4" 0 [0] false =
      [Salida.redOriginal "1.2.3.4" 0 "1.2.3.4" 1, Salida.encabezado,
       Salida.fila
         { direccionRed := "1.2.3.4", mascaraDecimal := "255.255.255.255",
           mascaraBinaria := "11111111.11111111.11111111.11111111", cidr := 32,
           hostRangeStart := "N/A", hostRangeEnd := "N/A", broadcast := "1.2.3.4",
           hostsUtilizables := 0, requestedHosts := 0 } 1,
       Salida.redAgotada] ∧
    calcularSubredes plataformaX86 "1.2.3.4" 0 [10] false =
      [Salida.redOriginal "1.2.3.4" 0 "1.2.3.4" 1, Salida.errorCapacidad 16 1] := by
  decide

/-- C6, at the failing input: base 10.0.0.0/8 with one request of 2147483647 hosts
(`INT_MAX`). In `hostsToCidr` the sum `num_hosts + 2` wraps; the prefix that comes out
is 0 on the x86-64 platform and 32 on the ARM one, and on both the request gets a
record with 0 usable hosts. -/
theorem calcularSubredes_int_max_request :
    (subredes (calcularSubredes plataformaX86 "10.0.0.0" 8 [2147483647] false)).map
      (fun s => (s.direccionRed, s.cidr, s.hostsUtilizables, s.requestedHosts)) =
      [("10.0.0.0", 0, 0, 2147483647)] ∧
    (subredes (calcularSubredes plataformaARM "10.0.0.0" 8 [2147483647] false)).map
      (fun s => (s.direccionRed, s.cidr, s.hostsUtilizables, s.requestedHosts)) =
      [("10.0.0.0", 32, 0, 2147483647)] := by
  decide

/-- C7, at the failing input: base 192.168.1.0/24 with two requests of 1073741824
hosts. The 32-bit total of the block sizes is `0`, so the run is not stopped; the
candidate broadcast of the first block wraps to 64.168.0.255, which passes the
"SIN ESPACIO" test, and the second record starts at 64.168.1.0, below the base
network address. No request is reported as failed. -/
theorem calcularSubredes_record_outside_base (pl : Plataforma) (hpl : SortCorrecto pl)
    (csv : Bool) :
    originalNetworkAddress pl "192.168.1.0" 24 = 3232235776 ∧
    originalBroadcastAddress pl "192.168.1.0" 24 = 3232236031 ∧
    (subredes (calcularSubredes pl "192.168.1.0" 24 [1073741824, 1073741824] csv)).map rango =
      [(3232235776, 1084752127), (1084752128, 3232235775)] ∧
    fallos (calcularSubredes pl "192.168.1.0" 24 [1073741824, 1073741824] csv) = [] := by
  rw [calcularSubredes_eq_of_sorted pl plataformaX86 hpl sortCorrecto_plataformaX86
    "192.168.1.0" 24 [1073741824, 1073741824] csv (by decide) (by decide) (by decide)
    (by decide) (by decide),
    (base_indep pl plataformaX86 "192.168.1.0" 24 (by decide) (by decide)).1,
    (base_indep pl plataformaX86 "192.168.1.0" 24 (by decide) (by decide)).2.1]
  cases csv <;> decide

theorem calcularSubredes_record_outside_base_witness :
    SortCorrecto plataformaX86 ∧
    originalNetworkAddress plataformaX86 "192.168.1.0" 24 = 3232235776 ∧
    originalBroadcastAddress plataformaX86 "192.168.1.0" 24 = 3232236031 ∧
    (subredes (calcularSubredes plataformaX86 "192.168.1.0" 24 [1073741824, 1073741824]
      true)).map rango = [(3232235776, 1084752127), (1084752128, 3232235775)] ∧
    fallos (calcularSubredes plataformaX86 "192.168.1.0" 24 [1073741824, 1073741824] true)
      = [] :=
  ⟨sortCorrecto_plataformaX86,
    calcularSubredes_record_outside_base plataformaX86 sortCorrecto_plataformaX86 true⟩

/-! ## Texts of addresses: general facts -/

theorem isdigit_toNat (c : Char) (h : isdigit c = true) : 48 ≤ c.toNat ∧ c.toNat ≤ 57 := by
  unfold isdigit at h
  simpa using h

theorem ne_of_isdigit (c : Char) (h : isdigit c = true) (k : Nat) (hk : k < 48)
    (hv : (Char.ofNat k).toNat = k) : c ≠ Char.ofNat k := by
  intro e
  have := isdigit_toNat c h
  rw [e, hv] at this
  omega

theorem isspace_of_isdigit (c : Char) (h : isdigit c = true) : isspace c = false := by
  have hd := isdigit_toNat c h
  unfold isspace
  have h1 : c ≠ Char.ofNat 32 := ne_of_isdigit c h 32 (by decide) (by decide)
  simp [h1]
  omega

theorem stoiDigits_eq_foldl (l : List Char) : ∀ acc : Nat, (∀ c ∈ l, isdigit c = true) →
    stoiDigits l acc = l.foldl (fun acc c => acc * 10 + (c.toNat - 48)) acc := by
  induction l with
  | nil => intro acc _; rfl
  | cons c cs ih =>
    intro acc h
    have hc := h c (List.mem_cons_self _ _)
    simp only [stoiDigits, hc, if_true, List.foldl_cons]
    exact ih _ (fun d hd => h d (List.mem_cons_of_mem _ hd))

/-- On a text made of digits only `stoi` returns its decimal value (if that is an
`int`). -/
theorem stoi_digitos (s : String) (hne : s.data ≠ []) (hd : ∀ c ∈ s.data, isdigit c = true)
    (hv : (valorDecimal s.data : Int) ≤ INT_MAX) :
    stoi s = some (valorDecimal s.data : Int) := by
  obtain ⟨data⟩ := s
  cases data with
  | nil => exact absurd rfl hne
  | cons c cs =>
    have hc : isdigit c = true := hd c (List.mem_cons_self _ _)
    have hs := isspace_of_isdigit c hc
    have h45 : c ≠ Char.ofNat 45 := ne_of_isdigit c hc 45 (by decide) (by decide)
    have h43 : c ≠ Char.ofNat 43 := ne_of_isdigit c hc 43 (by decide) (by decide)
    have hfold := stoiDigits_eq_foldl (c :: cs) 0 hd
    unfold stoi
    simp only [List.dropWhile_cons, hs, List.head?_cons, Option.some.injEq, h45, h43,
      or_self, if_false, hc, if_true, decide_False, Bool.false_eq_true]
    have hmin : INT_MIN ≤ ((stoiDigits (c :: cs) 0 : Nat) : Int) := by
      unfold INT_MIN; omega
    rw [hfold] at hmin ⊢
    have hv2 : ((List.foldl (fun acc c => acc * 10 + (c.toNat - 48)) 0 (c :: cs) : Nat) : Int)
        ≤ INT_MAX := hv
    simp only [hmin, hv2, and_self, if_true]
    rfl

theorem not_mem_dot_of_digitos (l : List Char) (hd : ∀ c ∈ l, isdigit c = true) :
    Char.ofNat 46 ∉ l := by
  intro h
  exact ne_of_isdigit _ (hd _ h) 46 (by decide) (by decide) rfl

/-- The value `ipToInt` gives a text of four dot-separated tokens that `stoi` reads as
octets. -/
theorem ipToInt_tokens (a b c d : String) (va vb vc vd : Nat)
    (ha : Char.ofNat 46 ∉ a.data) (hb : Char.ofNat 46 ∉ b.data)
    (hc : Char.ofNat 46 ∉ c.data) (hd : Char.ofNat 46 ∉ d.data) (hd0 : d.data ≠ [])
    (sa : stoi a = some (va : Int)) (sb : stoi b = some (vb : Int))
    (sc : stoi c = some (vc : Int)) (sd : stoi d = some (vd : Int))
    (la : va < 256) (lb : vb < 256) (lc : vc < 256) (ld : vd < 256) :
    ipToInt (a ++ "." ++ b ++ "." ++ c ++ "." ++ d) =
      va * 16777216 + vb * 65536 + vc * 256 + vd := by
  unfold ipToInt
  rw [split_four _ _ _ _ ha hb hc hd hd0]
  simp only [List.length_cons, List.length_nil, ne_eq, not_true_eq_false, if_false,
    ipToIntLoop, sa, sb, sc, sd]
  have h1 : ¬ ((va : Int) < 0 ∨ (va : Int) > 255) := by omega
  have h2 : ¬ ((vb : Int) < 0 ∨ (vb : Int) > 255) := by omega
  have h3 : ¬ ((vc : Int) < 0 ∨ (vc : Int) > 255) := by omega
  have h4 : ¬ ((vd : Int) < 0 ∨ (vd : Int) > 255) := by omega
  simp only [h1, h2, h3, h4, if_false, Int.toNat_ofNat]
  simp only [Nat.shiftLeft_eq]
  norm_num
  rw [or_eq_add 24 (va * 16777216) (vb * 65536) (by omega) ⟨va, by omega⟩,
    or_eq_add 16 (va * 16777216 + vb * 65536) (vc * 256) (by omega) ⟨va * 256 + vb, by omega⟩,
    or_eq_add 8 (va * 16777216 + vb * 65536 + vc * 256) vd (by omega)
      ⟨va * 65536 + vb * 256 + vc, by omega⟩]

/-- The text `intToIp` writes for a value given by its four octets. -/
theorem intToIp_octets (a b c d : Nat) (ha : a < 256) (hb : b < 256) (hc : c < 256)
    (hd : d < 256) :
    intToIp (a * 16777216 + b * 65536 + c * 256 + d) =
      to_string a ++ "." ++ to_string b ++ "." ++ to_string c ++ "." ++ to_string d := by
  unfold intToIp
  have e255 : (255 : Nat) = 2 ^ 8 - 1 := by norm_num
  rw [e255]
  simp only [Nat.and_pow_two_sub_one_eq_mod, Nat.shiftRight_eq_div_pow]
  have e1 : (a * 16777216 + b * 65536 + c * 256 + d) / 2 ^ 24 % 2 ^ 8 = a := by omega
  have e2 : (a * 16777216 + b * 65536 + c * 256 + d) / 2 ^ 16 % 2 ^ 8 = b := by omega
  have e3 : (a * 16777216 + b * 65536 + c * 256 + d) / 2 ^ 8 % 2 ^ 8 = c := by omega
  have e4 : (a * 16777216 + b * 65536 + c * 256 + d) % 2 ^ 8 = d := by omega
  rw [e1, e2, e3, e4]

/-- The four octets of a 32-bit value, and the text and tokens `intToIp` makes of
them. -/
theorem intToIp_forma (n : Nat) (hn : n < 4294967296) :
    ∃ a b c d : Nat, a < 256 ∧ b < 256 ∧ c < 256 ∧ d < 256 ∧
      n = a * 16777216 + b * 65536 + c * 256 + d ∧
      intToIp n =
        to_string a ++ "." ++ to_string b ++ "." ++ to_string c ++ "." ++ to_string d ∧
      split (intToIp n) (Char.ofNat 46) =
        [to_string a, to_string b, to_string c, to_string d] := by
  refine ⟨n / 16777216, n / 65536 % 256, n / 256 % 256, n % 256, by omega, by omega, by omega,
    by omega, by omega, ?_, ?_⟩
  · have e : n = n / 16777216 * 16777216 + n / 65536 % 256 * 65536 + n / 256 % 256 * 256 +
        n % 256 := by omega
    conv_lhs => rw [e]
    exact intToIp_octets _ _ _ _ (by omega) (by omega) (by omega) (by omega)
  · have e : n = n / 16777216 * 16777216 + n / 65536 % 256 * 65536 + n / 256 % 256 * 256 +
        n % 256 := by omega
    conv_lhs => rw [e]
    rw [intToIp_octets _ _ _ _ (by omega) (by omega) (by omega) (by omega)]
    obtain ⟨a1, _, _⟩ := to_string_octet (n / 16777216) (by omega)
    obtain ⟨b1, _, _⟩ := to_string_octet (n / 65536 % 256) (by omega)
    obtain ⟨c1, _, _⟩ := to_string_octet (n / 256 % 256) (by omega)
    obtain ⟨d1, d2, _⟩ := to_string_octet (n % 256) (by omega)
    exact split_four _ _ _ _ a1 b1 c1 d1 d2

/-! ## Texts of addresses: claims -/

/-- C12. For every 32-bit value `n`, `ipToInt (intToIp n) = n`, and `intToIp n` is
exactly four decimal octets joined by dots: there are `a b c d` below 256, the octets
of `n`, such that the text is their decimal forms with a dot between each two, and
splitting the text on dots gives back exactly those four tokens. -/
theorem ipToInt_intToIp_octetos (n : Nat) (hn : n < 4294967296) :
    ipToInt (intToIp n) = n ∧
    ∃ a b c d : Nat, a < 256 ∧ b < 256 ∧ c < 256 ∧ d < 256 ∧
      n = a * 16777216 + b * 65536 + c * 256 + d ∧
      intToIp n =
        to_string a ++ "." ++ to_string b ++ "." ++ to_string c ++ "." ++ to_string d ∧
      split (intToIp n) (Char.ofNat 46) =
        [to_string a, to_string b, to_string c, to_string d] :=
  ⟨ipToInt_intToIp n hn, intToIp_forma n hn⟩

theorem ipToInt_intToIp_octetos_witness :
    3232235781 < 4294967296 ∧ ipToInt (intToIp 3232235781) = 3232235781 ∧
    ∃ a b c d : Nat, a < 256 ∧ b < 256 ∧ c < 256 ∧ d < 256 ∧
      3232235781 = a * 16777216 + b * 65536 + c * 256 + d ∧
      intToIp 3232235781 =
        to_string a ++ "." ++ to_string b ++ "." ++ to_string c ++ "." ++ to_string d ∧
      split (intToIp 3232235781) (Char.ofNat 46) =
        [to_string a, to_string b, to_string c, to_string d] :=
  ⟨by decide, ipToInt_intToIp_octetos 3232235781 (by decide)⟩

/-- C13, at the failing inputs: `ipToInt` takes the texts "1.2.3.4abc" and "1.2.3.4."
for the address 1.2.3.4 instead of rejecting them (`stoi` stops reading at the first
character that is not a digit, and `getline` opens no token after a final dot), and
its result for the valid text "0.0.0.0" is the error value it returns for the rejected
texts "1.2.3", "1.2.3.4.5" and "1.2.3.256". -/
theorem ipToInt_acepta_texto_malformado :
    ipToInt "1.2.3.4" = 16909060 ∧
    ipToInt "1.2.3.4abc" = 16909060 ∧
    ipToInt "1.2.3.4." = 16909060 ∧
    split "1.2.3.4." (Char.ofNat 46) = ["1", "2", "3", "4"] ∧
    stoi "4abc" = some 4 ∧
    ipToInt "1.2.3" = 0 ∧ ipToInt "1.2.3.4.5" = 0 ∧ ipToInt "1.2.3.256" = 0 ∧
    ipToInt "0.0.0.0" = 0 := by
  decide

/-- C14. For every valid dotted-decimal text, four decimal octets (one or more digits
each, leading zeros allowed, value at most 255) separated by dots,
`intToIp (ipToInt t)` is the same four octet values written without leading zeros. -/
theorem intToIp_ipToInt_normaliza (a b c d : String) (ha : esOcteto a) (hb : esOcteto b)
    (hc : esOcteto c) (hd : esOcteto d) :
    intToIp (ipToInt (a ++ "." ++ b ++ "." ++ c ++ "." ++ d)) =
      to_string (valorDecimal a.data) ++ "." ++ to_string (valorDecimal b.data) ++ "." ++
        to_string (valorDecimal c.data) ++ "." ++ to_string (valorDecimal d.data) := by
  obtain ⟨a1, a2, a3⟩ := ha
  obtain ⟨b1, b2, b3⟩ := hb
  obtain ⟨c1, c2, c3⟩ := hc
  obtain ⟨d1, d2, d3⟩ := hd
  have hmax : ∀ v : Nat, v ≤ 255 → (v : Int) ≤ INT_MAX := by
    intro v hv; unfold INT_MAX; omega
  rw [ipToInt_tokens a b c d _ _ _ _ (not_mem_dot_of_digitos _ a2)
    (not_mem_dot_of_digitos _ b2) (not_mem_dot_of_digitos _ c2) (not_mem_dot_of_digitos _ d2)
    d1 (stoi_digitos a a1 a2 (hmax _ a3)) (stoi_digitos b b1 b2 (hmax _ b3))
    (stoi_digitos c c1 c2 (hmax _ c3)) (stoi_digitos d d1 d2 (hmax _ d3))
    (by omega) (by omega) (by omega) (by omega)]
  exact intToIp_octets _ _ _ _ (by omega) (by omega) (by omega) (by omega)

theorem intToIp_ipToInt_normaliza_witness :
    esOcteto "010" ∧ esOcteto "001" ∧ esOcteto "0" ∧ esOcteto "0255" ∧
    intToIp (ipToInt ("010" ++ "." ++ "001" ++ "." ++ "0" ++ "." ++ "0255")) =
      to_string (valorDecimal "010".data) ++ "." ++ to_string (valorDecimal "001".data) ++
        "." ++ to_string (valorDecimal "0".data) ++ "." ++
        to_string (valorDecimal "0255".data) ∧
    intToIp (ipToInt "010.001.0.0255") = "10.1.0.255" :=
  ⟨by unfold esOcteto; decide, by unfold esOcteto; decide, by unfold esOcteto; decide,
    by unfold esOcteto; decide,
    intToIp_ipToInt_normaliza "010" "001" "0" "0255" (by unfold esOcteto; decide)
      (by unfold esOcteto; decide) (by unfold esOcteto; decide) (by unfold esOcteto; decide),
    by decide⟩

/-! ## Bits of a mask -/

theorem bit_test_iff (n i : Nat) : ((n >>> i) &&& 1 ≠ 0) ↔ n.testBit i = true := by
  unfold Nat.testBit
  rw [Nat.and_comm]
  simp

theorem bit_char_eq (n i : Nat) :
    (if (n >>> i) &&& 1 ≠ 0 then Char.ofNat 49 else Char.ofNat 48) = bitChar n i := by
  unfold bitChar
  by_cases h : n.testBit i = true
  · rw [if_pos ((bit_test_iff n i).mpr h), if_pos h]
  · rw [if_neg (fun e => h ((bit_test_iff n i).mp e)), if_neg h]

theorem uint32_tToBinaryString_data (n : Nat) :
    (uint32_tToBinaryString n).data =
      grupoBits n 31 ++ Char.ofNat 46 :: (grupoBits n 23 ++ Char.ofNat 46 ::
        (grupoBits n 15 ++ Char.ofNat 46 :: grupoBits n 7)) := by
  unfold uint32_tToBinaryString
  simp only [uint32_tToBinaryStringLoop, bit_char_eq]
  norm_num
  rfl

/-- The scan after a zero bit was seen: the count stands if no bit below is set. -/
theorem maskToCidrLoop_true_of_zeros (m : Nat) : ∀ (k : Nat) (c : Int),
    (∀ j, j < k → m.testBit j = false) → maskToCidrLoop m k c true = c := by
  intro k
  induction k with
  | zero => intro c _; rfl
  | succ i ih =>
    intro c h
    have hi : ¬ ((m >>> i) &&& 1 ≠ 0) := by
      rw [bit_test_iff, h i (by omega)]; simp
    rw [maskToCidrLoop, if_neg hi]
    exact ih c (fun j hj => h j (by omega))

/-- The scan after a zero bit was seen: it fails if some bit below is set. -/
theorem maskToCidrLoop_true_of_one (m : Nat) : ∀ (k : Nat) (c : Int),
    (∃ j, j < k ∧ m.testBit j = true) → maskToCidrLoop m k c true = -1 := by
  intro k
  induction k with
  | zero => intro c ⟨j, hj, _⟩; omega
  | succ i ih =>
    intro c ⟨j, hj, hb⟩
    by_cases hi : (m >>> i) &&& 1 ≠ 0
    · rw [maskToCidrLoop, if_pos hi]
      rfl
    · rw [maskToCidrLoop, if_neg hi]
      apply ih
      refine ⟨j, ?_, hb⟩
      have : j ≠ i := by
        intro e
        rw [e] at hb
        exact hi ((bit_test_iff m i).mpr hb)
      omega

/-- The scan before any zero bit: on `r` set bits followed by clear bits only, it
adds `r` to the count. -/
theorem maskToCidrLoop_false_of_pattern (m : Nat) : ∀ (k : Nat) (c : Int) (r : Nat),
    r ≤ k → (∀ i, i < k → (m.testBit i = true ↔ k - r ≤ i)) →
    maskToCidrLoop m k c false = c + r := by
  intro k
  induction k with
  | zero =>
    intro c r hr _
    have : r = 0 := by omega
    subst this
    simp [maskToCidrLoop]
  | succ i ih =>
    intro c r hr h
    by_cases hr0 : r = 0
    · subst hr0
      have hz : ∀ j, j < i + 1 → m.testBit j = false := by
        intro j hj
        have := h j hj
        cases hb : m.testBit j with
        | false => rfl
        | true => have := this.mp hb; omega
      have hi : ¬ ((m >>> i) &&& 1 ≠ 0) := by
        rw [bit_test_iff, hz i (by omega)]; simp
      rw [maskToCidrLoop, if_neg hi,
        maskToCidrLoop_true_of_zeros m i c (fun j hj => hz j (by omega))]
      simp
    · have hbit : m.testBit i = true := (h i (by omega)).mpr (by omega)
      have hi : (m >>> i) &&& 1 ≠ 0 := (bit_test_iff m i).mpr hbit
      rw [maskToCidrLoop, if_pos hi]
      simp only [Bool.false_eq_true, if_false]
      rw [ih (c + 1) (r - 1) (by omega) (fun j hj => by
        have := h j (by omega)
        rw [this]
        omega)]
      have : ((r - 1 : Nat) : Int) = (r : Int) - 1 := by omega
      rw [this]
      omega

/-- The scan before any zero bit: it fails if a set bit lies below a clear bit. -/
theorem maskToCidrLoop_false_of_bad (m : Nat) : ∀ (k : Nat) (c : Int),
    (∃ i j, j < i ∧ i < k ∧ m.testBit i = false ∧ m.testBit j = true) →
    maskToCidrLoop m k c false = -1 := by
  intro k
  induction k with
  | zero => intro c ⟨i, j, _, hi, _⟩; omega
  | succ n ih =>
    intro c ⟨i, j, hji, hi, h0, h1⟩
    by_cases hn : (m >>> n) &&& 1 ≠ 0
    · rw [maskToCidrLoop, if_pos hn]
      simp only [Bool.false_eq_true, if_false]
      apply ih
      refine ⟨i, j, hji, ?_, h0, h1⟩
      have : i ≠ n := by
        intro e
        rw [e] at h0
        have := (bit_test_iff m n).mp hn
        rw [h0] at this
        exact Bool.false_ne_true this
      omega
    · rw [maskToCidrLoop, if_neg hn]
      exact maskToCidrLoop_true_of_one m n c ⟨j, by omega, h1⟩

/-- Bits with no set bit below a clear one are some set bits followed by clear bits. -/
theorem pattern_of_no_bad (m : Nat) : ∀ k : Nat,
    (¬ ∃ i j, j < i ∧ i < k ∧ m.testBit i = false ∧ m.testBit j = true) →
    ∃ r, r ≤ k ∧ ∀ i, i < k → (m.testBit i = true ↔ k - r ≤ i) := by
  intro k
  induction k with
  | zero => intro _; exact ⟨0, le_refl _, fun i hi => by omega⟩
  | succ n ih =>
    intro h
    have hsub : ¬ ∃ i j, j < i ∧ i < n ∧ m.testBit i = false ∧ m.testBit j = true := by
      intro ⟨i, j, a, b, c, d⟩
      exact h ⟨i, j, a, by omega, c, d⟩
    obtain ⟨r, hr, hp⟩ := ih hsub
    cases hb : m.testBit n with
    | true =>
      refine ⟨r + 1, by omega, ?_⟩
      intro i hi
      by_cases e : i = n
      · subst e
        simp [hb]
      · have := hp i (by omega)
        rw [this]
        omega
    | false =>
      refine ⟨0, by omega, ?_⟩
      intro i hi
      constructor
      · intro h1
        by_cases e : i = n
        · subst e
          rw [hb] at h1
          exact absurd h1 Bool.false_ne_true
        · exact absurd ⟨n, i, by omega, by omega, hb, h1⟩ h
      · intro h2
        omega

set_option maxRecDepth 100000 in
/-- The bits of the value with the top `p` of 32 bits set. -/
theorem testBit_mascara : ∀ p : Nat, p < 33 → ∀ i : Nat, i < 32 →
    (4294967296 - 2 ^ (32 - p)).testBit i = decide (32 - p ≤ i) := by
  decide

/-- A 32-bit value whose set bits are the top `p` ones is `2 ^ 32 - 2 ^ (32 - p)`. -/
theorem eq_mascara_of_pattern (m p : Nat) (hm : m < 4294967296) (hp : p ≤ 32)
    (h : ∀ i, i < 32 → (m.testBit i = true ↔ 32 - p ≤ i)) :
    m = 4294967296 - 2 ^ (32 - p) := by
  apply Nat.eq_of_testBit_eq
  intro i
  by_cases hi : i < 32
  · rw [testBit_mascara p (by omega) i hi]
    have := h i hi
    by_cases hq : 32 - p ≤ i
    · simp [hq, this.mpr hq]
    · simp only [hq, decide_False]
      cases hb : m.testBit i with
      | false => rfl
      | true => exact absurd (this.mp hb) hq
  · have h32 : (4294967296 : Nat) = 2 ^ 32 := by norm_num
    have hle : 2 ^ 32 ≤ 2 ^ i := Nat.pow_le_pow_right (by decide) (by omega)
    have hpos := Nat.two_pow_pos (32 - p)
    rw [Nat.testBit_eq_false_of_lt (by omega), Nat.testBit_eq_false_of_lt (by omega)]

/-- The mask `cidrToMask` writes for a prefix from 0 to 32 is the text of
`2 ^ 32 - 2 ^ (32 - p)`. -/
theorem cidrToMask_eq_intToIp (pl : Plataforma) (p : Nat) (hp : p ≤ 32) :
    cidrToMask pl (p : Int) = intToIp (4294967296 - 2 ^ (32 - p)) := by
  rw [cidrToMask_indep pl plataformaX86 (p : Int) (by omega) (by omega)]
  interval_cases p <;> decide

/-- On the text of a 32-bit value `maskToCidr` runs its bit scan on that value. -/
theorem maskToCidr_texto_eq_loop (m : Nat) (hm : m < 4294967296) :
    maskToCidr (intToIp m) = maskToCidrLoop m 32 0 false := by
  unfold maskToCidr
  simp only [ipToInt_intToIp m hm]
  have hg : ¬ (m = 0 ∧ intToIp m ≠ "0.0.0.0") := by
    intro ⟨h0, h1⟩
    subst h0
    exact h1 (by decide)
  rw [if_neg hg]

/-! ## Masks and binary text: claims -/

/-- C11. For every 32-bit value `m`, on every platform, `maskToCidr` applied to the
dotted-decimal text of `m` returns `-1` exactly when `m` has a set bit at a position
less significant than some clear bit; otherwise it returns the number `p` of leading
set bits, the set bits of `m` are exactly the top `p` ones, `m` is
`2 ^ 32 - 2 ^ (32 - p)`, and `cidrToMask p` is the text of `m`. -/
theorem maskToCidr_intToIp (pl : Plataforma) (m : Nat) (hm : m < 4294967296) :
    (maskToCidr (intToIp m) = -1 ↔
      ∃ i j, j < i ∧ i < 32 ∧ m.testBit i = false ∧ m.testBit j = true) ∧
    (maskToCidr (intToIp m) ≠ -1 →
      ∃ p : Nat, p ≤ 32 ∧ maskToCidr (intToIp m) = (p : Int) ∧
        (∀ i, i < 32 → (m.testBit i = true ↔ 32 - p ≤ i)) ∧
        m = 4294967296 - 2 ^ (32 - p) ∧ cidrToMask pl (p : Int) = intToIp m) := by
  rw [maskToCidr_texto_eq_loop m hm]
  have key : (¬ ∃ i j, j < i ∧ i < 32 ∧ m.testBit i = false ∧ m.testBit j = true) →
      ∃ p : Nat, p ≤ 32 ∧ maskToCidrLoop m 32 0 false = (p : Int) ∧
        (∀ i, i < 32 → (m.testBit i = true ↔ 32 - p ≤ i)) ∧
        m = 4294967296 - 2 ^ (32 - p) ∧ cidrToMask pl (p : Int) = intToIp m := by
    intro hno
    obtain ⟨r, hr, hpat⟩ := pattern_of_no_bad m 32 hno
    have hval := maskToCidrLoop_false_of_pattern m 32 0 r hr hpat
    have hmask := eq_mascara_of_pattern m r hm hr hpat
    refine ⟨r, hr, by rw [hval]; simp, hpat, hmask, ?_⟩
    rw [cidrToMask_eq_intToIp pl r hr, ← hmask]
  constructor
  · constructor
    · intro hneg
      by_contra hno
      obtain ⟨p, _, hv, _⟩ := key hno
      rw [hv] at hneg
      omega
    · intro hbad
      exact maskToCidrLoop_false_of_bad m 32 0 hbad
  · intro hne
    apply key
    intro hbad
    exact hne (maskToCidrLoop_false_of_bad m 32 0 hbad)

theorem maskToCidr_intToIp_witness :
    4294967040 < 4294967296 ∧
    (maskToCidr (intToIp 4294967040) = -1 ↔
      ∃ i j, j < i ∧ i < 32 ∧ (4294967040 : Nat).testBit i = false ∧
        (4294967040 : Nat).testBit j = true) ∧
    (maskToCidr (intToIp 4294967040) ≠ -1 →
      ∃ p : Nat, p ≤ 32 ∧ maskToCidr (intToIp 4294967040) = (p : Int) ∧
        (∀ i, i < 32 → ((4294967040 : Nat).testBit i = true ↔ 32 - p ≤ i)) ∧
        4294967040 = 4294967296 - 2 ^ (32 - p) ∧
        cidrToMask plataformaX86 (p : Int) = intToIp 4294967040) :=
  ⟨by decide, maskToCidr_intToIp plataformaX86 4294967040 (by decide)⟩

/-- C15. For every `n`, `uint32_tToBinaryString n` is a text of 35 characters: four
groups of eight characters `0` or `1` with a dot between each two, the 32 bit
characters being, from left to right, the bits of `n` from bit 31 down to bit 0. -/
theorem uint32_tToBinaryString_forma (n : Nat) :
    (uint32_tToBinaryString n).data =
      [bitChar n 31, bitChar n 30, bitChar n 29, bitChar n 28,
       bitChar n 27, bitChar n 26, bitChar n 25, bitChar n 24, Char.ofNat 46,
       bitChar n 23, bitChar n 22, bitChar n 21, bitChar n 20,
       bitChar n 19, bitChar n 18, bitChar n 17, bitChar n 16, Char.ofNat 46,
       bitChar n 15, bitChar n 14, bitChar n 13, bitChar n 12,
       bitChar n 11, bitChar n 10, bitChar n 9, bitChar n 8, Char.ofNat 46,
       bitChar n 7, bitChar n 6, bitChar n 5, bitChar n 4,
       bitChar n 3, bitChar n 2, bitChar n 1, bitChar n 0] ∧
    (uint32_tToBinaryString n).length = 35 ∧
    (∀ i, bitChar n i = Char.ofNat 49 ∧ n.testBit i = true ∨
      bitChar n i = Char.ofNat 48 ∧ n.testBit i = false) := by
  have hd := uint32_tToBinaryString_data n
  refine ⟨by rw [hd]; rfl, ?_, ?_⟩
  · show (uint32_tToBinaryString n).data.length = 35
    rw [hd]
    rfl
  · intro i
    unfold bitChar
    cases h : n.testBit i <;> simp

/-! ## What `ipToInt` accepts -/

theorem leerOcteto_lt (s : String) (v : Nat) (h : leerOcteto s = some v) : v < 256 := by
  unfold leerOcteto at h
  cases hs : stoi s with
  | none => rw [hs] at h; simp at h
  | some w =>
    rw [hs] at h
    simp only at h
    split_ifs at h with hc
    simp only [Option.some.injEq] at h
    omega

theorem ipToIntLoop_cons (o : String) (os : List String) (i result : Nat) :
    ipToIntLoop (o :: os) i result =
      match leerOcteto o with
      | none => 0
      | some v => ipToIntLoop os (i + 1) (result ||| (v <<< (24 - 8 * i))) := by
  unfold leerOcteto
  rw [ipToIntLoop]
  cases stoi o with
  | none => rfl
  | some w =>
    simp only
    split_ifs <;> rfl

/-- The result of `ipToInt` in full: the text is split on dots; unless there are
exactly four tokens and `stoi` reads each as a value in `[0, 255]` the result is `0`,
and otherwise it is `o1 * 2 ^ 24 + o2 * 2 ^ 16 + o3 * 2 ^ 8 + o4`. -/
theorem ipToInt_eq (t : String) :
    ipToInt t =
      match split t (Char.ofNat 46) with
      | [a, b, c, d] =>
        match leerOcteto a, leerOcteto b, leerOcteto c, leerOcteto d with
        | some va, some vb, some vc, some vd =>
          va * 16777216 + vb * 65536 + vc * 256 + vd
        | _, _, _, _ => 0
      | _ => 0 := by
  unfold ipToInt
  rcases hs : split t (Char.ofNat 46) with _ | ⟨a, _ | ⟨b, _ | ⟨c, _ | ⟨d, _ | ⟨e, r⟩⟩⟩⟩⟩
  · simp
  · simp
  · simp
  · simp
  · simp only [List.length_cons, List.length_nil, ne_eq, not_true_eq_false, if_false,
      ipToIntLoop_cons]
    cases ha : leerOcteto a with
    | none => rfl
    | some va =>
      cases hb : leerOcteto b with
      | none => rfl
      | some vb =>
        cases hc : leerOcteto c with
        | none => rfl
        | some vc =>
          cases hd : leerOcteto d with
          | none => rfl
          | some vd =>
            have la := leerOcteto_lt a va ha
            have lb := leerOcteto_lt b vb hb
            have lc := leerOcteto_lt c vc hc
            have ld := leerOcteto_lt d vd hd
            simp only [ipToIntLoop, Nat.shiftLeft_eq]
            norm_num
            rw [or_eq_add 24 (va * 16777216) (vb * 65536) (by omega) ⟨va, by omega⟩,
              or_eq_add 16 (va * 16777216 + vb * 65536) (vc * 256) (by omega)
                ⟨va * 256 + vb, by omega⟩,
              or_eq_add 8 (va * 16777216 + vb * 65536 + vc * 256) vd (by omega)
                ⟨va * 65536 + vb * 256 + vc, by omega⟩]
  · simp

/-! ## The prefixes `hostsToCidr` can return -/

theorem hostsToCidr_cota (pl : Plataforma) (h : Int) :
    hostsToCidr pl h = -1 ∨ (0 ≤ hostsToCidr pl h ∧ hostsToCidr pl h ≤ 32) := by
  unfold hostsToCidr
  simp only []
  split_ifs <;> omega

/-- Every sized request carries the prefix `hostsToCidr` gives its host count, which is
from 0 to 32. -/
theorem cota_dimensionadas (pl : Plataforma) (reqs : List Int) (x : Int × Int)
    (hx : x ∈ dimensionadas pl reqs) :
    0 ≤ x.1 ∧ x.1 ≤ 32 ∧ x.1 = hostsToCidr pl x.2 ∧ x.2 ∈ reqs := by
  simp only [dimensionadas, List.mem_map, List.mem_filter] at hx
  obtain ⟨h, ⟨hmem, hne⟩, rfl⟩ := hx
  have hne2 : hostsToCidr pl h ≠ -1 := by simpa using hne
  rcases hostsToCidr_cota pl h with hc | hc
  · exact absurd hc hne2
  · exact ⟨hc.1, hc.2, rfl, hmem⟩

/-! ## The base network as numbers -/

theorem mascaraBaseNumerica_eq (pl : Plataforma) (cb : Int) (h1 : 1 ≤ cb) (h2 : cb ≤ 32) :
    mascaraBaseNumerica pl cb = 4294967296 - bloque cb := by
  rw [mascaraBaseNumerica_indep pl plataformaX86 cb h1 h2]
  interval_cases cb <;> decide

/-- The bitwise AND with the mask of the top `32 - k` bits clears the low `k` bits of
a 32-bit value. -/
theorem and_mascara (x k : Nat) (hk : k ≤ 32) :
    x &&& (4294967296 - 2 ^ k) = x % 4294967296 / 2 ^ k * 2 ^ k := by
  apply Nat.eq_of_testBit_eq
  intro i
  have h32 : (4294967296 : Nat) = 2 ^ 32 := by norm_num
  rw [Nat.testBit_and, Nat.mul_comm, Nat.testBit_mul_pow_two, ← Nat.shiftRight_eq_div_pow,
    Nat.testBit_shiftRight]
  by_cases hi : i < 32
  · have hm := testBit_mascara (32 - k) (by omega) i hi
    rw [show 32 - (32 - k) = k by omega] at hm
    rw [hm]
    by_cases hki : k ≤ i
    · rw [show k + (i - k) = i by omega, h32, Nat.testBit_mod_two_pow]
      simp [hki, hi]
    · simp [hki]
  · have hle : 2 ^ 32 ≤ 2 ^ i := Nat.pow_le_pow_right (by decide) (by omega)
    have hpos := Nat.two_pow_pos k
    rw [Nat.testBit_eq_false_of_lt (show 4294967296 - 2 ^ k < 2 ^ i by omega)]
    by_cases hki : k ≤ i
    · rw [show k + (i - k) = i by omega, h32, Nat.testBit_mod_two_pow]
      simp [hi]
    · simp [hki]

/-- The base network a run derives for a prefix from 1 to 32: the network address is
a multiple of the block size of the prefix, the broadcast address is the last address
of that block, the block ends within the 32-bit range, and the address count is the
block size. -/
theorem base_bloque (pl : Plataforma) (ip : String) (cb : Int) (h1 : 1 ≤ cb) (h2 : cb ≤ 32) :
    bloque cb ∣ originalNetworkAddress pl ip cb ∧
    originalBroadcastAddress pl ip cb = originalNetworkAddress pl ip cb + bloque cb - 1 ∧
    originalNetworkAddress pl ip cb + bloque cb ≤ 4294967296 ∧
    totalOriginalIps pl ip cb = bloque cb := by
  have hpos := bloque_pos cb
  have hble : bloque cb ≤ 2147483648 := (pow2u32_eq_bloque pl cb h1 h2).2
  have hnet : originalNetworkAddress pl ip cb =
      ipToInt ip % 4294967296 / bloque cb * bloque cb := by
    unfold originalNetworkAddress
    rw [mascaraBaseNumerica_eq pl cb h1 h2]
    unfold bloque
    exact and_mascara _ _ (by omega)
  have hdvd : bloque cb ∣ originalNetworkAddress pl ip cb := by
    rw [hnet]; exact Dvd.intro_left _ rfl
  have hdvd32 : bloque cb ∣ 4294967296 := by
    unfold bloque
    rw [show (4294967296 : Nat) = 2 ^ 32 by norm_num]
    exact Nat.pow_dvd_pow 2 (by omega)
  have hlt : originalNetworkAddress pl ip cb < 4294967296 := by
    rw [hnet]
    exact lt_of_le_of_lt (Nat.div_mul_le_self _ _) (Nat.mod_lt _ (by decide))
  have htop : originalNetworkAddress pl ip cb + bloque cb ≤ 4294967296 := by
    obtain ⟨q, hq⟩ := hdvd
    obtain ⟨r, hr⟩ := hdvd32
    rw [hq, hr] at hlt ⊢
    have hqr : q < r := by
      by_contra hc
      have : bloque cb * r ≤ bloque cb * q := Nat.mul_le_mul_left _ (by omega)
      omega
    calc bloque cb * q + bloque cb = bloque cb * (q + 1) := by ring
      _ ≤ bloque cb * r := Nat.mul_le_mul_left _ (by omega)
  have hb : originalBroadcastAddress pl ip cb =
      originalNetworkAddress pl ip cb + bloque cb - 1 := by
    unfold originalBroadcastAddress
    rw [mascaraBaseNumerica_eq pl cb h1 h2]
    have hn : not32 (4294967296 - bloque cb) = bloque cb - 1 := by
      unfold not32; omega
    rw [hn]
    have hd2 : 2 ^ (32 - cb).toNat ∣ originalNetworkAddress pl ip cb := hdvd
    rw [or_eq_add (32 - cb).toNat _ (bloque cb - 1) (by unfold bloque; omega) hd2]
    omega
  refine ⟨hdvd, hb, htop, ?_⟩
  unfold totalOriginalIps add32 sub32
  rw [hb]
  omega

/-! ## Reading the rows of a run -/

theorem filas_append (a b : List Salida) : filas (a ++ b) = filas a ++ filas b := by
  induction a with
  | nil => rfl
  | cons x xs ih => cases x <;> simp [filas, ih]

theorem resultados_append (a b : List Salida) :
    resultados (a ++ b) = resultados a ++ resultados b := by
  induction a with
  | nil => rfl
  | cons x xs ih => cases x <;> simp [resultados, ih]

theorem filas_advertencias (l : List Int) : filas (l.map Salida.advertenciaHosts) = [] := by
  induction l with
  | nil => rfl
  | cons x xs ih => simp [filas, ih]

theorem resultados_advertencias (l : List Int) :
    resultados (l.map Salida.advertenciaHosts) = l := by
  induction l with
  | nil => rfl
  | cons x xs ih => simp [resultados, ih]

theorem filas_resumen (pl : Plataforma) (ip : String) (cb : Int) (csv : Bool) :
    filas (resumen pl ip cb csv) = [] := by
  cases csv <;> simp [resumen, filas]

theorem resultados_resumen (pl : Plataforma) (ip : String) (cb : Int) (csv : Bool) :
    resultados (resumen pl ip cb csv) = [] := by
  cases csv <;> simp [resumen, resultados]

theorem filas_trailer (b : Nat) (csv : Bool) (c : Nat) : filas (trailer b csv c) = [] := by
  unfold trailer
  split_ifs <;> simp [filas]

theorem resultados_trailer (b : Nat) (csv : Bool) (c : Nat) :
    resultados (trailer b csv c) = [] := by
  unfold trailer
  split_ifs <;> simp [resultados]

/-- The records of the subnets allocated are among the rows, in the same order. -/
theorem subredes_sublist_filas (l : List Salida) : (subredes l).Sublist (filas l) := by
  induction l with
  | nil => exact List.Sublist.slnil
  | cons x xs ih =>
    cases x with
    | fila s c => exact ih.cons₂ s
    | filaSinEspacio s c => exact ih.cons s
    | filaInvalida s c => exact ih.cons s
    | errorRedInvalida a b c => exact ih
    | redOriginal a b c d => exact ih
    | advertenciaHosts a => exact ih
    | errorCapacidad a b => exact ih
    | encabezado => exact ih
    | notaInvalida a b => exact ih
    | notaNoCabe a b c => exact ih
    | remanente a b c => exact ih
    | redAgotada => exact ih

/-- Every iteration of the packing loop writes one row, which carries the prefix and
the host count of the request. -/
theorem filas_asignar (pl : Plataforma) (b : Nat) (csv : Bool) (st : Estado)
    (x : Int × Int) : (filas (asignar pl b csv st x).2).map solicitud = [x] := by
  unfold asignar
  by_cases h1 : x.1 > 32 ∨ x.1 < 0
  · simp only [h1, if_true]
    cases csv <;> rfl
  · simp only [h1, if_false]
    by_cases h2 : sub32 (add32 st.currentAllocationIp (pow2u32 pl (32 - x.1))) 1 > b ∨
        st.currentAllocationIp > b
    · simp only [h2, if_true]
      cases csv <;> rfl
    · simp only [h2, if_false]
      rfl

theorem resultados_asignar (pl : Plataforma) (b : Nat) (csv : Bool) (st : Estado)
    (x : Int × Int) : resultados (asignar pl b csv st x).2 = [x.2] := by
  unfold asignar
  by_cases h1 : x.1 > 32 ∨ x.1 < 0
  · simp only [h1, if_true]
    cases csv <;> rfl
  · simp only [h1, if_false]
    by_cases h2 : sub32 (add32 st.currentAllocationIp (pow2u32 pl (32 - x.1))) 1 > b ∨
        st.currentAllocationIp > b
    · simp only [h2, if_true]
      cases csv <;> rfl
    · simp only [h2, if_false]
      rfl

/-- An iteration for a prefix from 0 to 32 writes no "INVALIDO" row. -/
theorem asignar_sin_invalida (pl : Plataforma) (b : Nat) (csv : Bool) (st : Estado)
    (x : Int × Int) (h0 : 0 ≤ x.1) (h32 : x.1 ≤ 32) :
    ∀ o ∈ (asignar pl b csv st x).2, ∀ s c, o ≠ Salida.filaInvalida s c := by
  unfold asignar
  have h1 : ¬ (x.1 > 32 ∨ x.1 < 0) := by omega
  simp only [h1, if_false]
  by_cases h2 : sub32 (add32 st.currentAllocationIp (pow2u32 pl (32 - x.1))) 1 > b ∨
      st.currentAllocationIp > b
  · simp only [h2, if_true]
    intro o ho s c he
    subst he
    cases csv <;> simp at ho
  · simp only [h2, if_false]
    intro o ho s c he
    subst he
    simp at ho

/-- The rows of the packing loop are, one for one and in order, the requests it is
given. -/
theorem filas_empaquetar (pl : Plataforma) (b : Nat) (csv : Bool) (l : List (Int × Int)) :
    ∀ st : Estado, (filas (empaquetar pl b csv l st).2).map solicitud = l := by
  induction l with
  | nil => intro st; rfl
  | cons x xs ih =>
    intro st
    simp only [empaquetar, filas_append, List.map_append, filas_asignar, ih,
      List.singleton_append]

theorem resultados_empaquetar (pl : Plataforma) (b : Nat) (csv : Bool)
    (l : List (Int × Int)) :
    ∀ st : Estado, resultados (empaquetar pl b csv l st).2 = l.map Prod.snd := by
  induction l with
  | nil => intro st; rfl
  | cons x xs ih =>
    intro st
    simp only [empaquetar, resultados_append, resultados_asignar, ih, List.map_cons,
      List.singleton_append]

theorem empaquetar_sin_invalida (pl : Plataforma) (b : Nat) (csv : Bool)
    (l : List (Int × Int)) : ∀ st : Estado, (∀ x ∈ l, 0 ≤ x.1 ∧ x.1 ≤ 32) →
    ∀ o ∈ (empaquetar pl b csv l st).2, ∀ s c, o ≠ Salida.filaInvalida s c := by
  induction l with
  | nil => intro st _ o ho; simp [empaquetar] at ho
  | cons x xs ih =>
    intro st hl o ho
    simp only [empaquetar, List.mem_append] at ho
    rcases ho with ho | ho
    · exact asignar_sin_invalida pl b csv st x (hl x (List.mem_cons_self _ _)).1
        (hl x (List.mem_cons_self _ _)).2 o ho
    · exact ih _ (fun z hz => hl z (List.mem_cons_of_mem _ hz)) o ho

/-- The rows of a run that is not stopped are the sized requests in the order
`std::sort` gives them. -/
theorem filas_calcularSubredes (pl : Plataforma) (ip : String) (cb : Int) (reqs : List Int)
    (csv : Bool) (ha : abortada (calcularSubredes pl ip cb reqs csv) = false) :
    (filas (calcularSubredes pl ip cb reqs csv)).map solicitud =
      pl.stdSort (dimensionadas pl reqs) := by
  have hn : ¬ abortada (calcularSubredes pl ip cb reqs csv) = true := by simp [ha]
  rw [abortada_calcularSubredes] at hn
  push_neg at hn
  rw [calcularSubredes_asignada pl ip cb reqs csv hn.1 (by omega)]
  simp only [filas_append, filas_resumen, filas_advertencias, filas_trailer, filas,
    List.nil_append, List.append_nil, filas_empaquetar]

/-- A run that is stopped writes no row. -/
theorem filas_calcularSubredes_abortada (pl : Plataforma) (ip : String) (cb : Int)
    (reqs : List Int) (csv : Bool)
    (ha : abortada (calcularSubredes pl ip cb reqs csv) = true) :
    filas (calcularSubredes pl ip cb reqs csv) = [] := by
  by_cases hv : originalNetworkAddress pl ip cb = ipToInt ip
  · rcases (abortada_calcularSubredes pl ip cb reqs csv).mp ha with h | h
    · exact absurd hv h
    · rw [calcularSubredes_capacidad pl ip cb reqs csv hv h]
      simp only [filas_append, filas_resumen, filas_advertencias, filas, List.nil_append]
  · rw [calcularSubredes_invalida pl ip cb reqs csv hv]
    rfl

/-- The outcomes of a run that is not stopped: the warnings for the rejected counts,
in input order, then the rows. -/
theorem resultados_calcularSubredes (pl : Plataforma) (ip : String) (cb : Int)
    (reqs : List Int) (csv : Bool)
    (ha : abortada (calcularSubredes pl ip cb reqs csv) = false) :
    resultados (calcularSubredes pl ip cb reqs csv) =
      rechazadas pl reqs ++ (pl.stdSort (dimensionadas pl reqs)).map Prod.snd := by
  have hn : ¬ abortada (calcularSubredes pl ip cb reqs csv) = true := by simp [ha]
  rw [abortada_calcularSubredes] at hn
  push_neg at hn
  rw [calcularSubredes_asignada pl ip cb reqs csv hn.1 (by omega)]
  simp only [resultados_append, resultados_resumen, resultados_advertencias,
    resultados_trailer, resultados, List.nil_append, List.append_nil, resultados_empaquetar]

/-- The requests rejected and the requests sized are, together, the requests. -/
theorem rechazadas_dimensionadas_perm (pl : Plataforma) (reqs : List Int) :
    (rechazadas pl reqs ++ (dimensionadas pl reqs).map Prod.snd).Perm reqs := by
  unfold rechazadas dimensionadas
  rw [List.map_map]
  have hid : (Prod.snd ∘ fun h => (hostsToCidr pl h, h)) = id := by
    funext h; rfl
  rw [hid, List.map_id]
  have := List.filter_append_perm (fun h => decide (hostsToCidr pl h = -1)) reqs
  have he : (fun x => !decide (hostsToCidr pl x = -1)) =
      (fun h => decide (hostsToCidr pl h ≠ -1)) := by
    funext h; simp
  rw [he] at this
  exact this

/-! ## One step of the packing loop, field by field -/

theorem hostsToCidr_nonneg (pl : Plataforma) (h : Int) (h0 : 0 ≤ h) :
    0 ≤ hostsToCidr pl h ∧ hostsToCidr pl h ≤ 32 := by
  rcases hostsToCidr_cota pl h with hc | hc
  · unfold hostsToCidr at hc
    simp only [] at hc
    split_ifs at hc <;> omega
  · exact hc

/-- Of two blocks, the one that is not larger has the prefix that is not shorter, and
its size divides the size of the other. -/
theorem bloque_le_iff (p q : Int) (hp : p ≤ 32) (hq : q ≤ 32) (h : bloque p ≤ bloque q) :
    q ≤ p ∧ bloque p ∣ bloque q := by
  unfold bloque at h ⊢
  have hle : (32 - p).toNat ≤ (32 - q).toNat :=
    (Nat.pow_le_pow_iff_right (by decide)).mp h
  exact ⟨by omega, Nat.pow_dvd_pow 2 hle⟩

/-- A request placed, field by field. For a prefix `p` from 1 to 32 with block size
`s = 2 ^ (32 - p)`, at a cursor `c` from which the block does not pass the end of the
32-bit range, when the "SIN ESPACIO" test does not fire: the step writes one row, with
network address `c`, prefix `p`, mask `cidrToMask p`, broadcast `c + s - 1`, usable
hosts `s - 2` when `s > 2` and `0` otherwise, and host range `c + 1` to `c + s - 2`
when there are usable hosts and "N/A" otherwise. The cursor after the step is `c + s`
modulo `2 ^ 32`: it is `c + s` when the block ends below 255.255.255.255, and `0` when
the block ends there. -/
theorem asignar_campos (pl : Plataforma) (b : Nat) (csv : Bool) (st : Estado)
    (x : Int × Int) (h1 : 1 ≤ x.1) (h2 : x.1 ≤ 32)
    (htop : st.currentAllocationIp + bloque x.1 ≤ 4294967296)
    (hfit : sinEspacio pl b st x = false) :
    (asignar pl b csv st x).2 = [Salida.fila (registro pl st x) (st.subnetCounter + 1)] ∧
    (registro pl st x).direccionRed = intToIp st.currentAllocationIp ∧
    (registro pl st x).cidr = x.1 ∧
    (registro pl st x).mascaraDecimal = cidrToMask pl x.1 ∧
    (registro pl st x).broadcast = intToIp (st.currentAllocationIp + bloque x.1 - 1) ∧
    (registro pl st x).hostsUtilizables =
      (if bloque x.1 > 2 then ((bloque x.1 - 2 : Nat) : Int) else 0) ∧
    (registro pl st x).hostRangeStart =
      (if (registro pl st x).hostsUtilizables > 0
        then intToIp (st.currentAllocationIp + 1) else "N/A") ∧
    (registro pl st x).hostRangeEnd =
      (if (registro pl st x).hostsUtilizables > 0
        then intToIp (st.currentAllocationIp + bloque x.1 - 2) else "N/A") ∧
    (registro pl st x).requestedHosts = x.2 ∧
    (asignar pl b csv st x).1.currentAllocationIp =
      (st.currentAllocationIp + bloque x.1) % 4294967296 ∧
    (st.currentAllocationIp + bloque x.1 < 4294967296 →
      (asignar pl b csv st x).1.currentAllocationIp = st.currentAllocationIp + bloque x.1) ∧
    (st.currentAllocationIp + bloque x.1 = 4294967296 →
      (asignar pl b csv st x).1.currentAllocationIp = 0) := by
  obtain ⟨hp, hle⟩ := pow2u32_eq_bloque pl x.1 h1 h2
  have hpos := bloque_pos x.1
  have hbr : sub32 (add32 st.currentAllocationIp (bloque x.1)) 1 =
      st.currentAllocationIp + bloque x.1 - 1 := by
    unfold sub32 add32
    omega
  have hu : toInt32 (if bloque x.1 > 2 then sub32 (bloque x.1) 2 else 0) =
      (if bloque x.1 > 2 then ((bloque x.1 - 2 : Nat) : Int) else 0) := by
    by_cases hb2 : bloque x.1 > 2
    · rw [if_pos hb2, if_pos hb2]
      have : sub32 (bloque x.1) 2 = bloque x.1 - 2 := by unfold sub32; omega
      rw [this]
      unfold toInt32
      rw [if_pos (by omega), Nat.mod_eq_of_lt (by omega)]
    · rw [if_neg hb2, if_neg hb2]
      rfl
  have hst : (asignar pl b csv st x).2 =
        [Salida.fila (registro pl st x) (st.subnetCounter + 1)] ∧
      (asignar pl b csv st x).1.currentAllocationIp =
        (st.currentAllocationIp + bloque x.1) % 4294967296 := by
    unfold asignar
    have c1 : ¬ (x.1 > 32 ∨ x.1 < 0) := by omega
    have c2 : ¬ (sub32 (add32 st.currentAllocationIp (pow2u32 pl (32 - x.1))) 1 > b ∨
        st.currentAllocationIp > b) := by
      unfold sinEspacio at hfit
      simpa using hfit
    simp only [c1, if_false, c2]
    refine ⟨rfl, ?_⟩
    show add32 st.currentAllocationIp (pow2u32 pl (32 - x.1)) = _
    rw [hp]
    rfl
  refine ⟨hst.1, rfl, rfl, rfl, ?_, ?_, ?_, ?_, rfl, hst.2, ?_, ?_⟩
  · show intToIp (sub32 (add32 st.currentAllocationIp (pow2u32 pl (32 - x.1))) 1) = _
    rw [hp, hbr]
  · show toInt32 (if pow2u32 pl (32 - x.1) > 2 then sub32 (pow2u32 pl (32 - x.1)) 2 else 0)
      = _
    rw [hp, hu]
  · show (if toInt32 (if pow2u32 pl (32 - x.1) > 2 then sub32 (pow2u32 pl (32 - x.1)) 2
        else 0) > 0 then intToIp (add32 st.currentAllocationIp 1) else "N/A") =
      (if toInt32 (if pow2u32 pl (32 - x.1) > 2 then sub32 (pow2u32 pl (32 - x.1)) 2
        else 0) > 0 then intToIp (st.currentAllocationIp + 1) else "N/A")
    rw [hp, hu]
    by_cases hb2 : bloque x.1 > 2
    · have : add32 st.currentAllocationIp 1 = st.currentAllocationIp + 1 := by
        unfold add32; omega
      rw [this]
    · rw [if_neg hb2, if_neg (by decide), if_neg (by decide)]
  · show (if toInt32 (if pow2u32 pl (32 - x.1) > 2 then sub32 (pow2u32 pl (32 - x.1)) 2
        else 0) > 0 then intToIp
          (sub32 (sub32 (add32 st.currentAllocationIp (pow2u32 pl (32 - x.1))) 1) 1)
        else "N/A") =
      (if toInt32 (if pow2u32 pl (32 - x.1) > 2 then sub32 (pow2u32 pl (32 - x.1)) 2
        else 0) > 0 then intToIp (st.currentAllocationIp + bloque x.1 - 2) else "N/A")
    rw [hp, hu, hbr]
    by_cases hb2 : bloque x.1 > 2
    · have : sub32 (st.currentAllocationIp + bloque x.1 - 1) 1 =
          st.currentAllocationIp + bloque x.1 - 2 := by
        unfold sub32; omega
      rw [this]
    · rw [if_neg hb2, if_neg (by decide), if_neg (by decide)]
  · intro hlt
    rw [hst.2, Nat.mod_eq_of_lt hlt]
  · intro heq
    rw [hst.2, heq]

/-! ## A run in which every block fits -/

/-- Output with no failure of a single request: every row is a subnet record. -/
theorem filas_eq_subredes_of_fallos (l : List Salida) (h : fallos l = []) :
    filas l = subredes l := by
  induction l with
  | nil => rfl
  | cons x xs ih =>
    cases x with
    | fila s c => simp only [filas, subredes]; rw [ih h]
    | filaSinEspacio s c => simp [fallos] at h
    | filaInvalida s c => simp [fallos] at h
    | advertenciaHosts a => simp [fallos] at h
    | errorRedInvalida a b c => exact ih h
    | redOriginal a b c d => exact ih h
    | errorCapacidad a b => exact ih h
    | encabezado => exact ih h
    | notaInvalida a b => exact ih h
    | notaNoCabe a b c => exact ih h
    | remanente a b c => exact ih h
    | redAgotada => exact ih h

/-- Requests that are not negative are all sized. -/
theorem dimensionadas_of_nonneg (pl : Plataforma) (reqs : List Int)
    (hreq : ∀ h ∈ reqs, 0 ≤ h) :
    dimensionadas pl reqs = reqs.map (fun h => (hostsToCidr pl h, h)) ∧
    rechazadas pl reqs = [] := by
  have hne : ∀ h ∈ reqs, hostsToCidr pl h ≠ -1 := by
    intro h hm
    have := hostsToCidr_nonneg pl h (hreq h hm)
    omega
  constructor
  · unfold dimensionadas
    rw [List.filter_eq_self.mpr]
    intro h hm
    simpa using hne h hm
  · unfold rechazadas
    rw [List.filter_eq_nil_iff]
    intro h hm
    simpa using hne h hm

/-- The total the capacity check uses is the true sum of the block sizes when the
prefixes of the sized requests are from 1 to 32 and that sum is below `2 ^ 32`. -/
theorem dimensionar_total_of_cota (pl : Plataforma) (reqs : List Int)
    (hr : ∀ x ∈ dimensionadas pl reqs, 1 ≤ x.1 ∧ x.1 ≤ 32)
    (hsum : ((dimensionadas pl reqs).map (fun x => bloque x.1)).sum < 4294967296) :
    (dimensionar pl reqs [] 0 []).2.1 =
      ((dimensionadas pl reqs).map (fun x => bloque x.1)).sum := by
  rw [dimensionar_total pl reqs [] 0 [] (by decide), Nat.zero_add]
  have hmap : (dimensionadas pl reqs).map (fun x => pow2u32 pl (32 - x.1)) =
      (dimensionadas pl reqs).map (fun x => bloque x.1) := by
    apply List.map_congr_left
    intro x hx
    exact (pow2u32_eq_bloque pl x.1 (hr x hx).1 (hr x hx).2).1
  rw [hmap]
  exact Nat.mod_eq_of_lt hsum

/-- A run on a base network with a prefix from 1 to 32 in which the prefixes of the
sized requests are from 1 to 32 and their block sizes add up, as numbers, to no more
than the block size of the base prefix: the run is not stopped, every sized request
gets a subnet record, no "SIN ESPACIO" or "INVALIDO" row is written, the records are
the sized requests in the order `std::sort` gives them, laid one after another from the
base network address, and the cursor ends at the base address plus the sum of the block
sizes, modulo `2 ^ 32`. -/
theorem calcularSubredes_cabe (pl : Plataforma) (hpl : SortCorrecto pl) (ip : String)
    (cb : Int) (reqs : List Int) (csv : Bool) (h1 : 1 ≤ cb) (h2 : cb ≤ 32)
    (hv : originalNetworkAddress pl ip cb = ipToInt ip)
    (hr : ∀ x ∈ dimensionadas pl reqs, 1 ≤ x.1 ∧ x.1 ≤ 32)
    (hsum : ((dimensionadas pl reqs).map (fun x => bloque x.1)).sum ≤ bloque cb) :
    abortada (calcularSubredes pl ip cb reqs csv) = false ∧
    fallos (calcularSubredes pl ip cb reqs csv) = rechazadas pl reqs ∧
    filas (calcularSubredes pl ip cb reqs csv) = subredes (calcularSubredes pl ip cb reqs csv) ∧
    (subredes (calcularSubredes pl ip cb reqs csv)).map solicitud =
      pl.stdSort (dimensionadas pl reqs) ∧
    (subredes (calcularSubredes pl ip cb reqs csv)).map rango =
      rangosDesde (ipToInt ip) (pl.stdSort (dimensionadas pl reqs)) ∧
    cursorFinal pl ip cb reqs =
      (ipToInt ip + ((dimensionadas pl reqs).map (fun x => bloque x.1)).sum)
        % 4294967296 := by
  obtain ⟨_, hbc, htop, htot⟩ := base_bloque pl ip cb h1 h2
  obtain ⟨hle, hb, _⟩ := base_order pl ip cb
  have hcb : bloque cb ≤ 2147483648 := (pow2u32_eq_bloque pl cb h1 h2).2
  have hpos := bloque_pos cb
  have ht := dimensionar_total_of_cota pl reqs hr (by omega)
  have hc : ¬ (dimensionar pl reqs [] 0 []).2.1 > totalOriginalIps pl ip cb := by
    rw [ht, htot]; omega
  have hperm := (hpl (dimensionadas pl reqs)).1
  have hsumeq : ((pl.stdSort (dimensionadas pl reqs)).map (fun x => bloque x.1)).sum =
      ((dimensionadas pl reqs).map (fun x => bloque x.1)).sum :=
    (hperm.map _).sum_eq
  have hrange : ∀ x ∈ pl.stdSort (dimensionadas pl reqs), 1 ≤ x.1 ∧ x.1 ≤ 32 :=
    fun x hx => hr x (hperm.mem_iff.mp hx)
  have hfit : originalNetworkAddress pl ip cb +
      ((pl.stdSort (dimensionadas pl reqs)).map (fun x => bloque x.1)).sum ≤
      originalBroadcastAddress pl ip cb + 1 := by
    rw [hsumeq]
    omega
  have hemp : ∀ c : Bool,
      (subredes (empaquetar pl (originalBroadcastAddress pl ip cb) c
        (pl.stdSort (dimensionadas pl reqs))
        { currentAllocationIp := originalNetworkAddress pl ip cb,
          subnetCounter := 0 }).2).map rango =
        rangosDesde (originalNetworkAddress pl ip cb) (pl.stdSort (dimensionadas pl reqs)) ∧
      fallos (empaquetar pl (originalBroadcastAddress pl ip cb) c
        (pl.stdSort (dimensionadas pl reqs))
        { currentAllocationIp := originalNetworkAddress pl ip cb,
          subnetCounter := 0 }).2 = [] ∧
      (empaquetar pl (originalBroadcastAddress pl ip cb) c
        (pl.stdSort (dimensionadas pl reqs))
        { currentAllocationIp := originalNetworkAddress pl ip cb,
          subnetCounter := 0 }).1.currentAllocationIp =
        (originalNetworkAddress pl ip cb +
          ((pl.stdSort (dimensionadas pl reqs)).map (fun x => bloque x.1)).sum)
          % 4294967296 :=
    fun c => empaquetar_coloca pl (originalBroadcastAddress pl ip cb) c hb
      (pl.stdSort (dimensionadas pl reqs))
      { currentAllocationIp := originalNetworkAddress pl ip cb, subnetCounter := 0 }
      hrange (lt_of_le_of_lt hle hb) hfit
  obtain ⟨e1, e2, _⟩ := hemp csv
  have ha : abortada (calcularSubredes pl ip cb reqs csv) = false := by
    have := abortada_calcularSubredes pl ip cb reqs csv
    cases hab : abortada (calcularSubredes pl ip cb reqs csv) with
    | false => rfl
    | true =>
      rcases this.mp hab with h | h
      · exact absurd hv h
      · exact absurd h hc
  have hfs : filas (calcularSubredes pl ip cb reqs csv) =
      subredes (calcularSubredes pl ip cb reqs csv) := by
    rw [calcularSubredes_asignada pl ip cb reqs csv hv hc]
    simp only [filas_append, filas_resumen, filas_advertencias, filas_trailer, filas,
      subredes_append, subredes_resumen, subredes_advertencias, subredes_trailer, subredes,
      List.nil_append, List.append_nil]
    exact filas_eq_subredes_of_fallos _ e2
  refine ⟨ha, ?_, hfs, ?_, ?_, ?_⟩
  · rw [calcularSubredes_asignada pl ip cb reqs csv hv hc]
    simp only [fallos_append, fallos_resumen, fallos_advertencias, fallos_trailer, fallos,
      List.nil_append, List.append_nil, e2]
  · rw [← hfs]
    exact filas_calcularSubredes pl ip cb reqs csv ha
  · rw [calcularSubredes_asignada pl ip cb reqs csv hv hc]
    simp only [subredes_append, subredes_resumen, subredes_advertencias, subredes_trailer,
      subredes, List.nil_append, List.append_nil]
    rw [e1, hv]
  · unfold cursorFinal
    rw [dimensionar_info, List.nil_append, (hemp false).2.2, hsumeq, hv]

/-- The end of a console run that is not stopped is the trailer for the final cursor. -/
theorem calcularSubredes_trailer (pl : Plataforma) (ip : String) (cb : Int)
    (reqs : List Int)
    (ha : abortada (calcularSubredes pl ip cb reqs false) = false) :
    ∃ antes : List Salida, calcularSubredes pl ip cb reqs false =
      antes ++ trailer (originalBroadcastAddress pl ip cb) false
        (cursorFinal pl ip cb reqs) := by
  have hn : ¬ abortada (calcularSubredes pl ip cb reqs false) = true := by simp [ha]
  rw [abortada_calcularSubredes] at hn
  push_neg at hn
  rw [calcularSubredes_asignada pl ip cb reqs false hn.1 (by omega)]
  have hcur : cursorFinal pl ip cb reqs =
      (empaquetar pl (originalBroadcastAddress pl ip cb) false
        (pl.stdSort (dimensionadas pl reqs))
        { currentAllocationIp := originalNetworkAddress pl ip cb,
          subnetCounter := 0 }).1.currentAllocationIp := by
    unfold cursorFinal
    rw [dimensionar_info, List.nil_append]
  rw [hcur]
  exact ⟨_, rfl⟩

/-- Every request placed. For a base network with a prefix from 1 to 32 and no host
bit set, and requests that are not negative and whose block sizes
`2 ^ (32 - hostsToCidr h)` add up, as numbers, to no more than `2 ^ (32 - cidrBase)`:
the run is not stopped, no request is reported as failed, every row is a subnet
record, the records are the requests with their prefixes in the order `std::sort`
gives them, and the cursor ends at the base address plus the sum of the block sizes
modulo `2 ^ 32`: at that sum when it is below `2 ^ 32`, and at `0` otherwise. -/
theorem calcularSubredes_coloca_todas (pl : Plataforma) (hpl : SortCorrecto pl)
    (ip : String) (cb : Int) (reqs : List Int) (csv : Bool) (h1 : 1 ≤ cb) (h2 : cb ≤ 32)
    (hv : originalNetworkAddress pl ip cb = ipToInt ip)
    (hreq : ∀ h ∈ reqs, 0 ≤ h)
    (hsum : (reqs.map (fun h => bloque (hostsToCidr pl h))).sum ≤ bloque cb) :
    abortada (calcularSubredes pl ip cb reqs csv) = false ∧
    fallos (calcularSubredes pl ip cb reqs csv) = [] ∧
    filas (calcularSubredes pl ip cb reqs csv) = subredes (calcularSubredes pl ip cb reqs csv) ∧
    (subredes (calcularSubredes pl ip cb reqs csv)).map solicitud =
      pl.stdSort (reqs.map (fun h => (hostsToCidr pl h, h))) ∧
    ((subredes (calcularSubredes pl ip cb reqs csv)).map (fun s => s.requestedHosts)).Perm
      reqs ∧
    cursorFinal pl ip cb reqs =
      (ipToInt ip + (reqs.map (fun h => bloque (hostsToCidr pl h))).sum) % 4294967296 ∧
    (ipToInt ip + (reqs.map (fun h => bloque (hostsToCidr pl h))).sum < 4294967296 →
      cursorFinal pl ip cb reqs =
        ipToInt ip + (reqs.map (fun h => bloque (hostsToCidr pl h))).sum) ∧
    (ipToInt ip + (reqs.map (fun h => bloque (hostsToCidr pl h))).sum = 4294967296 →
      cursorFinal pl ip cb reqs = 0) := by
  obtain ⟨hd, hrej⟩ := dimensionadas_of_nonneg pl reqs hreq
  have hcb : bloque cb ≤ 2147483648 := (pow2u32_eq_bloque pl cb h1 h2).2
  have hs2 : ((dimensionadas pl reqs).map (fun x => bloque x.1)).sum =
      (reqs.map (fun h => bloque (hostsToCidr pl h))).sum := by
    rw [hd, List.map_map]
    rfl
  have hr : ∀ x ∈ dimensionadas pl reqs, 1 ≤ x.1 ∧ x.1 ≤ 32 := by
    intro x hx
    obtain ⟨a, b, _, _⟩ := cota_dimensionadas pl reqs x hx
    have hmem : bloque x.1 ∈ (dimensionadas pl reqs).map (fun x => bloque x.1) :=
      List.mem_map_of_mem _ hx
    have hle : bloque x.1 ≤ bloque cb :=
      le_trans (List.le_sum_of_mem hmem) (by rw [hs2]; exact hsum)
    have := (bloque_le_iff x.1 cb b h2 hle).1
    omega
  obtain ⟨r1, r2, r3, r4, _, r6⟩ := calcularSubredes_cabe pl hpl ip cb reqs csv h1 h2 hv hr
    (by rw [hs2]; exact hsum)
  rw [hs2] at r6
  rw [hrej] at r2
  rw [hd] at r4
  refine ⟨r1, r2, r3, r4, ?_, r6, ?_, ?_⟩
  · have hm : (subredes (calcularSubredes pl ip cb reqs csv)).map (fun s => s.requestedHosts)
        = ((subredes (calcularSubredes pl ip cb reqs csv)).map solicitud).map Prod.snd := by
      rw [List.map_map]
      rfl
    rw [hm, r4]
    have hp := ((hpl (reqs.map (fun h => (hostsToCidr pl h, h)))).1).map Prod.snd
    rw [List.map_map] at hp
    have hid : (Prod.snd ∘ fun h => (hostsToCidr pl h, h)) = id := by
      funext h; rfl
    rw [hid, List.map_id] at hp
    exact hp
  · intro hlt
    rw [r6, Nat.mod_eq_of_lt hlt]
  · intro heq
    rw [r6, heq]

/-! ## Records on the boundary of their own prefix -/

theorem bloque_dvd_of_le (p q : Int) (h : p ≤ q) : bloque q ∣ bloque p := by
  unfold bloque
  exact Nat.pow_dvd_pow 2 (by omega)

/-- The packing loop on requests sorted by prefix whose blocks all fit before the end
of the base network, from a cursor that is a multiple of every block size: every
record carries the mask of its prefix and starts at a multiple of its block size. -/
theorem empaquetar_alineadas (pl : Plataforma) (b : Nat) (csv : Bool) (hb : b < 4294967296)
    (l : List (Int × Int)) : ∀ st : Estado, (∀ x ∈ l, 1 ≤ x.1 ∧ x.1 ≤ 32) →
    l.Pairwise (fun a b => a.1 ≤ b.1) →
    st.currentAllocationIp + (l.map (fun x => bloque x.1)).sum ≤ b + 1 →
    (∀ x ∈ l, bloque x.1 ∣ st.currentAllocationIp) →
    ∀ s ∈ subredes (empaquetar pl b csv l st).2,
      ∃ c : Nat, s.direccionRed = intToIp c ∧ c < 4294967296 ∧ 1 ≤ s.cidr ∧ s.cidr ≤ 32 ∧
        bloque s.cidr ∣ c ∧ s.mascaraDecimal = cidrToMask pl s.cidr := by
  induction l with
  | nil =>
    intro st _ _ _ _ s hs
    simp [empaquetar, subredes] at hs
  | cons x xs ih =>
    intro st hl hp hfit hdiv s hs
    have hx := hl x (List.mem_cons_self _ _)
    have hpos := bloque_pos x.1
    simp only [List.map_cons, List.sum_cons] at hfit
    obtain ⟨ha, _⟩ := asignar_coloca pl b csv st x hx.1 hx.2 hb (by omega)
    simp only [empaquetar, ha, List.singleton_append, subredes_fila, List.mem_cons] at hs
    rcases hs with hs | hs
    · subst hs
      exact ⟨st.currentAllocationIp, rfl, by omega, hx.1, hx.2,
        hdiv x (List.mem_cons_self _ _), rfl⟩
    · cases xs with
      | nil => simp [empaquetar, subredes] at hs
      | cons y ys =>
        have hy := bloque_pos y.1
        simp only [List.map_cons, List.sum_cons] at hfit
        have hlt : st.currentAllocationIp + bloque x.1 < 4294967296 := by omega
        rw [Nat.mod_eq_of_lt hlt] at hs
        refine ih ⟨st.currentAllocationIp + bloque x.1, st.subnetCounter + 1⟩
          (fun z hz => hl z (List.mem_cons_of_mem _ hz)) (List.pairwise_cons.mp hp).2
          (by simp only [List.map_cons, List.sum_cons]; omega) ?_ s hs
        intro z hz
        exact Nat.dvd_add (hdiv z (List.mem_cons_of_mem _ hz))
          (bloque_dvd_of_le x.1 z.1 ((List.pairwise_cons.mp hp).1 z hz))

/-- A 32-bit value that is a multiple of the block size of a prefix from 1 to 32 has
no bit set outside the mask of the prefix. -/
theorem and_cidrToMask_of_dvd (pl : Plataforma) (c : Nat) (p : Int) (hc : c < 4294967296)
    (h1 : 1 ≤ p) (h2 : p ≤ 32) (hd : bloque p ∣ c) :
    ipToInt (intToIp c) &&& ipToInt (cidrToMask pl p) = ipToInt (intToIp c) := by
  rw [ipToInt_intToIp c hc, ipToInt_cidrToMask pl p h1 h2, mascaraBaseNumerica_eq pl p h1 h2]
  unfold bloque at hd ⊢
  rw [and_mascara c _ (by omega), Nat.mod_eq_of_lt hc]
  exact Nat.div_mul_cancel hd

/-- Every record is a network of its own prefix, as long as 32-bit arithmetic holds:
for a base prefix from 1 to 32, when no request is so large that `num_hosts + 2`
leaves the range of `int` and the block sizes of the sized requests add up, as numbers,
to less than `2 ^ 32`, every subnet record carries the mask of its prefix and its
network address has no bit set outside that mask. -/
theorem calcularSubredes_alineadas (pl : Plataforma) (hpl : SortCorrecto pl) (ip : String)
    (cb : Int) (reqs : List Int) (csv : Bool) (h1 : 1 ≤ cb) (h2 : cb ≤ 32)
    (hreq : ∀ h ∈ reqs, h + 2 ≤ INT_MAX)
    (hsum : ((dimensionadas pl reqs).map (fun x => bloque x.1)).sum < 4294967296) :
    ∀ s ∈ subredes (calcularSubredes pl ip cb reqs csv),
      s.mascaraDecimal = cidrToMask pl s.cidr ∧
      ipToInt s.direccionRed &&& ipToInt (cidrToMask pl s.cidr) = ipToInt s.direccionRed := by
  intro s hs
  have hr : ∀ x ∈ dimensionadas pl reqs, 1 ≤ x.1 ∧ x.1 ≤ 32 := by
    intro x hx
    obtain ⟨a, b, _⟩ := cidr_range_of_mem_dimensionadas pl reqs hreq x hx
    exact ⟨a, b⟩
  cases hab : abortada (calcularSubredes pl ip cb reqs csv) with
  | true =>
    have hsub := subredes_sublist_filas (calcularSubredes pl ip cb reqs csv)
    rw [filas_calcularSubredes_abortada pl ip cb reqs csv hab] at hsub
    have := hsub.subset hs
    simp at this
  | false =>
    have hn : ¬ abortada (calcularSubredes pl ip cb reqs csv) = true := by simp [hab]
    rw [abortada_calcularSubredes] at hn
    push_neg at hn
    obtain ⟨hv, hc⟩ := hn
    obtain ⟨hdvd, hbc, htop, htot⟩ := base_bloque pl ip cb h1 h2
    obtain ⟨hle, hb, _⟩ := base_order pl ip cb
    have hpos := bloque_pos cb
    rw [dimensionar_total_of_cota pl reqs hr hsum, htot] at hc
    have hperm := (hpl (dimensionadas pl reqs)).1
    have hsumeq : ((pl.stdSort (dimensionadas pl reqs)).map (fun x => bloque x.1)).sum =
        ((dimensionadas pl reqs).map (fun x => bloque x.1)).sum :=
      (hperm.map _).sum_eq
    have hs2 := subredes_calcularSubredes_subset pl ip cb reqs csv s hs
    obtain ⟨c, e1, e2, e3, e4, e5, e6⟩ := empaquetar_alineadas pl
      (originalBroadcastAddress pl ip cb) csv hb (pl.stdSort (dimensionadas pl reqs))
      { currentAllocationIp := originalNetworkAddress pl ip cb, subnetCounter := 0 }
      (fun x hx => hr x (hperm.mem_iff.mp hx)) (hpl (dimensionadas pl reqs)).2
      (by rw [hsumeq]; show originalNetworkAddress pl ip cb + _ ≤ _; omega)
      (by
        intro x hx
        have hx2 := hperm.mem_iff.mp hx
        have hmem : bloque x.1 ∈ (dimensionadas pl reqs).map (fun x => bloque x.1) :=
          List.mem_map_of_mem _ hx2
        have hle2 : bloque x.1 ≤ bloque cb := le_trans (List.le_sum_of_mem hmem) hc
        exact dvd_trans (bloque_le_iff x.1 cb (hr x hx2).2 h2 hle2).2 hdvd)
      s hs2
    refine ⟨e6, ?_⟩
    rw [e1]
    exact and_cidrToMask_of_dvd pl c s.cidr e2 e3 e4 e5

/-! ## The packing loop at the end of the 32-bit range: claims -/

/-- C16, at the failing input: base 255.255.255.0/24 with one request of 254 hosts.
The request sizes to the prefix 24, a block of `s = 256` addresses, and is placed at
the cursor `c = 4294967040` (255.255.255.0): the "SIN ESPACIO" test does not fire and
the record has every field as the rule says, with broadcast 255.255.255.255. The
cursor after the step is `0`, not `c + s = 4294967296`, and the trailer of the run
reports the range 0.0.0.0 to 255.255.255.255 as left over, with a count of 0. -/
theorem asignar_cursor_wraps (pl : Plataforma) (hpl : SortCorrecto pl) :
    hostsToCidr pl 254 = 24 ∧
    originalNetworkAddress pl "255.255.255.0" 24 = 4294967040 ∧
    originalBroadcastAddress pl "255.255.255.0" 24 = 4294967295 ∧
    sinEspacio pl 4294967295 ⟨4294967040, 0⟩ (24, 254) = false ∧
    asignar pl 4294967295 false ⟨4294967040, 0⟩ (24, 254) =
      (⟨0, 1⟩,
       [Salida.fila
         { direccionRed := "255.255.255.0", mascaraDecimal := "255.255.255.0",
           mascaraBinaria := "11111111.11111111.11111111.00000000", cidr := 24,
           hostRangeStart := "255.255.255.1", hostRangeEnd := "255.255.255.254",
           broadcast := "255.255.255.255", hostsUtilizables := 254,
           requestedHosts := 254 } 1]) ∧
    4294967040 + bloque 24 = 4294967296 ∧
    calcularSubredes pl "255.255.255.0" 24 [254] false =
      [Salida.redOriginal "255.255.255.0" 24 "255.255.255.255" 256, Salida.encabezado,
       Salida.fila
         { direccionRed := "255.255.255.0", mascaraDecimal := "255.255.255.0",
           mascaraBinaria := "11111111.11111111.11111111.00000000", cidr := 24,
           hostRangeStart := "255.255.255.1", hostRangeEnd := "255.255.255.254",
           broadcast := "255.255.255.255", hostsUtilizables := 254,
           requestedHosts := 254 } 1,
       Salida.remanente "0.0.0.0" "255.255.255.255" 0] := by
  have hs : sinEspacio pl 4294967295 ⟨4294967040, 0⟩ (24, 254) =
      sinEspacio plataformaX86 4294967295 ⟨4294967040, 0⟩ (24, 254) := by
    unfold sinEspacio
    rw [pow2u32_indep pl plataformaX86 _ (by decide)]
  rw [hostsToCidr_indep pl plataformaX86 254 (by decide),
    (base_indep pl plataformaX86 "255.255.255.0" 24 (by decide) (by decide)).1,
    (base_indep pl plataformaX86 "255.255.255.0" 24 (by decide) (by decide)).2.1, hs,
    asignar_indep pl plataformaX86 4294967295 false ⟨4294967040, 0⟩ (24, 254) (by decide),
    calcularSubredes_eq_of_sorted pl plataformaX86 hpl sortCorrecto_plataformaX86
      "255.255.255.0" 24 [254] false (by decide) (by decide) (by decide) (by decide)
      (by decide)]
  decide

theorem asignar_cursor_wraps_witness :
    SortCorrecto plataformaARM ∧
    hostsToCidr plataformaARM 254 = 24 ∧
    originalNetworkAddress plataformaARM "255.255.255.0" 24 = 4294967040 ∧
    originalBroadcastAddress plataformaARM "255.255.255.0" 24 = 4294967295 ∧
    sinEspacio plataformaARM 4294967295 ⟨4294967040, 0⟩ (24, 254) = false ∧
    asignar plataformaARM 4294967295 false ⟨4294967040, 0⟩ (24, 254) =
      (⟨0, 1⟩,
       [Salida.fila
         { direccionRed := "255.255.255.0", mascaraDecimal := "255.255.255.0",
           mascaraBinaria := "11111111.11111111.11111111.00000000", cidr := 24,
           hostRangeStart := "255.255.255.1", hostRangeEnd := "255.255.255.254",
           broadcast := "255.255.255.255", hostsUtilizables := 254,
           requestedHosts := 254 } 1]) ∧
    4294967040 + bloque 24 = 4294967296 ∧
    calcularSubredes plataformaARM "255.255.255.0" 24 [254] false =
      [Salida.redOriginal "255.255.255.0" 24 "255.255.255.255" 256, Salida.encabezado,
       Salida.fila
         { direccionRed := "255.255.255.0", mascaraDecimal := "255.255.255.0",
           mascaraBinaria := "11111111.11111111.11111111.00000000", cidr := 24,
           hostRangeStart := "255.255.255.1", hostRangeEnd := "255.255.255.254",
           broadcast := "255.255.255.255", hostsUtilizables := 254,
           requestedHosts := 254 } 1,
       Salida.remanente "0.0.0.0" "255.255.255.255" 0] :=
  ⟨sortCorrecto_plataformaARM, asignar_cursor_wraps plataformaARM sortCorrecto_plataformaARM⟩

/-- C17, at the failing input: base 255.255.255.0/24, whose address has no host bit
set, with the requests 100 and 100. Each sizes to the prefix 25, a block of 128
addresses, and the two blocks add up to 256, the address count of the base network.
Both requests get a record and no request is reported as failed, but the cursor ends
at `0`, not at the base address plus the sum, `4294967040 + 256 = 4294967296`; the
trailer of the run reports the range 0.0.0.0 to 255.255.255.255 as left over. -/
theorem calcularSubredes_cursor_final_wraps (pl : Plataforma) (hpl : SortCorrecto pl) :
    originalNetworkAddress pl "255.255.255.0" 24 = ipToInt "255.255.255.0" ∧
    ipToInt "255.255.255.0" = 4294967040 ∧
    hostsToCidr pl 100 = 25 ∧
    ([100, 100].map (fun h => bloque (hostsToCidr pl h))).sum = 256 ∧
    bloque 24 = 256 ∧
    (subredes (calcularSubredes pl "255.255.255.0" 24 [100, 100] false)).map
      (fun s => (s.direccionRed, s.cidr, s.broadcast, s.requestedHosts)) =
      [("255.255.255.0", 25, "255.255.255.127", 100),
       ("255.255.255.128", 25, "255.255.255.255", 100)] ∧
    fallos (calcularSubredes pl "255.255.255.0" 24 [100, 100] false) = [] ∧
    cursorFinal pl "255.255.255.0" 24 [100, 100] = 0 ∧
    (calcularSubredes pl "255.255.255.0" 24 [100, 100] false).getLast? =
      some (Salida.remanente "0.0.0.0" "255.255.255.255" 0) := by
  have hv : originalNetworkAddress pl "255.255.255.0" 24 = ipToInt "255.255.255.0" := by
    rw [(base_indep pl plataformaX86 "255.255.255.0" 24 (by decide) (by decide)).1]
    decide
  have hc : hostsToCidr pl 100 = 25 := by
    rw [hostsToCidr_indep pl plataformaX86 100 (by decide)]
    decide
  have hsum : ([100, 100].map (fun h => bloque (hostsToCidr pl h))).sum = 256 := by
    simp only [List.map_cons, List.map_nil, List.sum_cons, List.sum_nil, hc]
    decide
  have hcur := (calcularSubredes_coloca_todas pl hpl "255.255.255.0" 24 [100, 100] false
    (by decide) (by decide) hv (by decide) (by rw [hsum]; decide)).2.2.2.2.2.2.2
    (by rw [hsum]; decide)
  refine ⟨hv, by decide, hc, hsum, by decide, ?_, ?_, hcur, ?_⟩
  all_goals
    rw [calcularSubredes_eq_of_sorted pl plataformaX86 hpl sortCorrecto_plataformaX86
      "255.255.255.0" 24 [100, 100] false (by decide) (by decide) (by decide) (by decide)
      (by decide)]
    decide

theorem calcularSubredes_cursor_final_wraps_witness :
    SortCorrecto plataformaX86 ∧
    originalNetworkAddress plataformaX86 "255.255.255.0" 24 = ipToInt "255.255.255.0" ∧
    ipToInt "255.255.255.0" = 4294967040 ∧
    hostsToCidr plataformaX86 100 = 25 ∧
    ([100, 100].map (fun h => bloque (hostsToCidr plataformaX86 h))).sum = 256 ∧
    bloque 24 = 256 ∧
    (subredes (calcularSubredes plataformaX86 "255.255.255.0" 24 [100, 100] false)).map
      (fun s => (s.direccionRed, s.cidr, s.broadcast, s.requestedHosts)) =
      [("255.255.255.0", 25, "255.255.255.127", 100),
       ("255.255.255.128", 25, "255.255.255.255", 100)] ∧
    fallos (calcularSubredes plataformaX86 "255.255.255.0" 24 [100, 100] false) = [] ∧
    cursorFinal plataformaX86 "255.255.255.0" 24 [100, 100] = 0 ∧
    (calcularSubredes plataformaX86 "255.255.255.0" 24 [100, 100] false).getLast? =
      some (Salida.remanente "0.0.0.0" "255.255.255.255" 0) :=
  ⟨sortCorrecto_plataformaX86,
    calcularSubredes_cursor_final_wraps plataformaX86 sortCorrecto_plataformaX86⟩

/-- C18, at the failing input: base 192.168.1.0/24, whose address has no host bit
set, with two requests of 1073741824 hosts. The 32-bit total of the two blocks of
`2 ^ 31` addresses is `0`, so the run is not stopped, and both requests get a record
with the prefix 1 and the mask 128.0.0.0. The network addresses written are
192.168.1.0 and 64.168.1.0; their bitwise AND with the mask is 128.0.0.0 and 0.0.0.0,
so both have host bits set under their own prefix. -/
theorem calcularSubredes_registro_no_alineado (pl : Plataforma) (hpl : SortCorrecto pl)
    (csv : Bool) :
    originalNetworkAddress pl "192.168.1.0" 24 = ipToInt "192.168.1.0" ∧
    cidrToMask pl 1 = "128.0.0.0" ∧
    abortada (calcularSubredes pl "192.168.1.0" 24 [1073741824, 1073741824] csv) = false ∧
    (subredes (calcularSubredes pl "192.168.1.0" 24 [1073741824, 1073741824] csv)).map
      (fun s => (s.direccionRed, s.cidr, s.mascaraDecimal, ipToInt s.direccionRed,
        ipToInt s.direccionRed &&& ipToInt s.mascaraDecimal)) =
      [("192.168.1.0", 1, "128.0.0.0", 3232235776, 2147483648),
       ("64.168.1.0", 1, "128.0.0.0", 1084752128, 0)] := by
  rw [calcularSubredes_eq_of_sorted pl plataformaX86 hpl sortCorrecto_plataformaX86
    "192.168.1.0" 24 [1073741824, 1073741824] csv (by decide) (by decide) (by decide)
    (by decide) (by decide),
    (base_indep pl plataformaX86 "192.168.1.0" 24 (by decide) (by decide)).1,
    cidrToMask_indep pl plataformaX86 1 (by decide) (by decide)]
  cases csv <;> decide

theorem calcularSubredes_registro_no_alineado_witness :
    SortCorrecto plataformaX86 ∧
    originalNetworkAddress plataformaX86 "192.168.1.0" 24 = ipToInt "192.168.1.0" ∧
    cidrToMask plataformaX86 1 = "128.0.0.0" ∧
    abortada (calcularSubredes plataformaX86 "192.168.1.0" 24 [1073741824, 1073741824]
      false) = false ∧
    (subredes (calcularSubredes plataformaX86 "192.168.1.0" 24 [1073741824, 1073741824]
      false)).map
      (fun s => (s.direccionRed, s.cidr, s.mascaraDecimal, ipToInt s.direccionRed,
        ipToInt s.direccionRed &&& ipToInt s.mascaraDecimal)) =
      [("192.168.1.0", 1, "128.0.0.0", 3232235776, 2147483648),
       ("64.168.1.0", 1, "128.0.0.0", 1084752128, 0)] :=
  ⟨sortCorrecto_plataformaX86,
    calcularSubredes_registro_no_alineado plataformaX86 sortCorrecto_plataformaX86 false⟩

/-! ## The outcome of every request: claims -/

/-- C20. On every platform whose `std::sort` returns a sorted rearrangement, in every
run that is not stopped by the check of the base address or by the capacity check, the
host counts of the outcomes written (the warnings for counts that cannot be sized, the
subnet records and the "SIN ESPACIO" rows) are a rearrangement of the requests, so each
request has exactly one outcome, which carries its host count: first the warnings, in
input order, then the rows. No "INVALIDO" row is written. The total the capacity check
uses is the sum, modulo `2 ^ 32`, of the block sizes of the requests that were sized:
a request that cannot be sized adds nothing to it. -/
theorem calcularSubredes_un_resultado_por_solicitud (pl : Plataforma)
    (hpl : SortCorrecto pl) (ip : String) (cb : Int) (reqs : List Int) (csv : Bool)
    (ha : abortada (calcularSubredes pl ip cb reqs csv) = false) :
    (resultados (calcularSubredes pl ip cb reqs csv)).Perm reqs ∧
    resultados (calcularSubredes pl ip cb reqs csv) =
      rechazadas pl reqs ++
        (filas (calcularSubredes pl ip cb reqs csv)).map (fun s => s.requestedHosts) ∧
    (∀ o ∈ calcularSubredes pl ip cb reqs csv, ∀ s c, o ≠ Salida.filaInvalida s c) ∧
    (dimensionar pl reqs [] 0 []).2.1 =
      ((dimensionadas pl reqs).map (fun x => pow2u32 pl (32 - x.1))).sum % 4294967296 := by
  have hr := resultados_calcularSubredes pl ip cb reqs csv ha
  have hf := filas_calcularSubredes pl ip cb reqs csv ha
  have hperm := (hpl (dimensionadas pl reqs)).1
  refine ⟨?_, ?_, ?_, ?_⟩
  · rw [hr]
    exact ((hperm.map Prod.snd).append_left _).trans (rechazadas_dimensionadas_perm pl reqs)
  · rw [hr, ← hf, List.map_map]
    rfl
  · have hn : ¬ abortada (calcularSubredes pl ip cb reqs csv) = true := by simp [ha]
    rw [abortada_calcularSubredes] at hn
    push_neg at hn
    rw [calcularSubredes_asignada pl ip cb reqs csv hn.1 (by omega)]
    intro o ho s c he
    subst he
    simp only [List.mem_append] at ho
    rcases ho with (((ho | ho) | ho) | ho) | ho
    · cases csv <;> simp [resumen] at ho
    · simp at ho
    · simp at ho
    · refine empaquetar_sin_invalida pl _ csv _ _ ?_ _ ho s c rfl
      intro x hx
      obtain ⟨a, b, _⟩ := cota_dimensionadas pl reqs x (hperm.mem_iff.mp hx)
      exact ⟨a, b⟩
    · unfold trailer at ho
      split_ifs at ho <;> simp at ho
  · rw [dimensionar_total pl reqs [] 0 [] (by decide), Nat.zero_add]

theorem calcularSubredes_un_resultado_por_solicitud_witness :
    SortCorrecto plataformaX86 ∧
    abortada (calcularSubredes plataformaX86 "192.168.1.0" 24 [20, -3, 50, 20] false)
      = false ∧
    (resultados (calcularSubredes plataformaX86 "192.168.1.0" 24 [20, -3, 50, 20]
      false)).Perm [20, -3, 50, 20] ∧
    resultados (calcularSubredes plataformaX86 "192.168.1.0" 24 [20, -3, 50, 20] false) =
      rechazadas plataformaX86 [20, -3, 50, 20] ++
        (filas (calcularSubredes plataformaX86 "192.168.1.0" 24 [20, -3, 50, 20]
          false)).map (fun s => s.requestedHosts) ∧
    (∀ o ∈ calcularSubredes plataformaX86 "192.168.1.0" 24 [20, -3, 50, 20] false,
      ∀ s c, o ≠ Salida.filaInvalida s c) ∧
    (dimensionar plataformaX86 [20, -3, 50, 20] [] 0 []).2.1 =
      ((dimensionadas plataformaX86 [20, -3, 50, 20]).map
        (fun x => pow2u32 plataformaX86 (32 - x.1))).sum % 4294967296 :=
  ⟨sortCorrecto_plataformaX86, by decide,
    calcularSubredes_un_resultado_por_solicitud plataformaX86 sortCorrecto_plataformaX86
      "192.168.1.0" 24 [20, -3, 50, 20] false (by decide)⟩

/-! ## A step that finds no room -/

/-- The "SIN ESPACIO" branch, for a prefix from 0 to 32: when the test of the branch
holds, the step writes one "SIN ESPACIO" row, which carries the prefix and the host
count of the request (followed on the console by the note with the addresses left),
counts the row, and leaves the cursor where it was. -/
theorem asignar_sinEspacio (pl : Plataforma) (b : Nat) (csv : Bool) (st : Estado)
    (x : Int × Int) (h0 : 0 ≤ x.1) (h32 : x.1 ≤ 32) (hs : sinEspacio pl b st x = true) :
    asignar pl b csv st x =
      (⟨st.currentAllocationIp, st.subnetCounter + 1⟩,
       Salida.filaSinEspacio
         { direccionRed := "SIN ESPACIO", cidr := x.1, mascaraDecimal := "N/A",
           mascaraBinaria := "N/A", hostRangeStart := "N/A", hostRangeEnd := "N/A",
           broadcast := "N/A", hostsUtilizables := 0, requestedHosts := x.2 }
         (st.subnetCounter + 1) ::
        (if csv then []
         else [Salida.notaNoCabe x.2 x.1 (add32 (sub32 b st.currentAllocationIp) 1)])) := by
  unfold asignar
  have c1 : ¬ (x.1 > 32 ∨ x.1 < 0) := by omega
  have c2 : sub32 (add32 st.currentAllocationIp (pow2u32 pl (32 - x.1))) 1 > b ∨
      st.currentAllocationIp > b := by
    unfold sinEspacio at hs
    simpa using hs
  simp only [c1, if_false, c2, if_true]

/-- The test of the "SIN ESPACIO" branch, for a prefix from 1 to 32 at a cursor from
which the block does not pass the end of the 32-bit range: it holds exactly when the
last address of the block, `c + s - 1`, is above the base broadcast or the cursor
is. -/
theorem sinEspacio_iff (pl : Plataforma) (b : Nat) (st : Estado) (x : Int × Int)
    (h1 : 1 ≤ x.1) (h2 : x.1 ≤ 32)
    (htop : st.currentAllocationIp + bloque x.1 ≤ 4294967296) :
    sinEspacio pl b st x = true ↔
      (st.currentAllocationIp + bloque x.1 - 1 > b ∨ st.currentAllocationIp > b) := by
  obtain ⟨hp, _⟩ := pow2u32_eq_bloque pl x.1 h1 h2
  have hpos := bloque_pos x.1
  have hbr : sub32 (add32 st.currentAllocationIp (bloque x.1)) 1 =
      st.currentAllocationIp + bloque x.1 - 1 := by
    unfold sub32 add32
    omega
  unfold sinEspacio
  rw [hp, hbr]
  simp

/-- A request that does not fit, for a prefix from 1 to 32 at a cursor from which the
block does not pass the end of the 32-bit range: when the last address of the block is
above the base broadcast, or the cursor is, the step writes a "SIN ESPACIO" row with
the host count of the request and the cursor stays where it was, so that the next
request is tried at the same address. -/
theorem asignar_no_cabe (pl : Plataforma) (b : Nat) (csv : Bool) (st : Estado)
    (x : Int × Int) (h1 : 1 ≤ x.1) (h2 : x.1 ≤ 32)
    (htop : st.currentAllocationIp + bloque x.1 ≤ 4294967296)
    (hno : st.currentAllocationIp + bloque x.1 - 1 > b ∨ st.currentAllocationIp > b) :
    (asignar pl b csv st x).1.currentAllocationIp = st.currentAllocationIp ∧
    (asignar pl b csv st x).1.subnetCounter = st.subnetCounter + 1 ∧
    subredes (asignar pl b csv st x).2 = [] ∧
    fallos (asignar pl b csv st x).2 = [x.2] ∧
    filas (asignar pl b csv st x).2 =
      [{ direccionRed := "SIN ESPACIO", cidr := x.1, mascaraDecimal := "N/A",
         mascaraBinaria := "N/A", hostRangeStart := "N/A", hostRangeEnd := "N/A",
         broadcast := "N/A", hostsUtilizables := 0, requestedHosts := x.2 }] ∧
    ∀ y : Int × Int,
      (empaquetar pl b csv [x, y] st).2 =
        (asignar pl b csv st x).2 ++
          (asignar pl b csv ⟨st.currentAllocationIp, st.subnetCounter + 1⟩ y).2 := by
  have hs := (sinEspacio_iff pl b st x h1 h2 htop).mpr hno
  have ha := asignar_sinEspacio pl b csv st x (by omega) h2 hs
  rw [ha]
  refine ⟨rfl, rfl, ?_, ?_, ?_, ?_⟩
  · cases csv <;> rfl
  · cases csv <;> rfl
  · cases csv <;> rfl
  · intro y
    simp only [empaquetar, ha, List.append_nil]

/-! ## The trailer of a run in which every block fits -/

theorem restantes_eq (n s t : Nat) (hs : s < t) (ht : n + t ≤ 4294967296)
    (ht2 : t ≤ 2147483648) :
    add32 (sub32 (n + t - 1) (n + s)) 1 = t - s := by
  unfold add32 sub32
  omega

theorem trailer_consola (b c : Nat) :
    trailer b false c =
      [if c ≤ b then Salida.remanente (intToIp c) (intToIp b) (add32 (sub32 b c) 1)
       else Salida.redAgotada] := by
  unfold trailer
  by_cases h : c ≤ b
  · simp [h]
  · simp [h]

/-- The trailer of a console run on a base network with a prefix from 1 to 32 and no
host bit set, when no request overflows `hostsToCidr` and the block sizes of the sized
requests add up, as numbers, to no more than the address count of the base network
(so that every sized request is placed). When the blocks do not fill the base network
the trailer reports the range from the cursor, the base address plus the sum, to the
base broadcast, with the count of the addresses in it. When the blocks fill the base
network and it ends below 255.255.255.255 the trailer reports the network as used up.
When the blocks fill a base network that ends at 255.255.255.255 the trailer reports
the range 0.0.0.0 to 255.255.255.255 as left over, with the count 0. -/
theorem calcularSubredes_pie (pl : Plataforma) (hpl : SortCorrecto pl) (ip : String)
    (cb : Int) (reqs : List Int) (h1 : 1 ≤ cb) (h2 : cb ≤ 32)
    (hv : originalNetworkAddress pl ip cb = ipToInt ip)
    (hreq : ∀ h ∈ reqs, h + 2 ≤ INT_MAX)
    (hsum : ((dimensionadas pl reqs).map (fun x => bloque x.1)).sum ≤ bloque cb) :
    abortada (calcularSubredes pl ip cb reqs false) = false ∧
    originalBroadcastAddress pl ip cb = ipToInt ip + bloque cb - 1 ∧
    (((dimensionadas pl reqs).map (fun x => bloque x.1)).sum < bloque cb →
      (calcularSubredes pl ip cb reqs false).getLast? =
        some (Salida.remanente
          (intToIp (ipToInt ip + ((dimensionadas pl reqs).map (fun x => bloque x.1)).sum))
          (intToIp (ipToInt ip + bloque cb - 1))
          (bloque cb - ((dimensionadas pl reqs).map (fun x => bloque x.1)).sum))) ∧
    (((dimensionadas pl reqs).map (fun x => bloque x.1)).sum = bloque cb →
      ipToInt ip + bloque cb < 4294967296 →
      (calcularSubredes pl ip cb reqs false).getLast? = some Salida.redAgotada) ∧
    (((dimensionadas pl reqs).map (fun x => bloque x.1)).sum = bloque cb →
      ipToInt ip + bloque cb = 4294967296 →
      (calcularSubredes pl ip cb reqs false).getLast? =
        some (Salida.remanente "0.0.0.0" "255.255.255.255" 0)) := by
  have hr : ∀ x ∈ dimensionadas pl reqs, 1 ≤ x.1 ∧ x.1 ≤ 32 := by
    intro x hx
    obtain ⟨a, b, _⟩ := cidr_range_of_mem_dimensionadas pl reqs hreq x hx
    exact ⟨a, b⟩
  obtain ⟨ha, _, _, _, _, hcur⟩ :=
    calcularSubredes_cabe pl hpl ip cb reqs false h1 h2 hv hr hsum
  obtain ⟨_, hbc, htop, _⟩ := base_bloque pl ip cb h1 h2
  rw [hv] at hbc htop
  have hpos := bloque_pos cb
  obtain ⟨antes, hout⟩ := calcularSubredes_trailer pl ip cb reqs ha
  have hlast : (calcularSubredes pl ip cb reqs false).getLast? =
      some (if cursorFinal pl ip cb reqs ≤ originalBroadcastAddress pl ip cb
        then Salida.remanente (intToIp (cursorFinal pl ip cb reqs))
          (intToIp (originalBroadcastAddress pl ip cb))
          (add32 (sub32 (originalBroadcastAddress pl ip cb) (cursorFinal pl ip cb reqs)) 1)
        else Salida.redAgotada) := by
    rw [hout, trailer_consola]
    simp
  rw [hlast, hbc, hcur]
  refine ⟨ha, rfl, ?_, ?_, ?_⟩
  · intro hlt
    rw [Nat.mod_eq_of_lt (by omega), if_pos (by omega)]
    rw [restantes_eq _ _ _ hlt htop (pow2u32_eq_bloque pl cb h1 h2).2]
  · intro heq hlt
    rw [heq, Nat.mod_eq_of_lt hlt, if_neg (by omega)]
  · intro heq h32
    rw [heq, h32]
    decide

/-! ## The base network for a prefix from 1 to 32 -/

/-- The values a run derives for a base network with a prefix from 1 to 32 whose
address has no bit set outside the mask of the prefix: the network address is the
address given, the broadcast address is that address OR the complement of the mask,
and the address count is `2 ^ (32 - cidrBase)`. -/
theorem base_derivada (pl : Plataforma) (ip : String) (cb : Int) (h1 : 1 ≤ cb)
    (h2 : cb ≤ 32)
    (hv : ipToInt ip &&& ipToInt (cidrToMask pl cb) = ipToInt ip) :
    originalNetworkAddress pl ip cb = ipToInt ip ∧
    originalBroadcastAddress pl ip cb = ipToInt ip ||| not32 (ipToInt (cidrToMask pl cb)) ∧
    totalOriginalIps pl ip cb = 2 ^ (32 - cb).toNat := by
  rw [ipToInt_cidrToMask pl cb h1 h2] at hv ⊢
  have hn : originalNetworkAddress pl ip cb = ipToInt ip := hv
  refine ⟨hn, ?_, (base_bloque pl ip cb h1 h2).2.2.2⟩
  unfold originalBroadcastAddress
  rw [hn]

/-! ## No room, the trailer, and the base network: claims -/

/-- A run in which the "SIN ESPACIO" branch is taken: base 10.0.0.0/8 with the requests
1073741824, 1073741824 and 100. The two blocks of `2 ^ 31` addresses end above the
base broadcast, each gets a "SIN ESPACIO" row and the cursor stays at 10.0.0.0, where
the third request is then placed. -/
theorem calcularSubredes_sin_espacio_ejemplo :
    (filas (calcularSubredes plataformaX86 "10.0.0.0" 8 [1073741824, 1073741824, 100]
      false)).map (fun s => (s.direccionRed, s.cidr, s.requestedHosts)) =
      [("SIN ESPACIO", 1, 1073741824), ("SIN ESPACIO", 1, 1073741824),
       ("10.0.0.0", 25, 100)] ∧
    (calcularSubredes plataformaX86 "10.0.0.0" 8 [1073741824, 1073741824, 100]
      false).getLast? = some (Salida.remanente "10.0.0.128" "10.255.255.255" 16777088) := by
  decide

/-- C21, at the failing input: base 192.168.1.0/24 with two requests of 1073741824
hosts, first step of the packing loop. The request has the prefix 1, a block of
`2 ^ 31` addresses; at the cursor 3232235776 (192.168.1.0) the last address of the
block is `3232235776 + 2 ^ 31 - 1 = 5379719423`, above the base broadcast 3232236031
(192.168.1.255). The test of the "SIN ESPACIO" branch does not hold, because the 32-bit
candidate broadcast is 64.168.0.255: the step writes a subnet record, no failure, and
moves the cursor to 1084752128 (64.168.1.0). The whole run writes two subnet records
and no "SIN ESPACIO" row. -/
theorem asignar_broadcast_wraps (pl : Plataforma) (hpl : SortCorrecto pl) (csv : Bool) :
    hostsToCidr pl 1073741824 = 1 ∧
    originalNetworkAddress pl "192.168.1.0" 24 = 3232235776 ∧
    originalBroadcastAddress pl "192.168.1.0" 24 = 3232236031 ∧
    3232235776 + bloque 1 - 1 = 5379719423 ∧
    sinEspacio pl 3232236031 ⟨3232235776, 0⟩ (1, 1073741824) = false ∧
    asignar pl 3232236031 false ⟨3232235776, 0⟩ (1, 1073741824) =
      (⟨1084752128, 1⟩,
       [Salida.fila
         { direccionRed := "192.168.1.0", mascaraDecimal := "128.0.0.0",
           mascaraBinaria := "10000000.00000000.00000000.00000000", cidr := 1,
           hostRangeStart := "192.168.1.1", hostRangeEnd := "64.168.0.254",
           broadcast := "64.168.0.255", hostsUtilizables := 2147483646,
           requestedHosts := 1073741824 } 1]) ∧
    (filas (calcularSubredes pl "192.168.1.0" 24 [1073741824, 1073741824] csv)).map
      (fun s => (s.direccionRed, s.broadcast, s.requestedHosts)) =
      [("192.168.1.0", "64.168.0.255", 1073741824),
       ("64.168.1.0", "192.168.0.255", 1073741824)] := by
  have hs : sinEspacio pl 3232236031 ⟨3232235776, 0⟩ (1, 1073741824) =
      sinEspacio plataformaX86 3232236031 ⟨3232235776, 0⟩ (1, 1073741824) := by
    unfold sinEspacio
    rw [pow2u32_indep pl plataformaX86 _ (by decide)]
  rw [hostsToCidr_indep pl plataformaX86 1073741824 (by decide),
    (base_indep pl plataformaX86 "192.168.1.0" 24 (by decide) (by decide)).1,
    (base_indep pl plataformaX86 "192.168.1.0" 24 (by decide) (by decide)).2.1, hs,
    asignar_indep pl plataformaX86 3232236031 false ⟨3232235776, 0⟩ (1, 1073741824)
      (by decide),
    calcularSubredes_eq_of_sorted pl plataformaX86 hpl sortCorrecto_plataformaX86
      "192.168.1.0" 24 [1073741824, 1073741824] csv (by decide) (by decide) (by decide)
      (by decide) (by decide)]
  cases csv <;> decide

theorem asignar_broadcast_wraps_witness :
    SortCorrecto plataformaX86 ∧
    hostsToCidr plataformaX86 1073741824 = 1 ∧
    originalNetworkAddress plataformaX86 "192.168.1.0" 24 = 3232235776 ∧
    originalBroadcastAddress plataformaX86 "192.168.1.0" 24 = 3232236031 ∧
    3232235776 + bloque 1 - 1 = 5379719423 ∧
    sinEspacio plataformaX86 3232236031 ⟨3232235776, 0⟩ (1, 1073741824) = false ∧
    asignar plataformaX86 3232236031 false ⟨3232235776, 0⟩ (1, 1073741824) =
      (⟨1084752128, 1⟩,
       [Salida.fila
         { direccionRed := "192.168.1.0", mascaraDecimal := "128.0.0.0",
           mascaraBinaria := "10000000.00000000.00000000.00000000", cidr := 1,
           hostRangeStart := "192.168.1.1", hostRangeEnd := "64.168.0.254",
           broadcast := "64.168.0.255", hostsUtilizables := 2147483646,
           requestedHosts := 1073741824 } 1]) ∧
    (filas (calcularSubredes plataformaX86 "192.168.1.0" 24 [1073741824, 1073741824]
      true)).map (fun s => (s.direccionRed, s.broadcast, s.requestedHosts)) =
      [("192.168.1.0", "64.168.0.255", 1073741824),
       ("64.168.1.0", "192.168.0.255", 1073741824)] :=
  ⟨sortCorrecto_plataformaX86,
    asignar_broadcast_wraps plataformaX86 sortCorrecto_plataformaX86 true⟩

/-- C22, at the failing input: base 255.255.255.252/30, whose broadcast address is
255.255.255.255, with one request of 2 hosts. The request sizes to the prefix 30, a
block of 4 addresses, the address count of the base network, and is placed; the run is
not stopped. The trailer does not report the network as used up: it reports the range
0.0.0.0 to 255.255.255.255 as left over, with the count 0. The same request in base
192.168.1.252/30 fills that network too, and there the trailer reports the network as
used up. -/
theorem calcularSubredes_remanente_tras_llenar (pl : Plataforma) (hpl : SortCorrecto pl) :
    hostsToCidr pl 2 = 30 ∧ bloque 30 = 4 ∧
    totalOriginalIps pl "255.255.255.252" 30 = 4 ∧
    originalBroadcastAddress pl "255.255.255.252" 30 = 4294967295 ∧
    calcularSubredes pl "255.255.255.252" 30 [2] false =
      [Salida.redOriginal "255.255.255.252" 30 "255.255.255.255" 4, Salida.encabezado,
       Salida.fila
         { direccionRed := "255.255.255.252", mascaraDecimal := "255.255.255.252",
           mascaraBinaria := "11111111.11111111.11111111.11111100", cidr := 30,
           hostRangeStart := "255.255.255.253", hostRangeEnd := "255.255.255.254",
           broadcast := "255.255.255.255", hostsUtilizables := 2, requestedHosts := 2 } 1,
       Salida.remanente "0.0.0.0" "255.255.255.255" 0] ∧
    cursorFinal pl "255.255.255.252" 30 [2] = 0 ∧
    totalOriginalIps pl "192.168.1.252" 30 = 4 ∧
    (calcularSubredes pl "192.168.1.252" 30 [2] false).getLast? =
      some Salida.redAgotada := by
  have hv : originalNetworkAddress pl "255.255.255.252" 30 = ipToInt "255.255.255.252" := by
    rw [(base_indep pl plataformaX86 "255.255.255.252" 30 (by decide) (by decide)).1]
    decide
  have hc : hostsToCidr pl 2 = 30 := by
    rw [hostsToCidr_indep pl plataformaX86 2 (by decide)]
    decide
  have hsum : ([2].map (fun h => bloque (hostsToCidr pl h))).sum = 4 := by
    simp only [List.map_cons, List.map_nil, List.sum_cons, List.sum_nil, hc]
    decide
  have hcur := (calcularSubredes_coloca_todas pl hpl "255.255.255.252" 30 [2] false
    (by decide) (by decide) hv (by decide) (by rw [hsum]; decide)).2.2.2.2.2.2.2
    (by rw [hsum]; decide)
  rw [hc, (base_indep pl plataformaX86 "255.255.255.252" 30 (by decide) (by decide)).2.2,
    (base_indep pl plataformaX86 "255.255.255.252" 30 (by decide) (by decide)).2.1,
    (base_indep pl plataformaX86 "192.168.1.252" 30 (by decide) (by decide)).2.2,
    calcularSubredes_eq_of_sorted pl plataformaX86 hpl sortCorrecto_plataformaX86
      "255.255.255.252" 30 [2] false (by decide) (by decide) (by decide) (by decide)
      (by decide),
    calcularSubredes_eq_of_sorted pl plataformaX86 hpl sortCorrecto_plataformaX86
      "192.168.1.252" 30 [2] false (by decide) (by decide) (by decide) (by decide)
      (by decide), hcur]
  decide

theorem calcularSubredes_remanente_tras_llenar_witness :
    SortCorrecto plataformaARM ∧
    hostsToCidr plataformaARM 2 = 30 ∧ bloque 30 = 4 ∧
    totalOriginalIps plataformaARM "255.255.255.252" 30 = 4 ∧
    originalBroadcastAddress plataformaARM "255.255.255.252" 30 = 4294967295 ∧
    calcularSubredes plataformaARM "255.255.255.252" 30 [2] false =
      [Salida.redOriginal "255.255.255.252" 30 "255.255.255.255" 4, Salida.encabezado,
       Salida.fila
         { direccionRed := "255.255.255.252", mascaraDecimal := "255.255.255.252",
           mascaraBinaria := "11111111.11111111.11111111.11111100", cidr := 30,
           hostRangeStart := "255.255.255.253", hostRangeEnd := "255.255.255.254",
           broadcast := "255.255.255.255", hostsUtilizables := 2, requestedHosts := 2 } 1,
       Salida.remanente "0.0.0.0" "255.255.255.255" 0] ∧
    cursorFinal plataformaARM "255.255.255.252" 30 [2] = 0 ∧
    totalOriginalIps plataformaARM "192.168.1.252" 30 = 4 ∧
    (calcularSubredes plataformaARM "192.168.1.252" 30 [2] false).getLast? =
      some Salida.redAgotada :=
  ⟨sortCorrecto_plataformaARM,
    calcularSubredes_remanente_tras_llenar plataformaARM sortCorrecto_plataformaARM⟩

/-- C23, at the failing input: base 0.0.0.0 with prefix 0. The address has no bit set
outside the mask `cidrToMask 0`, which is 0.0.0.0, and the claim's broadcast,
the address OR the complement of that mask, is 4294967295 (255.255.255.255). On no
platform is the address count the run derives `2 ^ 32`, since it is a 32-bit value. On
the x86-64 platform the mask the run computes is all ones, the broadcast it derives is
0.0.0.0 and the address count is 1; on the ARM platform the broadcast is
255.255.255.255 and the address count is 0. On both a request of 10 hosts is turned
down by the capacity check. -/
theorem base_prefijo_cero (pl : Plataforma) (ip : String) :
    totalOriginalIps pl ip 0 < 4294967296 ∧
    (2 : Nat) ^ (32 - (0 : Int)).toNat = 4294967296 ∧
    cidrToMask pl 0 = "0.0.0.0" ∧
    ipToInt "0.0.0.0" &&& ipToInt (cidrToMask pl 0) = ipToInt "0.0.0.0" ∧
    ipToInt "0.0.0.0" ||| not32 (ipToInt (cidrToMask pl 0)) = 4294967295 ∧
    mascaraBaseNumerica plataformaX86 0 = 4294967295 ∧
    originalBroadcastAddress plataformaX86 "0.0.0.0" 0 = 0 ∧
    totalOriginalIps plataformaX86 "0.0.0.0" 0 = 1 ∧
    originalBroadcastAddress plataformaARM "0.0.0.0" 0 = 4294967295 ∧
    totalOriginalIps plataformaARM "0.0.0.0" 0 = 0 ∧
    calcularSubredes plataformaX86 "0.0.0.0" 0 [10] false =
      [Salida.redOriginal "0.0.0.0" 0 "0.0.0.0" 1, Salida.errorCapacidad 16 1] ∧
    calcularSubredes plataformaARM "0.0.0.0" 0 [10] false =
      [Salida.redOriginal "0.0.0.0" 0 "255.255.255.255" 0, Salida.errorCapacidad 16 0] := by
  have hm : cidrToMask pl 0 = "0.0.0.0" := by
    rw [cidrToMask_indep pl plataformaX86 0 (by decide) (by decide)]
    decide
  refine ⟨?_, by decide, hm, ?_, ?_, by decide, by decide, by decide, by decide, by decide,
    by decide, by decide⟩
  · rw [(base_order pl ip 0).2.2]
    exact Nat.mod_lt _ (by decide)
  · rw [hm]; decide
  · rw [hm]; decide

/-! ## `std::sort` of libstdc++: the vector keeps its elements -/

theorem elem_eq_getElem (v : List (Int × Int)) (i : Nat) (h : i < v.length) :
    elem v i = v[i] := by
  unfold elem
  exact List.getD_eq_getElem v (0, 0) h

theorem elem_set (v : List (Int × Int)) (i j : Nat) (a : Int × Int) (hi : i < v.length) :
    elem (v.set i a) j = if i = j then a else elem v j := by
  unfold elem
  by_cases hij : i = j
  · subst hij
    rw [if_pos rfl, List.getD_eq_getElem _ _ (by simpa using hi)]
    simp
  · rw [if_neg hij]
    by_cases hj : j < v.length
    · rw [List.getD_eq_getElem _ _ (by simpa using hj), List.getD_eq_getElem _ _ hj]
      exact List.getElem_set_ne hij _
    · rw [List.getD_eq_default _ _ (by simpa using hj), List.getD_eq_default _ _ (by omega)]

/-- Writing `a` at a position of the vector takes one occurrence of the element that
was there and adds one of `a`. -/
theorem count_set_elem (v : List (Int × Int)) : ∀ (i : Nat), i < v.length →
    ∀ a b : Int × Int,
    (v.set i a).countP (fun x => decide (x = b)) + (if elem v i = b then 1 else 0) =
      v.countP (fun x => decide (x = b)) + (if a = b then 1 else 0) := by
  induction v with
  | nil => intro i hi; simp at hi
  | cons x xs ih =>
    intro i hi a b
    cases i with
    | zero =>
      simp only [List.set_cons_zero, List.countP_cons, elem, List.getD_cons_zero,
        decide_eq_true_eq]
      omega
    | succ i =>
      have := ih i (by simpa using hi) a b
      simp only [List.set_cons_succ, List.countP_cons, elem, List.getD_cons_succ,
        decide_eq_true_eq] at this ⊢
      omega

/-- Two vectors in which every element occurs as often are rearrangements of each
other. -/
theorem perm_of_countP (v w : List (Int × Int))
    (h : ∀ b : Int × Int, v.countP (fun x => decide (x = b)) =
      w.countP (fun x => decide (x = b))) : v.Perm w := by
  rw [List.perm_iff_count]
  intro b
  exact h b

theorem iter_swap_length (v : List (Int × Int)) (i j : Nat) :
    (iter_swap v i j).length = v.length := by
  simp [iter_swap]

/-- A swap of two positions of the vector keeps its elements. -/
theorem iter_swap_perm (v : List (Int × Int)) (i j : Nat) (hi : i < v.length)
    (hj : j < v.length) : (iter_swap v i j).Perm v := by
  apply perm_of_countP
  intro b
  unfold iter_swap
  have e1 := count_set_elem v i hi (elem v j) b
  have e2 := count_set_elem (v.set i (elem v j)) j (by simpa using hj) (elem v i) b
  rw [elem_set v i j _ hi] at e2
  by_cases hij : i = j
  · subst hij
    simp only [if_true] at e2
    omega
  · simp only [hij, if_false] at e2
    omega

theorem move_median_to_first_length (v : List (Int × Int)) (r a b c : Nat) :
    (move_median_to_first v r a b c).length = v.length := by
  unfold move_median_to_first
  split_ifs <;> exact iter_swap_length _ _ _

theorem move_median_to_first_perm (v : List (Int × Int)) (r a b c : Nat) (hr : r < v.length)
    (ha : a < v.length) (hb : b < v.length) (hc : c < v.length) :
    (move_median_to_first v r a b c).Perm v := by
  unfold move_median_to_first
  split_ifs <;> exact iter_swap_perm _ _ _ (by assumption) (by assumption)

theorem avanzar_ge (v : List (Int × Int)) (pivot : Nat) : ∀ (k first : Nat),
    first ≤ avanzar v pivot first k ∧ avanzar v pivot first k ≤ first + k := by
  intro k
  induction k with
  | zero => intro first; simp [avanzar]
  | succ k ih =>
    intro first
    unfold avanzar
    split_ifs
    · have := ih (first + 1)
      omega
    · omega

theorem retroceder_le (v : List (Int × Int)) (pivot : Nat) : ∀ last : Nat,
    retroceder v pivot last ≤ last := by
  intro last
  induction last with
  | zero => simp [retroceder]
  | succ l ih =>
    unfold retroceder
    split_ifs
    · omega
    · omega

/-- The loop of `__unguarded_partition` on a range inside the vector: the elements are
kept, and the position returned is inside the range or at its end. -/
theorem unguarded_partition_loop_spec (pivot : Nat) : ∀ (k : Nat) (v : List (Int × Int))
    (first last : Nat), last ≤ v.length → first ≤ v.length →
    (unguarded_partition_loop pivot k v first last).1.Perm v ∧
    first ≤ (unguarded_partition_loop pivot k v first last).2 ∧
    (unguarded_partition_loop pivot k v first last).2 ≤ v.length := by
  intro k
  induction k with
  | zero =>
    intro v first last _ hf
    exact ⟨List.Perm.refl _, le_refl _, hf⟩
  | succ k ih =>
    intro v first last hl hf
    unfold unguarded_partition_loop
    have ha := avanzar_ge v pivot (v.length - first) first
    have hr := retroceder_le v pivot (last - 1)
    simp only []
    by_cases hc : avanzar v pivot first (v.length - first) < retroceder v pivot (last - 1)
    · rw [if_neg (not_not.mpr hc)]
      have hsw := iter_swap_perm v (avanzar v pivot first (v.length - first))
        (retroceder v pivot (last - 1)) (by omega) (by omega)
      have hlen := iter_swap_length v (avanzar v pivot first (v.length - first))
        (retroceder v pivot (last - 1))
      obtain ⟨p1, p2, p3⟩ := ih (iter_swap v (avanzar v pivot first (v.length - first))
        (retroceder v pivot (last - 1))) (avanzar v pivot first (v.length - first) + 1)
        (retroceder v pivot (last - 1)) (by omega) (by omega)
      exact ⟨p1.trans hsw, by omega, by omega⟩
    · rw [if_pos hc]
      exact ⟨List.Perm.refl _, ha.1, by omega⟩

theorem unguarded_partition_pivot_spec (v : List (Int × Int)) (first last : Nat)
    (hl : last ≤ v.length) (hs : last - first > 16) :
    (unguarded_partition_pivot v first last).1.Perm v ∧
    (unguarded_partition_pivot v first last).2 ≤ v.length := by
  unfold unguarded_partition_pivot unguarded_partition
  simp only []
  have hm := move_median_to_first_perm v first (first + 1) (first + (last - first) / 2)
    (last - 1) (by omega) (by omega) (by omega) (by omega)
  have hlen := move_median_to_first_length v first (first + 1) (first + (last - first) / 2)
    (last - 1)
  obtain ⟨p1, _, p3⟩ := unguarded_partition_loop_spec first
    (move_median_to_first v first (first + 1) (first + (last - first) / 2) (last - 1)).length
    (move_median_to_first v first (first + 1) (first + (last - first) / 2) (last - 1))
    (first + 1) last (by omega) (by omega)
  exact ⟨p1.trans hm, by omega⟩

theorem set_elem_self (v : List (Int × Int)) (i : Nat) : v.set i (elem v i) = v := by
  by_cases hi : i < v.length
  · rw [elem_eq_getElem v i hi]
    apply List.ext_getElem (by simp)
    intro n h1 h2
    by_cases hn : i = n
    · subst hn; simp
    · rw [List.getElem_set_ne hn]
  · exact List.set_eq_of_length_le (by omega)

/-- Moving the hole: writing the element of position `c` at the hole `h` and then `x`
at `c` gives a rearrangement of writing `x` at `h`. -/
theorem hole_move (v : List (Int × Int)) (h c : Nat) (x : Int × Int) (hh : h < v.length)
    (hc : c < v.length) : ((v.set h (elem v c)).set c x).Perm (v.set h x) := by
  apply perm_of_countP
  intro b
  have e1 := count_set_elem v h hh (elem v c) b
  have e2 := count_set_elem (v.set h (elem v c)) c (by simpa using hc) x b
  have e3 := count_set_elem v h hh x b
  rw [elem_set v h c _ hh] at e2
  by_cases hhc : h = c
  · subst hhc
    simp only [if_true] at e2
    omega
  · simp only [hhc, if_false] at e2
    omega

/-- The loop of `__push_heap` fills the hole: the result is a rearrangement of the
vector with `value` written at the hole. -/
theorem push_heap_loop_spec (first topIndex : Nat) (value : Int × Int) :
    ∀ (k : Nat) (v : List (Int × Int)) (holeIndex : Nat), first + holeIndex < v.length →
    (push_heap_loop first topIndex value k v holeIndex).Perm
      (v.set (first + holeIndex) value) := by
  intro k
  induction k with
  | zero => intro v holeIndex _; exact List.Perm.refl _
  | succ k ih =>
    intro v holeIndex hh
    unfold push_heap_loop
    simp only []
    split_ifs with hc
    · have hp : first + (holeIndex - 1) / 2 < v.length := by omega
      exact (ih _ _ (by simpa using hp)).trans (hole_move v _ _ value hh hp)
    · exact List.Perm.refl _

theorem push_heap_spec (v : List (Int × Int)) (first holeIndex topIndex : Nat)
    (value : Int × Int) (hh : first + holeIndex < v.length) :
    (push_heap v first holeIndex topIndex value).Perm (v.set (first + holeIndex) value) :=
  push_heap_loop_spec first topIndex value holeIndex v holeIndex hh

/-- The loop of `__adjust_heap` moves the hole down inside the heap: with any element
written at the hole, the vector after the loop is a rearrangement of the vector before
it. -/
theorem adjust_heap_loop_spec (first len : Nat) : ∀ (k : Nat) (v : List (Int × Int))
    (holeIndex secondChild : Nat), first + len ≤ v.length → holeIndex < len →
    (adjust_heap_loop first len k v holeIndex secondChild).1.length = v.length ∧
    (adjust_heap_loop first len k v holeIndex secondChild).2.1 < len ∧
    ∀ x : Int × Int,
      ((adjust_heap_loop first len k v holeIndex secondChild).1.set
        (first + (adjust_heap_loop first len k v holeIndex secondChild).2.1) x).Perm
        (v.set (first + holeIndex) x) := by
  intro k
  induction k with
  | zero =>
    intro v holeIndex secondChild _ hh
    exact ⟨rfl, hh, fun x => List.Perm.refl _⟩
  | succ k ih =>
    intro v holeIndex secondChild hl hh
    unfold adjust_heap_loop
    simp only []
    by_cases hc : secondChild < (len - 1) / 2
    · rw [if_pos hc]
      by_cases hcmp : compCidr (elem v (first + 2 * (secondChild + 1)))
          (elem v (first + (2 * (secondChild + 1) - 1))) = true
      · rw [if_pos hcmp]
        have hs : 2 * (secondChild + 1) - 1 < len := by omega
        obtain ⟨i1, i2, i3⟩ := ih (v.set (first + holeIndex)
          (elem v (first + (2 * (secondChild + 1) - 1)))) (2 * (secondChild + 1) - 1)
          (2 * (secondChild + 1) - 1) (by simpa using hl) hs
        refine ⟨by simpa using i1, i2, fun x => ?_⟩
        exact (i3 x).trans (hole_move v _ _ x (by omega) (by omega))
      · rw [if_neg hcmp]
        have hs : 2 * (secondChild + 1) < len := by omega
        obtain ⟨i1, i2, i3⟩ := ih (v.set (first + holeIndex)
          (elem v (first + 2 * (secondChild + 1)))) (2 * (secondChild + 1))
          (2 * (secondChild + 1)) (by simpa using hl) hs
        refine ⟨by simpa using i1, i2, fun x => ?_⟩
        exact (i3 x).trans (hole_move v _ _ x (by omega) (by omega))
    · rw [if_neg hc]
      exact ⟨rfl, hh, fun x => List.Perm.refl _⟩

/-- The function `__adjust_heap` on a heap inside the vector: the result is a
rearrangement of the vector with `value` written at the hole. -/
theorem adjust_heap_spec (v : List (Int × Int)) (first holeIndex len : Nat)
    (value : Int × Int) (hl : first + len ≤ v.length) (hh : holeIndex < len) :
    (adjust_heap v first holeIndex len value).Perm (v.set (first + holeIndex) value) := by
  obtain ⟨i1, i2, i3⟩ := adjust_heap_loop_spec first len len v holeIndex holeIndex hl hh
  unfold adjust_heap
  simp only []
  split_ifs with hc
  · have hch : 2 * ((adjust_heap_loop first len len v holeIndex holeIndex).2.2 + 1) - 1 < len := by
      omega
    refine (push_heap_spec _ first _ holeIndex value (by simp; omega)).trans ?_
    exact (hole_move _ _ _ value (by omega) (by omega)).trans (i3 value)
  · exact (push_heap_spec _ first _ holeIndex value (by omega)).trans (i3 value)

theorem pop_heap_spec (v : List (Int × Int)) (first last result : Nat)
    (hr : result < v.length) (hl : last ≤ v.length) (hf : first < last) :
    (pop_heap v first last result).Perm v := by
  unfold pop_heap
  have h1 := adjust_heap_spec (v.set result (elem v first)) first 0 (last - first)
    (elem v result) (by simp; omega) (by omega)
  refine h1.trans ?_
  exact iter_swap_perm v result first hr (by omega)

theorem make_heap_loop_spec (first len : Nat) : ∀ (parent : Nat) (v : List (Int × Int)),
    first + len ≤ v.length → parent < len → (make_heap_loop first len v parent).Perm v := by
  intro parent
  induction parent with
  | zero =>
    intro v hl hp
    unfold make_heap_loop
    have := adjust_heap_spec v first 0 len (elem v first) hl hp
    rw [Nat.add_zero, set_elem_self] at this
    exact this
  | succ p ih =>
    intro v hl hp
    unfold make_heap_loop
    have h1 := adjust_heap_spec v first (p + 1) len (elem v (first + (p + 1))) hl hp
    rw [set_elem_self] at h1
    exact (ih _ (by rw [h1.length_eq]; exact hl) (by omega)).trans h1

theorem make_heap_spec (v : List (Int × Int)) (first last : Nat) (hl : last ≤ v.length) :
    (make_heap v first last).Perm v := by
  unfold make_heap
  split_ifs with hc
  · exact List.Perm.refl _
  · exact make_heap_loop_spec first (last - first) _ v (by omega) (by omega)

theorem heap_select_loop_spec (first middle : Nat) (hf : first < middle) :
    ∀ (k : Nat) (v : List (Int × Int)) (i : Nat), middle ≤ v.length → i + k ≤ v.length →
    (heap_select_loop first middle k v i).Perm v := by
  intro k
  induction k with
  | zero => intro v i _ _; exact List.Perm.refl _
  | succ k ih =>
    intro v i hm hi
    unfold heap_select_loop
    split_ifs
    · have h1 := pop_heap_spec v first middle i (by omega) hm hf
      exact (ih _ _ (by rw [h1.length_eq]; exact hm) (by rw [h1.length_eq]; omega)).trans h1
    · exact ih _ _ hm (by omega)

theorem sort_heap_loop_spec (first : Nat) : ∀ (k : Nat) (v : List (Int × Int)) (last : Nat),
    last ≤ v.length → (sort_heap_loop first k v last).Perm v := by
  intro k
  induction k with
  | zero => intro v last _; exact List.Perm.refl _
  | succ k ih =>
    intro v last hl
    unfold sort_heap_loop
    split_ifs with hc
    · have h1 := pop_heap_spec v first (last - 1) (last - 1) (by omega) (by omega) (by omega)
      exact (ih _ _ (by rw [h1.length_eq]; omega)).trans h1
    · exact List.Perm.refl _

/-- The function `__partial_sort` on a range inside the vector keeps the elements of
the vector. -/
theorem partial_sort_spec (v : List (Int × Int)) (first middle last : Nat)
    (hf : first < middle) (hm : middle ≤ last) (hl : last ≤ v.length) :
    (partial_sort v first middle last).Perm v := by
  unfold partial_sort sort_heap heap_select
  have h1 := make_heap_spec v first middle (by omega)
  have h2 := heap_select_loop_spec first middle hf (last - middle) (make_heap v first middle)
    middle (by rw [h1.length_eq]; omega) (by rw [h1.length_eq]; omega)
  have h3 := sort_heap_loop_spec first (middle - first)
    (heap_select_loop first middle (last - middle) (make_heap v first middle) middle) middle
    (by rw [h2.length_eq, h1.length_eq]; omega)
  exact h3.trans (h2.trans h1)

/-- The function `__introsort_loop` on a range inside the vector keeps the elements of
the vector. -/
theorem introsort_loop_perm : ∀ (depth_limit : Nat) (v : List (Int × Int))
    (first last : Nat), last ≤ v.length → (introsort_loop depth_limit v first last).Perm v := by
  intro d
  induction d with
  | zero =>
    intro v first last hl
    unfold introsort_loop
    split_ifs with hc
    · exact partial_sort_spec v first last last (by omega) (le_refl _) hl
    · exact List.Perm.refl _
  | succ d ih =>
    intro v first last hl
    unfold introsort_loop
    split_ifs with hc
    · obtain ⟨p1, p2⟩ := unguarded_partition_pivot_spec v first last hl hc
      have h1 := ih (unguarded_partition_pivot v first last).1
        (unguarded_partition_pivot v first last).2 last (by rw [p1.length_eq]; exact hl)
      have h2 := ih (introsort_loop d (unguarded_partition_pivot v first last).1
        (unguarded_partition_pivot v first last).2 last) first
        (unguarded_partition_pivot v first last).2
        (by rw [h1.length_eq, p1.length_eq]; exact p2)
      exact h2.trans (h1.trans p1)
    · exact List.Perm.refl _

/-- A range of at most 16 elements is left as it is by `__introsort_loop`. -/
theorem introsort_loop_corto (depth_limit : Nat) (v : List (Int × Int)) (first last : Nat)
    (h : last - first ≤ 16) : introsort_loop depth_limit v first last = v := by
  cases depth_limit with
  | zero => unfold introsort_loop; rw [if_neg (by omega)]
  | succ d => unfold introsort_loop; rw [if_neg (by omega)]

/-! ## `std::sort` of libstdc++: the final insertion sort -/

theorem elem_append_right (a : List (Int × Int)) (x : Int × Int) (b : List (Int × Int)) :
    elem (a ++ x :: b) a.length = x := by
  unfold elem
  rw [List.getD_eq_getElem _ _ (by simp), List.getElem_append_right (le_refl _)]
  simp

theorem set_append_right (a : List (Int × Int)) (x y : Int × Int) (b : List (Int × Int)) :
    (a ++ x :: b).set a.length y = a ++ y :: b := by
  rw [List.set_append_right _ _ (le_refl _)]
  simp

/-- The loop of `__unguarded_linear_insert` on a vector that starts with a run, from
the position right after the run: the run with `val` put into it, then the rest of the
vector. -/
theorem unguarded_linear_insert_loop_eq (val : Int × Int) : ∀ (r : List (Int × Int))
    (y : Int × Int) (rest : List (Int × Int)),
    unguarded_linear_insert_loop val (r.reverse ++ y :: rest) r.length =
      (insertarDesdeFinal val r).reverse ++ rest := by
  intro r
  induction r with
  | nil => intro y rest; simp [unguarded_linear_insert_loop, insertarDesdeFinal]
  | cons x r ih =>
    intro y rest
    have hv : (x :: r).reverse ++ y :: rest = r.reverse ++ x :: y :: rest := by simp
    have he : elem ((x :: r).reverse ++ y :: rest) r.length = x := by
      rw [hv]
      have := elem_append_right r.reverse x (y :: rest)
      rwa [List.length_reverse] at this
    have hs : ∀ z : Int × Int, ((x :: r).reverse ++ y :: rest).set (r.length + 1) z =
        r.reverse ++ x :: z :: rest := by
      intro z
      have h1 := set_append_right (r.reverse ++ [x]) y z rest
      simp only [List.length_append, List.length_reverse, List.length_singleton,
        List.append_assoc, List.singleton_append] at h1
      rw [hv]
      exact h1
    show unguarded_linear_insert_loop val ((x :: r).reverse ++ y :: rest) (r.length + 1) = _
    unfold unguarded_linear_insert_loop
    rw [he]
    by_cases hc : compCidr val x = true
    · rw [if_pos hc, hs, ih x (x :: rest)]
      simp [insertarDesdeFinal, hc]
    · rw [if_neg hc, hs]
      simp [insertarDesdeFinal, hc]

theorem unguarded_linear_insert_eq (r : List (Int × Int)) (x : Int × Int)
    (rest : List (Int × Int)) :
    unguarded_linear_insert (r.reverse ++ x :: rest) r.length =
      (insertarDesdeFinal x r).reverse ++ rest := by
  unfold unguarded_linear_insert
  have := elem_append_right r.reverse x rest
  rw [List.length_reverse] at this
  rw [this]
  exact unguarded_linear_insert_loop_eq x r x rest

theorem insertarDesdeFinal_length (val : Int × Int) (r : List (Int × Int)) :
    (insertarDesdeFinal val r).length = r.length + 1 := by
  induction r with
  | nil => rfl
  | cons x r ih =>
    unfold insertarDesdeFinal
    split_ifs <;> simp [ih]

theorem insertarDesdeFinal_perm (val : Int × Int) (r : List (Int × Int)) :
    (insertarDesdeFinal val r).Perm (val :: r) := by
  induction r with
  | nil => exact List.Perm.refl _
  | cons x r ih =>
    unfold insertarDesdeFinal
    split_ifs
    · exact (List.Perm.cons x ih).trans (List.Perm.swap val x r)
    · exact List.Perm.refl _

/-- Putting an element into a run that is sorted (last element first) leaves it
sorted. -/
theorem insertarDesdeFinal_sorted (val : Int × Int) (r : List (Int × Int))
    (h : r.Pairwise (fun a b => b.1 ≤ a.1)) :
    (insertarDesdeFinal val r).Pairwise (fun a b => b.1 ≤ a.1) := by
  induction r with
  | nil => simp [insertarDesdeFinal]
  | cons x r ih =>
    unfold insertarDesdeFinal
    rw [List.pairwise_cons] at h
    by_cases hc : compCidr val x = true
    · rw [if_pos hc, List.pairwise_cons]
      refine ⟨?_, ih h.2⟩
      intro y hy
      rcases List.mem_cons.mp ((insertarDesdeFinal_perm val r).mem_iff.mp hy) with e | e
      · subst e
        unfold compCidr at hc
        simp at hc
        omega
      · exact h.1 y e
    · rw [if_neg hc, List.pairwise_cons, List.pairwise_cons]
      unfold compCidr at hc
      simp at hc
      refine ⟨?_, h.1, h.2⟩
      intro y hy
      rcases List.mem_cons.mp hy with e | e
      · subst e; exact hc
      · have := h.1 y e
        omega

/-- An element that compares less than every element of the run goes to its end. -/
theorem insertarDesdeFinal_todos (val : Int × Int) (r : List (Int × Int))
    (h : ∀ y ∈ r, compCidr val y = true) : insertarDesdeFinal val r = r ++ [val] := by
  induction r with
  | nil => rfl
  | cons x r ih =>
    unfold insertarDesdeFinal
    rw [if_pos (h x (List.mem_cons_self _ _)), ih (fun y hy => h y (List.mem_cons_of_mem _ hy))]
    rfl

/-- The elements of one prefix keep their order when an element is put into the
run. -/
theorem insertarDesdeFinal_filter (val : Int × Int) (r : List (Int × Int)) (p : Int) :
    (insertarDesdeFinal val r).filter (fun x => decide (x.1 = p)) =
      (val :: r).filter (fun x => decide (x.1 = p)) := by
  induction r with
  | nil => rfl
  | cons x r ih =>
    unfold insertarDesdeFinal
    by_cases hc : compCidr val x = true
    · rw [if_pos hc]
      unfold compCidr at hc
      simp only [decide_eq_true_eq] at hc
      simp only [List.filter_cons] at ih ⊢
      rw [ih]
      by_cases h1 : val.1 = p
      · have h2 : ¬ x.1 = p := by omega
        simp [h1, h2]
      · simp [h1]
    · rw [if_neg hc]

/-- One round of the loop of `__insertion_sort` on a vector that starts with a sorted
run, at the position right after the run: the run with the element put into it, then
the rest of the vector. -/
theorem insertion_sort_step_eq (r : List (Int × Int)) (x : Int × Int)
    (rest : List (Int × Int)) (h : r.Pairwise (fun a b => b.1 ≤ a.1)) :
    insertion_sort_step (r.reverse ++ x :: rest) r.length =
      (insertarDesdeFinal x r).reverse ++ rest := by
  unfold insertion_sort_step
  have he := elem_append_right r.reverse x rest
  rw [List.length_reverse] at he
  rw [he]
  by_cases hc : compCidr x (elem (r.reverse ++ x :: rest) 0) = true
  · rw [if_pos hc]
    have htodos : ∀ y ∈ r, compCidr x y = true := by
      cases hrev : r.reverse with
      | nil =>
        rw [hrev] at hc
        simp [elem, compCidr] at hc
      | cons m t =>
        rw [hrev] at hc
        have hasc : (m :: t).Pairwise (fun a b => a.1 ≤ b.1) := by
          rw [← hrev, List.pairwise_reverse]
          exact h
        rw [List.pairwise_cons] at hasc
        have hm : x.1 < m.1 := by
          simpa [elem, compCidr] using hc
        intro y hy
        have hy2 : y ∈ m :: t := by rw [← hrev]; exact List.mem_reverse.mpr hy
        unfold compCidr
        simp only [decide_eq_true_eq]
        rcases List.mem_cons.mp hy2 with e | e
        · subst e; exact hm
        · have := hasc.1 y e
          omega
    have ht : (r.reverse ++ x :: rest).take r.length = r.reverse :=
      List.take_left' (List.length_reverse r)
    have hd : (r.reverse ++ x :: rest).drop (r.length + 1) = rest := by
      have : r.reverse ++ x :: rest = (r.reverse ++ [x]) ++ rest := by simp
      rw [this]
      exact List.drop_left' (by simp)
    rw [ht, hd, insertarDesdeFinal_todos x r htodos]
    simp
  · rw [if_neg hc]
    exact unguarded_linear_insert_eq r x rest

/-- The loop of `__insertion_sort` on a vector that starts with a sorted run, from the
position right after the run: the run with the next `k` elements put into it one by
one, then the rest of the vector. -/
theorem insertion_sort_loop_eq : ∀ (k : Nat) (r rest : List (Int × Int)),
    r.Pairwise (fun a b => b.1 ≤ a.1) → k ≤ rest.length →
    insertion_sort_loop k (r.reverse ++ rest) r.length =
      ((rest.take k).foldl (fun r x => insertarDesdeFinal x r) r).reverse ++ rest.drop k := by
  intro k
  induction k with
  | zero => intro r rest _ _; simp [insertion_sort_loop]
  | succ k ih =>
    intro r rest h hk
    cases rest with
    | nil => simp at hk
    | cons x rest =>
      unfold insertion_sort_loop
      rw [insertion_sort_step_eq r x rest h]
      have := ih (insertarDesdeFinal x r) rest (insertarDesdeFinal_sorted x r h)
        (by simpa using hk)
      rw [insertarDesdeFinal_length] at this
      rw [this]
      simp

/-- The loop of `__unguarded_insertion_sort` on a vector that starts with a run, from
the position right after the run. -/
theorem unguarded_insertion_sort_loop_eq : ∀ (k : Nat) (r rest : List (Int × Int)),
    k ≤ rest.length →
    unguarded_insertion_sort_loop k (r.reverse ++ rest) r.length =
      ((rest.take k).foldl (fun r x => insertarDesdeFinal x r) r).reverse ++ rest.drop k := by
  intro k
  induction k with
  | zero => intro r rest _; simp [unguarded_insertion_sort_loop]
  | succ k ih =>
    intro r rest hk
    cases rest with
    | nil => simp at hk
    | cons x rest =>
      unfold unguarded_insertion_sort_loop
      rw [unguarded_linear_insert_eq r x rest]
      have := ih (insertarDesdeFinal x r) rest (by simpa using hk)
      rw [insertarDesdeFinal_length] at this
      rw [this]
      simp

theorem foldl_insertar_length (l : List (Int × Int)) : ∀ r : List (Int × Int),
    (l.foldl (fun r x => insertarDesdeFinal x r) r).length = r.length + l.length := by
  induction l with
  | nil => intro r; rfl
  | cons x l ih =>
    intro r
    simp only [List.foldl_cons, ih, insertarDesdeFinal_length, List.length_cons]
    omega

theorem foldl_insertar_sorted (l : List (Int × Int)) : ∀ r : List (Int × Int),
    r.Pairwise (fun a b => b.1 ≤ a.1) →
    (l.foldl (fun r x => insertarDesdeFinal x r) r).Pairwise (fun a b => b.1 ≤ a.1) := by
  induction l with
  | nil => intro r h; exact h
  | cons x l ih =>
    intro r h
    exact ih _ (insertarDesdeFinal_sorted x r h)

theorem foldl_insertar_perm (l : List (Int × Int)) : ∀ r : List (Int × Int),
    (l.foldl (fun r x => insertarDesdeFinal x r) r).Perm (r ++ l) := by
  induction l with
  | nil => intro r; simp
  | cons x l ih =>
    intro r
    refine (ih _).trans ?_
    refine ((insertarDesdeFinal_perm x r).append_right l).trans ?_
    simp only [List.cons_append]
    exact List.perm_middle.symm

theorem foldl_insertar_filter (l : List (Int × Int)) (p : Int) : ∀ r : List (Int × Int),
    (l.foldl (fun r x => insertarDesdeFinal x r) r).filter (fun x => decide (x.1 = p)) =
      (l.filter (fun x => decide (x.1 = p))).reverse ++
        r.filter (fun x => decide (x.1 = p)) := by
  induction l with
  | nil => intro r; simp
  | cons x l ih =>
    intro r
    simp only [List.foldl_cons]
    rw [ih, insertarDesdeFinal_filter]
    by_cases h : x.1 = p
    · simp [List.filter_cons, h]
    · simp [List.filter_cons, h]

/-- The function `__final_insertion_sort` is the insertion sort from the left,
whatever the length of the vector. -/
theorem final_insertion_sort_eq (v : List (Int × Int)) :
    final_insertion_sort v = ordenarInsercion v := by
  unfold final_insertion_sort ordenarInsercion
  cases v with
  | nil => rfl
  | cons x rest =>
    have hone : ([x] : List (Int × Int)).Pairwise (fun a b => b.1 ≤ a.1) :=
      List.pairwise_singleton _ _
    have hstart : (x :: rest).foldl (fun r x => insertarDesdeFinal x r) [] =
        rest.foldl (fun r x => insertarDesdeFinal x r) [x] := rfl
    by_cases hlen : (x :: rest).length > 16
    · rw [if_pos hlen]
      simp only [List.length_cons] at hlen
      unfold insertion_sort unguarded_insertion_sort
      rw [if_neg (by decide)]
      have h1 := insertion_sort_loop_eq 15 [x] rest hone (by omega)
      simp only [List.reverse_singleton, List.singleton_append, List.length_singleton] at h1
      rw [show (16 : Nat) - 1 = 15 from rfl, h1]
      have hl16 : ((rest.take 15).foldl (fun r x => insertarDesdeFinal x r) [x]).length = 16 := by
        rw [foldl_insertar_length, List.length_take]
        simp only [List.length_singleton]
        omega
      have h2 := unguarded_insertion_sort_loop_eq ((x :: rest).length - 16)
        ((rest.take 15).foldl (fun r x => insertarDesdeFinal x r) [x]) (rest.drop 15)
        (by simp only [List.length_cons, List.length_drop]; omega)
      rw [hl16] at h2
      rw [h2, hstart]
      have hk : (x :: rest).length - 16 = (rest.drop 15).length := by
        simp only [List.length_cons, List.length_drop]; omega
      rw [hk, List.take_length, List.drop_length, List.append_nil, ← List.foldl_append,
        List.take_append_drop]
    · rw [if_neg hlen]
      unfold insertion_sort
      rw [if_neg (by simp)]
      have h1 := insertion_sort_loop_eq rest.length [x] rest hone (le_refl _)
      simp only [List.reverse_singleton, List.singleton_append, List.length_singleton] at h1
      simp only [List.length_cons, Nat.add_sub_cancel]
      rw [h1, hstart, List.take_length, List.drop_length, List.append_nil]

theorem ordenarInsercion_perm (v : List (Int × Int)) : (ordenarInsercion v).Perm v := by
  unfold ordenarInsercion
  refine (List.reverse_perm _).trans ?_
  simpa using foldl_insertar_perm v []

theorem ordenarInsercion_sorted (v : List (Int × Int)) :
    (ordenarInsercion v).Pairwise (fun a b => a.1 ≤ b.1) := by
  unfold ordenarInsercion
  rw [List.pairwise_reverse]
  exact foldl_insertar_sorted v [] List.Pairwise.nil

/-- Insertion sort from the left keeps the elements of every prefix in their
order. -/
theorem ordenarInsercion_filter (v : List (Int × Int)) (p : Int) :
    (ordenarInsercion v).filter (fun x => decide (x.1 = p)) =
      v.filter (fun x => decide (x.1 = p)) := by
  unfold ordenarInsercion
  rw [List.filter_reverse, foldl_insertar_filter]
  simp

/-! ## `std::sort` of libstdc++: what it returns -/

theorem std_sort_eq (v : List (Int × Int)) :
    std_sort v = ordenarInsercion (introsort_loop (lg v.length * 2) v 0 v.length) := by
  unfold std_sort
  split_ifs with h
  · have : v = [] := List.length_eq_zero.mp h
    subst this
    rfl
  · exact final_insertion_sort_eq _

/-- The `std::sort` of libstdc++ returns the elements of the vector. -/
theorem std_sort_perm (v : List (Int × Int)) : (std_sort v).Perm v := by
  rw [std_sort_eq]
  exact (ordenarInsercion_perm _).trans (introsort_loop_perm _ v 0 v.length (le_refl _))

/-- The `std::sort` of libstdc++ returns them in order of prefix. -/
theorem std_sort_sorted (v : List (Int × Int)) :
    (std_sort v).Pairwise (fun a b => a.1 ≤ b.1) := by
  rw [std_sort_eq]
  exact ordenarInsercion_sorted _

/-- On a vector of at most 16 elements the `std::sort` of libstdc++ is the insertion
sort alone, and keeps the elements of every prefix in their order. -/
theorem std_sort_estable (v : List (Int × Int)) (h : v.length ≤ 16) (p : Int) :
    (std_sort v).filter (fun x => decide (x.1 = p)) =
      v.filter (fun x => decide (x.1 = p)) := by
  rw [std_sort_eq, introsort_loop_corto _ v 0 v.length (by omega)]
  exact ordenarInsercion_filter v p

theorem sortCorrecto_plataformaGCC : SortCorrecto plataformaGCC :=
  fun l => ⟨std_sort_perm l, std_sort_sorted l⟩

/-! ## `std::sort` of libstdc++: the loops end before their counters do -/

theorem lgLoop_eq_log : ∀ (k n : Nat), n ≤ k → lgLoop k n = Nat.log 2 n := by
  intro k
  induction k with
  | zero =>
    intro n hn
    have : n = 0 := by omega
    subst this
    rw [Nat.log_of_lt (by decide)]
    rfl
  | succ k ih =>
    intro n hn
    unfold lgLoop
    by_cases h2 : 2 ≤ n
    · rw [if_pos h2, ih (n / 2) (by omega), Nat.log_of_one_lt_of_le (by decide) h2]
    · rw [if_neg h2, Nat.log_of_lt (by omega)]

/-- The value `lg n` is the integer part of the binary logarithm of `n`. -/
theorem lg_eq_log (n : Nat) : lg n = Nat.log 2 n :=
  lgLoop_eq_log n n (le_refl _)

/-- The loop of `__unguarded_partition` returns before its counter runs out: with any
two counts above `last - first` the result is the same. -/
theorem unguarded_partition_loop_fuel (pivot : Nat) : ∀ (k k2 : Nat) (v : List (Int × Int))
    (first last : Nat), last - first < k → last - first < k2 →
    unguarded_partition_loop pivot k v first last =
      unguarded_partition_loop pivot k2 v first last := by
  intro k
  induction k with
  | zero => intro k2 v first last h; omega
  | succ k ih =>
    intro k2 v first last h1 h2
    cases k2 with
    | zero => omega
    | succ k2 =>
      unfold unguarded_partition_loop
      simp only []
      have ha := avanzar_ge v pivot (v.length - first) first
      have hr := retroceder_le v pivot (last - 1)
      by_cases hc : avanzar v pivot first (v.length - first) < retroceder v pivot (last - 1)
      · rw [if_neg (not_not.mpr hc), if_neg (not_not.mpr hc)]
        exact ih k2 _ _ _ (by omega) (by omega)
      · rw [if_pos hc, if_pos hc]

/-- The loop of `__push_heap` ends before its counter runs out: with any two counts
from `holeIndex` on the result is the same. -/
theorem push_heap_loop_fuel (first topIndex : Nat) (value : Int × Int) :
    ∀ (k k2 : Nat) (v : List (Int × Int)) (holeIndex : Nat), holeIndex ≤ k → holeIndex ≤ k2 →
    push_heap_loop first topIndex value k v holeIndex =
      push_heap_loop first topIndex value k2 v holeIndex := by
  intro k
  induction k with
  | zero =>
    intro k2 v holeIndex h1 _
    have h0 : holeIndex = 0 := by omega
    subst h0
    cases k2 with
    | zero => rfl
    | succ k2 =>
      unfold push_heap_loop
      simp
  | succ k ih =>
    intro k2 v holeIndex h1 h2
    cases k2 with
    | zero =>
      have h0 : holeIndex = 0 := by omega
      subst h0
      unfold push_heap_loop
      simp
    | succ k2 =>
      unfold push_heap_loop
      simp only []
      split_ifs with hc
      · exact ih k2 _ _ (by omega) (by omega)
      · rfl

/-- The loop of `__adjust_heap` ends before its counter runs out: with any two counts
from `(len - 1) / 2 - secondChild` on the result is the same. -/
theorem adjust_heap_loop_fuel (first len : Nat) : ∀ (k k2 : Nat) (v : List (Int × Int))
    (holeIndex secondChild : Nat), (len - 1) / 2 - secondChild ≤ k →
    (len - 1) / 2 - secondChild ≤ k2 →
    adjust_heap_loop first len k v holeIndex secondChild =
      adjust_heap_loop first len k2 v holeIndex secondChild := by
  intro k
  induction k with
  | zero =>
    intro k2 v holeIndex secondChild h1 _
    cases k2 with
    | zero => rfl
    | succ k2 =>
      unfold adjust_heap_loop
      rw [if_neg (by omega)]
  | succ k ih =>
    intro k2 v holeIndex secondChild h1 h2
    cases k2 with
    | zero =>
      unfold adjust_heap_loop
      rw [if_neg (by omega)]
    | succ k2 =>
      unfold adjust_heap_loop
      simp only []
      by_cases hc : secondChild < (len - 1) / 2
      · rw [if_pos hc, if_pos hc]
        split_ifs
        · exact ih k2 _ _ _ (by omega) (by omega)
        · exact ih k2 _ _ _ (by omega) (by omega)
      · rw [if_neg hc, if_neg hc]

/-! ## The order of the rows: claims -/

/-- The rows of a run follow the order `std::sort` gives the sized requests: for every
platform whose `std::sort` returns a sorted rearrangement, the rows are in order of
non-decreasing prefix, and in a run that is not stopped they are, one for one and in
order, the sized requests as `std::sort` returns them. -/
theorem filas_orden_de_sort (pl : Plataforma) (hpl : SortCorrecto pl)
    (ip : String) (cb : Int) (reqs : List Int) (csv : Bool) :
    (filas (calcularSubredes pl ip cb reqs csv)).Pairwise (fun s t => s.cidr ≤ t.cidr) ∧
    (subredes (calcularSubredes pl ip cb reqs csv)).Pairwise (fun s t => s.cidr ≤ t.cidr) ∧
    (abortada (calcularSubredes pl ip cb reqs csv) = false →
      (filas (calcularSubredes pl ip cb reqs csv)).map solicitud =
        pl.stdSort (dimensionadas pl reqs) ∧
      ((filas (calcularSubredes pl ip cb reqs csv)).map solicitud).Perm
        (dimensionadas pl reqs)) := by
  have hf : (filas (calcularSubredes pl ip cb reqs csv)).Pairwise
      (fun s t => s.cidr ≤ t.cidr) := by
    cases ha : abortada (calcularSubredes pl ip cb reqs csv) with
    | true =>
      rw [filas_calcularSubredes_abortada pl ip cb reqs csv ha]
      exact List.Pairwise.nil
    | false =>
      have h := (hpl (dimensionadas pl reqs)).2
      rw [← filas_calcularSubredes pl ip cb reqs csv ha, List.pairwise_map] at h
      exact h
  refine ⟨hf, hf.sublist (subredes_sublist_filas _), ?_⟩
  intro ha
  rw [filas_calcularSubredes pl ip cb reqs csv ha]
  exact ⟨rfl, (hpl (dimensionadas pl reqs)).1⟩

set_option maxRecDepth 1000000 in
/-- C19, refuted as stated: base 10.0.0.0/16 with the 17 requests 31, 32, ..., 47, with
the `std::sort` of libstdc++. Every request sizes to the prefix 26 and the run is not
stopped, but the rows are not in input order: the row at 10.0.0.0 is that of the
request 39, the ninth of the input, and the request 31, the first of the input, has
the tenth row, at 10.0.2.64. With more than 16 elements `std::sort` partitions the
vector, and the partition swaps elements that compare equal. -/
theorem calcularSubredes_empates_fuera_de_orden :
    (dimensionadas plataformaGCC
      [31, 32, 33, 34, 35, 36, 37, 38, 39, 40, 41, 42, 43, 44, 45, 46, 47]).map Prod.fst =
      [26, 26, 26, 26, 26, 26, 26, 26, 26, 26, 26, 26, 26, 26, 26, 26, 26] ∧
    abortada (calcularSubredes plataformaGCC "10.0.0.0" 16
      [31, 32, 33, 34, 35, 36, 37, 38, 39, 40, 41, 42, 43, 44, 45, 46, 47] false) = false ∧
    (filas (calcularSubredes plataformaGCC "10.0.0.0" 16
      [31, 32, 33, 34, 35, 36, 37, 38, 39, 40, 41, 42, 43, 44, 45, 46, 47] false)).map
      (fun s => (s.direccionRed, s.cidr, s.requestedHosts)) =
      [("10.0.0.0", 26, 39), ("10.0.0.64", 26, 47), ("10.0.0.128", 26, 46),
       ("10.0.0.192", 26, 45), ("10.0.1.0", 26, 44), ("10.0.1.64", 26, 43),
       ("10.0.1.128", 26, 42), ("10.0.1.192", 26, 41), ("10.0.2.0", 26, 40),
       ("10.0.2.64", 26, 31), ("10.0.2.128", 26, 38), ("10.0.2.192", 26, 37),
       ("10.0.3.0", 26, 36), ("10.0.3.64", 26, 35), ("10.0.3.128", 26, 34),
       ("10.0.3.192", 26, 33), ("10.0.4.0", 26, 32)] := by
  decide

/-- C19, amended. On every platform whose `std::sort` is that of libstdc++, for every
base network and request list, the rows the packing loop writes (subnet records and
"SIN ESPACIO" rows alike) are in order of non-decreasing prefix, and so are the subnet
records among them. In a run that is not stopped the rows are, one for one and in
order, the sized requests as `std::sort` returns them, each row with the prefix and the
host count of its request; and when at most 16 requests are sized, the requests of
every prefix have their rows in the order of the input. -/
theorem calcularSubredes_orden_por_prefijo (pl : Plataforma) (hs : pl.stdSort = std_sort)
    (ip : String) (cb : Int) (reqs : List Int) (csv : Bool) :
    (filas (calcularSubredes pl ip cb reqs csv)).Pairwise (fun s t => s.cidr ≤ t.cidr) ∧
    (subredes (calcularSubredes pl ip cb reqs csv)).Pairwise (fun s t => s.cidr ≤ t.cidr) ∧
    (abortada (calcularSubredes pl ip cb reqs csv) = false →
      (filas (calcularSubredes pl ip cb reqs csv)).map solicitud =
        std_sort (dimensionadas pl reqs) ∧
      ((filas (calcularSubredes pl ip cb reqs csv)).map solicitud).Perm
        (dimensionadas pl reqs) ∧
      ((dimensionadas pl reqs).length ≤ 16 → ∀ p : Int,
        ((filas (calcularSubredes pl ip cb reqs csv)).map solicitud).filter
            (fun x => decide (x.1 = p)) =
          (dimensionadas pl reqs).filter (fun x => decide (x.1 = p)))) := by
  have hpl : SortCorrecto pl := by
    intro l
    rw [hs]
    exact ⟨std_sort_perm l, std_sort_sorted l⟩
  obtain ⟨h1, h2, h3⟩ := filas_orden_de_sort pl hpl ip cb reqs csv
  refine ⟨h1, h2, ?_⟩
  intro ha
  obtain ⟨e1, e2⟩ := h3 ha
  rw [hs] at e1
  refine ⟨e1, e2, ?_⟩
  intro hlen p
  rw [e1]
  exact std_sort_estable _ hlen p

theorem calcularSubredes_orden_por_prefijo_witness :
    plataformaGCC.stdSort = std_sort ∧
    abortada (calcularSubredes plataformaGCC "192.168.1.0" 24 [10, 5, 50, 6] false) = false ∧
    (dimensionadas plataformaGCC [10, 5, 50, 6]).length ≤ 16 ∧
    (filas (calcularSubredes plataformaGCC "192.168.1.0" 24 [10, 5, 50, 6]
      false)).Pairwise (fun s t => s.cidr ≤ t.cidr) ∧
    ((filas (calcularSubredes plataformaGCC "192.168.1.0" 24 [10, 5, 50, 6]
      false)).map solicitud).Perm (dimensionadas plataformaGCC [10, 5, 50, 6]) ∧
    (∀ p : Int,
      ((filas (calcularSubredes plataformaGCC "192.168.1.0" 24 [10, 5, 50, 6]
        false)).map solicitud).filter (fun x => decide (x.1 = p)) =
        (dimensionadas plataformaGCC [10, 5, 50, 6]).filter (fun x => decide (x.1 = p))) ∧
    (filas (calcularSubredes plataformaGCC "192.168.1.0" 24 [10, 5, 50, 6]
      false)).map solicitud = [(26, 50), (28, 10), (29, 5), (29, 6)] :=
  ⟨rfl, by decide, by decide,
    (calcularSubredes_orden_por_prefijo plataformaGCC rfl "192.168.1.0" 24 [10, 5, 50, 6]
      false).1,
    ((calcularSubredes_orden_por_prefijo plataformaGCC rfl "192.168.1.0" 24 [10, 5, 50, 6]
      false).2.2 (by decide)).2.1,
    ((calcularSubredes_orden_por_prefijo plataformaGCC rfl "192.168.1.0" 24 [10, 5, 50, 6]
      false).2.2 (by decide)).2.2 (by decide),
    by decide⟩

end Calculadora
